import Mathlib

/-!
gg-parser: the token-level schema parser

A shallow embedding of `src/schema/parser.go` and `src/schema/schema.go`.

* Byte slices (`[]byte`) are strings; a slice that the code may leave `nil`
  is an `Option`.
* Go pointers that may be `nil` are `Option`s.
* `schema.go` declares `ArgumentDefinition.Type` as `[]byte`, and
  `parseArgument` assigns it the `*FieldType` it has parsed.  The structure
  follows the declaration; the bytes that the assignment leaves in the field
  are `argType`, a parameter of `parseArgument` and of every production that
  reaches it, and every theorem holds for every `argType`.
* Every production takes the token sequence and a cursor and returns the node
  and the advanced cursor, as in the source.  The Go `error` value is
  `Failure.error msg`; an index out of range (a run-time panic) is
  `Failure.panic`.
* The source's `for` loops and the recursion of `parseFieldType` carry a fuel
  argument: one unit per loop iteration or recursive call.  `Failure.outOfFuel`
  is the only artefact of the model; a run that is `outOfFuel` for every fuel
  is a run that does not terminate.
-/

namespace schema

/-! ## Tokens (the tokenizer's output contract) -/

/-- Modelled from the spec: the declaration of the token kinds lives in the
lexer, which is not part of the sources at hand.  The constructors are the
kind names that `parser.go` refers to. -/
inductive TokenType
  | Identifier | Field
  | ReservedType | Interface | Union | Enum | Input | Extend | ReservedSchema
  | Query | Mutate | Subscription
  | CurlyOpen | CurlyClose | ParenOpen | ParenClose | BracketOpen | BracketClose
  | Colon | Comma | Equal | Pipe | Exclamation
  | EOF
  deriving DecidableEq, Repr

/-- Modelled from the spec: a token is a kind (`Type` in the source, a reserved
word here) and the raw source bytes `Value`. -/
structure Token where
  Kind : TokenType
  Value : String
  deriving DecidableEq, Repr

abbrev Tokens := List Token

/-! ## Declaration tree (`schema.go`) -/

abbrev OperationType := String

def QueryOperation : OperationType := "query"
def MutationOperation : OperationType := "mutation"
def SubscriptionOperation : OperationType := "subscription"

structure FieldType where
  Name : Option String
  Nullable : Bool
  IsList : Bool
  ListType : Option FieldType
  deriving Repr

/-- `ArgumentDefinition` (schema.go 37-41): `Type` is declared `[]byte`.
`DefaultValue` is never assigned. -/
structure ArgumentDefinition where
  Name : String
  Typ : String
  DefaultValue : Option String := none
  deriving Repr

structure FieldDefinition where
  Name : String
  Arguments : List ArgumentDefinition
  Typ : Option FieldType
  deriving Repr

structure TypeDefinition where
  Name : String
  Fields : List FieldDefinition
  tokens : Tokens
  deriving Repr

structure OperationDefinition where
  OperationType : OperationType
  Name : Option String := none
  Fields : List FieldDefinition
  Typ : Option String := none
  deriving Repr

structure EnumDefinition where
  Name : String
  Values : List String
  deriving Repr

structure UnionDefinition where
  Name : String
  Types : List String
  deriving Repr

structure InterfaceDefinition where
  Name : String
  Fields : List FieldDefinition
  deriving Repr

structure DirectiveDefinition where
  Name : String
  Arguments : List ArgumentDefinition
  Locations : List String
  deriving Repr

structure InputDefinition where
  Name : String
  Fields : List FieldDefinition
  deriving Repr

structure Schema where
  tokens : Tokens
  Operations : List OperationDefinition := []
  Types : List TypeDefinition := []
  Enums : List EnumDefinition := []
  Unions : List UnionDefinition := []
  Interfaces : List InterfaceDefinition := []
  Directives : List DirectiveDefinition := []
  Inputs : List InputDefinition := []
  deriving Repr

/-! ## Results -/

inductive Failure
  | error (msg : String)
  | panic
  | outOfFuel
  deriving DecidableEq, Repr

abbrev Result (α : Type) := Except Failure α

/-- The indexing `tokens[cur]`: a panic when `cur` is out of range. -/
def tokenAt (tokens : Tokens) (cur : Nat) : Result Token :=
  match tokens[cur]? with
  | some t => .ok t
  | none => .error .panic

/-- The slice `tokens[start:cur]`. -/
def slice (tokens : Tokens) (start cur : Nat) : Tokens :=
  (tokens.drop start).take (cur - start)

/-- `fmt.Errorf("unexpected end of input")`. -/
def unexpectedEndOfInput : Failure := .error "unexpected end of input"

/-- `fmt.Errorf("unexpected token %s", string(value))`. -/
def unexpectedToken (value : String) : Failure := .error ("unexpected token " ++ value)

/-! ## Productions (`parser.go`) -/

/-- `parseFieldType` (parser.go 331-362); one unit of fuel per activation. -/
def parseFieldType : Nat → Tokens → Nat → Result (FieldType × Nat)
  | 0, _, _ => .error .outOfFuel
  | fuel + 1, tokens, cur => do
    let t ← tokenAt tokens cur
    let (name, cur) :=
      if t.Kind = .Identifier then (some t.Value, cur + 1) else (none, cur)
    let t ← tokenAt tokens cur
    let (listType, isList, cur) ←
      if t.Kind = .BracketOpen then do
        let (listType, newCur) ← parseFieldType fuel tokens (cur + 1)
        pure (some listType, true, newCur)
      else pure (none, false, cur)
    let t ← tokenAt tokens cur
    let (nullable, cur) :=
      if t.Kind = .Exclamation then (false, cur + 1) else (true, cur)
    let t ← tokenAt tokens cur
    let cur := if t.Kind = .BracketClose then cur + 1 else cur
    pure ({ Name := name, Nullable := nullable, IsList := isList, ListType := listType }, cur)

/-- `parseFieldDefinition` (parser.go 305-329). -/
def parseFieldDefinition (fuel : Nat) (tokens : Tokens) (cur : Nat) :
    Result (FieldDefinition × Nat) := do
  let name := (← tokenAt tokens cur).Value
  let cur := cur + 1
  let t ← tokenAt tokens cur
  if t.Kind ≠ .Colon then
    throw (.error ("expected ':' but got " ++ t.Value))
  let cur := cur + 1
  let t ← tokenAt tokens cur
  match t.Kind with
  | .Identifier | .BracketOpen =>
    let (fieldType, newCur) ← parseFieldType fuel tokens cur
    pure ({ Name := name, Arguments := [], Typ := some fieldType }, newCur)
  | _ => throw (.error ("expected identifier or '[' but got " ++ t.Value))

/-- The loop of `parseFieldDefinitions` (parser.go 284-300); the last case is the
switch falling through without a match. -/
def parseFieldDefinitionsLoop :
    Nat → Tokens → Nat → List FieldDefinition → Result (List FieldDefinition × Nat)
  | 0, _, _, _ => .error .outOfFuel
  | fuel + 1, tokens, cur, definitions =>
    if cur < tokens.length then do
      let t ← tokenAt tokens cur
      match t.Kind with
      | .CurlyOpen | .ParenOpen =>
        parseFieldDefinitionsLoop fuel tokens (cur + 1) definitions
      | .Field =>
        let (fieldDefinition, newCur) ← parseFieldDefinition fuel tokens cur
        parseFieldDefinitionsLoop fuel tokens newCur (definitions ++ [fieldDefinition])
      | .CurlyClose | .ParenClose => pure (definitions, cur)
      | .EOF => throw unexpectedEndOfInput
      | _ => parseFieldDefinitionsLoop fuel tokens cur definitions
    else throw unexpectedEndOfInput

/-- `parseFieldDefinitions` (parser.go 281-303). -/
def parseFieldDefinitions (fuel : Nat) (tokens : Tokens) (cur : Nat) :
    Result (List FieldDefinition × Nat) :=
  parseFieldDefinitionsLoop fuel tokens cur []

/-- `parseArgument` (parser.go 225-244).  Line 240, `arg.Type = fieldType`,
assigns the `*FieldType` that `parseFieldType` returned to a field that
`schema.go` declares `[]byte`: the two source files disagree and the assignment
does not type-check.  The source does not say which bytes the field holds after
that line; `argType` stands for them, as a function of the parsed type. -/
def parseArgument (argType : FieldType → String) (fuel : Nat) (tokens : Tokens) (cur : Nat) :
    Result (ArgumentDefinition × Nat) := do
  let name := (← tokenAt tokens cur).Value
  let cur := cur + 1
  let t ← tokenAt tokens cur
  if t.Kind ≠ .Colon then
    throw (.error ("expected ':' but got " ++ t.Value))
  let cur := cur + 1
  let (fieldType, newCur) ← parseFieldType fuel tokens cur
  pure ({ Name := name, Typ := argType fieldType }, newCur)

/-- The loop of `parseArguments` (parser.go 204-220); the last case is the switch
falling through without a match. -/
def parseArgumentsLoop (argType : FieldType → String) :
    Nat → Tokens → Nat → List ArgumentDefinition → Result (List ArgumentDefinition × Nat)
  | 0, _, _, _ => .error .outOfFuel
  | fuel + 1, tokens, cur, args =>
    if cur < tokens.length then do
      let t ← tokenAt tokens cur
      match t.Kind with
      | .ParenOpen | .Comma => parseArgumentsLoop argType fuel tokens (cur + 1) args
      | .Field =>
        let (arg, newCur) ← parseArgument argType fuel tokens cur
        parseArgumentsLoop argType fuel tokens newCur (args ++ [arg])
      | .ParenClose => pure (args, cur + 1)
      | _ => parseArgumentsLoop argType fuel tokens cur args
    else throw unexpectedEndOfInput

/-- `parseArguments` (parser.go 202-223). -/
def parseArguments (argType : FieldType → String) (fuel : Nat) (tokens : Tokens) (cur : Nat) :
    Result (List ArgumentDefinition × Nat) :=
  parseArgumentsLoop argType fuel tokens cur []

/-- `parseOperationField` (parser.go 173-200). -/
def parseOperationField (argType : FieldType → String) (fuel : Nat) (tokens : Tokens) (cur : Nat) :
    Result (FieldDefinition × Nat) := do
  let name := (← tokenAt tokens cur).Value
  let cur := cur + 1
  let (args, newCur) ← parseArguments argType fuel tokens cur
  let cur := newCur
  let t ← tokenAt tokens cur
  if t.Kind ≠ .Colon then
    throw (.error ("expected ':' but got " ++ t.Value))
  let cur := cur + 1
  let (fieldType, newCur) ← parseFieldType fuel tokens cur
  pure ({ Name := name, Arguments := args, Typ := some fieldType }, newCur)

/-- The loop of `parseOperationFields` (parser.go 153-168). -/
def parseOperationFieldsLoop (argType : FieldType → String) :
    Nat → Tokens → Nat → List FieldDefinition → Result (List FieldDefinition × Nat)
  | 0, _, _, _ => .error .outOfFuel
  | fuel + 1, tokens, cur, definitions =>
    if cur < tokens.length then do
      let t ← tokenAt tokens cur
      match t.Kind with
      | .Field =>
        let (fieldDefinition, newCur) ← parseOperationField argType fuel tokens cur
        parseOperationFieldsLoop argType fuel tokens newCur (definitions ++ [fieldDefinition])
      | .CurlyClose => pure (definitions, cur)
      | .EOF => throw unexpectedEndOfInput
      | _ => parseOperationFieldsLoop argType fuel tokens cur definitions
    else throw unexpectedEndOfInput

/-- `parseOperationFields` (parser.go 150-171). -/
def parseOperationFields (argType : FieldType → String) (fuel : Nat) (tokens : Tokens) (cur : Nat) :
    Result (List FieldDefinition × Nat) :=
  parseOperationFieldsLoop argType fuel tokens cur []

/-- The body loop of `parseOperationDefinition` (parser.go 132-145). -/
def parseOperationDefinitionLoop (argType : FieldType → String) :
    Nat → Tokens → Nat → OperationDefinition → Result (OperationDefinition × Nat)
  | 0, _, _, _ => .error .outOfFuel
  | fuel + 1, tokens, cur, operationDefinition =>
    if cur < tokens.length then do
      let t ← tokenAt tokens cur
      match t.Kind with
      | .Field =>
        let (fieldDefinitions, newCur) ← parseOperationFields argType fuel tokens cur
        parseOperationDefinitionLoop argType fuel tokens newCur
          { operationDefinition with Fields := operationDefinition.Fields ++ fieldDefinitions }
      | .CurlyClose => pure (operationDefinition, cur + 1)
      | _ => parseOperationDefinitionLoop argType fuel tokens cur operationDefinition
    else throw unexpectedEndOfInput

/-- `parseOperationDefinition` (parser.go 108-148). -/
def parseOperationDefinition (argType : FieldType → String) (fuel : Nat) (tokens : Tokens)
    (cur : Nat) :
    Result (OperationDefinition × Nat) := do
  let t ← tokenAt tokens cur
  let operationType ←
    match t.Kind with
    | .Query => pure QueryOperation
    | .Mutate => pure MutationOperation
    | .Subscription => pure SubscriptionOperation
    | _ => throw (unexpectedToken t.Value)
  let cur := cur + 1
  let t ← tokenAt tokens cur
  if t.Kind ≠ .CurlyOpen then
    throw (.error ("expected identifier but got " ++ t.Value))
  let cur := cur + 1
  parseOperationDefinitionLoop argType fuel tokens cur
    { OperationType := operationType, Fields := [] }

/-- The body loop of `parseTypeDefinition` (parser.go 89-103); `start` is the
cursor of the name, for the `tokens[start:cur]` slice. -/
def parseTypeDefinitionLoop :
    Nat → Tokens → Nat → Nat → TypeDefinition → Result (TypeDefinition × Nat)
  | 0, _, _, _, _ => .error .outOfFuel
  | fuel + 1, tokens, start, cur, definition =>
    if cur < tokens.length then do
      let t ← tokenAt tokens cur
      match t.Kind with
      | .Field =>
        let (fieldDefinitions, newCur) ← parseFieldDefinitions fuel tokens cur
        parseTypeDefinitionLoop fuel tokens start newCur
          { definition with Fields := definition.Fields ++ fieldDefinitions }
      | .CurlyClose => pure ({ definition with tokens := slice tokens start cur }, cur + 1)
      | _ => parseTypeDefinitionLoop fuel tokens start cur definition
    else throw unexpectedEndOfInput

/-- `parseTypeDefinition` (parser.go 76-106). -/
def parseTypeDefinition (fuel : Nat) (tokens : Tokens) (cur : Nat) :
    Result (TypeDefinition × Nat) := do
  let start := cur
  let name := (← tokenAt tokens cur).Value
  let cur := cur + 1
  let t ← tokenAt tokens cur
  if t.Kind ≠ .CurlyOpen then
    throw (.error ("expected '\x7b' but got " ++ t.Value))
  let cur := cur + 1
  parseTypeDefinitionLoop fuel tokens start cur { Name := name, Fields := [], tokens := [] }

/-- The body loop of `parseInterfaceDefinition` (parser.go 263-276). -/
def parseInterfaceDefinitionLoop :
    Nat → Tokens → Nat → InterfaceDefinition → Result (InterfaceDefinition × Nat)
  | 0, _, _, _ => .error .outOfFuel
  | fuel + 1, tokens, cur, interfaceDefinition =>
    if cur < tokens.length then do
      let t ← tokenAt tokens cur
      match t.Kind with
      | .Field =>
        let (fieldDefinitions, newCur) ← parseFieldDefinitions fuel tokens cur
        parseInterfaceDefinitionLoop fuel tokens newCur
          { interfaceDefinition with Fields := interfaceDefinition.Fields ++ fieldDefinitions }
      | .CurlyClose => pure (interfaceDefinition, cur + 1)
      | _ => parseInterfaceDefinitionLoop fuel tokens cur interfaceDefinition
    else throw unexpectedEndOfInput

/-- `parseInterfaceDefinition` (parser.go 246-279). The message of the first
error is built from `string(tokens[cur].Type)`; `kindText` stands for that
conversion of the lexer's kind type. -/
def parseInterfaceDefinition (kindText : TokenType → String) (fuel : Nat) (tokens : Tokens)
    (cur : Nat) : Result (InterfaceDefinition × Nat) := do
  let cur := cur + 1
  let t ← tokenAt tokens cur
  if t.Kind ≠ .Identifier then
    throw (.error ("expected identifier but got " ++ kindText t.Kind))
  let name := t.Value
  let cur := cur + 1
  let t ← tokenAt tokens cur
  if t.Kind ≠ .CurlyOpen then
    throw (.error ("expected '\x7b' but got " ++ t.Value))
  let cur := cur + 1
  parseInterfaceDefinitionLoop fuel tokens cur { Name := name, Fields := [] }

/-- The member loop of `parseUnionDefinition` (parser.go 381-407); an identifier
that does not follow `=` or `|` leaves the switch with nothing changed. -/
def parseUnionDefinitionLoop :
    Nat → Tokens → Nat → Token → UnionDefinition → Result (UnionDefinition × Nat)
  | 0, _, _, _, _ => .error .outOfFuel
  | fuel + 1, tokens, cur, prev, unionDefinition =>
    if cur < tokens.length then do
      let t ← tokenAt tokens cur
      match t.Kind with
      | .Pipe =>
        if prev.Kind = .Equal ∨ prev.Kind = .Identifier then
          parseUnionDefinitionLoop fuel tokens (cur + 1) t unionDefinition
        else throw (unexpectedToken t.Value)
      | .Identifier =>
        if prev.Kind = .Equal ∨ prev.Kind = .Pipe then
          parseUnionDefinitionLoop fuel tokens (cur + 1) t
            { unionDefinition with Types := unionDefinition.Types ++ [t.Value] }
        else parseUnionDefinitionLoop fuel tokens cur prev unionDefinition
      | .EOF =>
        if prev.Kind ≠ .Identifier then throw unexpectedEndOfInput
        else pure (unionDefinition, cur)
      | .ReservedType | .Union | .Enum | .Interface | .Input | .Extend | .ReservedSchema =>
        pure (unionDefinition, cur)
      | _ => throw (unexpectedToken t.Value)
    else throw unexpectedEndOfInput

/-- `parseUnionDefinition` (parser.go 364-410). -/
def parseUnionDefinition (fuel : Nat) (tokens : Tokens) (cur : Nat) :
    Result (UnionDefinition × Nat) := do
  let cur := cur + 1
  let t ← tokenAt tokens cur
  if t.Kind ≠ .Identifier then
    throw (.error ("expected identifier but got " ++ t.Value))
  let name := t.Value
  let cur := cur + 1
  let t ← tokenAt tokens cur
  if t.Kind ≠ .Equal then
    throw (.error ("expected '=' but got " ++ t.Value))
  let prev := t
  let cur := cur + 1
  parseUnionDefinitionLoop fuel tokens cur prev { Name := name, Types := [] }

/-- The loop of `Parse` (parser.go 28-71) over the tokens the lexer returned; the
last case is the switch falling through without a match. -/
def ParseLoop (argType : FieldType → String) (kindText : TokenType → String) :
    Nat → Tokens → Nat → Schema → Result Schema
  | 0, _, _, _ => .error .outOfFuel
  | fuel + 1, tokens, cur, schema =>
    if cur < tokens.length then do
      let t ← tokenAt tokens cur
      match t.Kind with
      | .ReservedType =>
        let cur := cur + 1
        if cur < tokens.length ∧ tokens[cur]?.map Token.Kind = some .Identifier then do
          let (typeDefinition, newCur) ← parseTypeDefinition fuel tokens cur
          ParseLoop argType kindText fuel tokens newCur
            { schema with Types := schema.Types ++ [typeDefinition] }
        else if cur < tokens.length then do
          let (operationDefinition, newCur) ← parseOperationDefinition argType fuel tokens cur
          ParseLoop argType kindText fuel tokens newCur
            { schema with Operations := schema.Operations ++ [operationDefinition] }
        else do
          let t ← tokenAt tokens cur
          throw (unexpectedToken t.Value)
      | .Interface =>
        let (interfaceDefinition, newCur) ← parseInterfaceDefinition kindText fuel tokens cur
        ParseLoop argType kindText fuel tokens newCur
          { schema with Interfaces := schema.Interfaces ++ [interfaceDefinition] }
      | .Union =>
        let (unionDefinition, newCur) ← parseUnionDefinition fuel tokens cur
        ParseLoop argType kindText fuel tokens newCur
          { schema with Unions := schema.Unions ++ [unionDefinition] }
      | .EOF => pure schema
      | _ => ParseLoop argType kindText fuel tokens cur schema
    else throw unexpectedEndOfInput

/-- The token-level `Parse`: what the source does once the lexer has returned
`tokens`. -/
def Parse (argType : FieldType → String) (kindText : TokenType → String) (fuel : Nat)
    (tokens : Tokens) : Result Schema :=
  ParseLoop argType kindText fuel tokens 0 { tokens := tokens }

/-! ## Source text of well-formed constructs

The claims speak of the tokens of well-formed constructs.  The definitions
below follow the grammar of the specification, not the parser: a construct, the
tokens it is written with, and the tree it denotes. -/

/-- A well-formed type expression `T ::= Name | Name! | [T] | [T]!`. -/
inductive TypeExpr
  | named (name : String) (nonNull : Bool)
  | list (elem : TypeExpr) (nonNull : Bool)
  deriving Repr

/-- The tree a type expression denotes: the name on the innermost level only,
`IsList`/`ListType` on every list level, `Nullable = false` exactly on the
levels trailed by `!`. -/
def TypeExpr.toFieldType : TypeExpr → FieldType
  | .named name nonNull =>
    { Name := some name, Nullable := !nonNull, IsList := false, ListType := none }
  | .list elem nonNull =>
    { Name := none, Nullable := !nonNull, IsList := true, ListType := some elem.toFieldType }

/-- The trailing `!` of a non-nullable level. -/
def bang (nonNull : Bool) : Tokens :=
  if nonNull then [⟨.Exclamation, "!"⟩] else []

/-- The tokens of a type expression. -/
def TypeExpr.render : TypeExpr → Tokens
  | .named name nonNull => ⟨.Identifier, name⟩ :: bang nonNull
  | .list elem nonNull =>
    ⟨.BracketOpen, "["⟩ :: (elem.render ++ ⟨.BracketClose, "]"⟩ :: bang nonNull)

/-- Nesting depth: the number of `parseFieldType` activations on the stack. -/
def TypeExpr.depth : TypeExpr → Nat
  | .named _ _ => 1
  | .list elem _ => elem.depth + 1

/-- One more token is consumed when a `]` follows the type expression. -/
def closeStep (nxt : Token) : Nat := if nxt.Kind = .BracketClose then 1 else 0

/-- A field of a type or interface block: `name: T`. -/
structure FieldSrc where
  name : String
  typ : TypeExpr
  deriving Repr

/-- The tokens of a field. -/
def FieldSrc.render (f : FieldSrc) : Tokens :=
  ⟨.Field, f.name⟩ :: ⟨.Colon, ":"⟩ :: f.typ.render

/-- The FieldDefinition a field denotes: no arguments, the tree of its type. -/
def FieldSrc.toFieldDefinition (f : FieldSrc) : FieldDefinition :=
  { Name := f.name, Arguments := [], Typ := some f.typ.toFieldType }

/-- The tokens of the fields of a block, one after the other. -/
def renderFields : List FieldSrc → Tokens
  | [] => []
  | f :: fs => f.render ++ renderFields fs

/-- An object type declaration `type name { fields }`. -/
structure TypeSrc where
  name : String
  fields : List FieldSrc
  deriving Repr

/-- The tokens from the name up to, not including, the closing brace. -/
def TypeSrc.body (d : TypeSrc) : Tokens :=
  ⟨.Identifier, d.name⟩ :: ⟨.CurlyOpen, "\x7b"⟩ :: renderFields d.fields

/-- The tokens of a declaration, from the `type` keyword to the closing brace. -/
def TypeSrc.render (d : TypeSrc) : Tokens :=
  ⟨.ReservedType, "type"⟩ :: (d.body ++ [⟨.CurlyClose, "\x7d"⟩])

/-- The TypeDefinition a declaration denotes; `tokens` is the slice from the name
up to the closing brace. -/
def TypeSrc.toTypeDefinition (d : TypeSrc) : TypeDefinition :=
  { Name := d.name, Fields := d.fields.map FieldSrc.toFieldDefinition, tokens := d.body }

/-- The tokens of a list of declarations. -/
def renderTypes : List TypeSrc → Tokens
  | [] => []
  | d :: ds => d.render ++ renderTypes ds

/-- An argument of an operation field: `name: T`. -/
structure ArgSrc where
  name : String
  typ : TypeExpr
  deriving Repr

/-- The tokens of an argument. -/
def ArgSrc.render (a : ArgSrc) : Tokens :=
  ⟨.Field, a.name⟩ :: ⟨.Colon, ":"⟩ :: a.typ.render

/-- The ArgumentDefinition of an argument: its name, and in `Type` the bytes
that `argType` gives for the FieldType of its type expression. -/
def ArgSrc.toArgumentDefinition (argType : FieldType → String) (a : ArgSrc) :
    ArgumentDefinition :=
  { Name := a.name, Typ := argType a.typ.toFieldType }

/-- The argument groups, separated by single commas. -/
def renderArgs : List ArgSrc → Tokens
  | [] => []
  | [a] => a.render
  | a :: b :: rest => a.render ++ ⟨.Comma, ","⟩ :: renderArgs (b :: rest)

/-- The parenthesised argument list. -/
def renderArgList (args : List ArgSrc) : Tokens :=
  ⟨.ParenOpen, "("⟩ :: (renderArgs args ++ [⟨.ParenClose, ")"⟩])

/-- The tag of each operation keyword as the specification names it: `query`,
`mutation` or `subscription`, spelled out. -/
def operationTag : TokenType → OperationType
  | .Query => "query"
  | .Mutate => "mutation"
  | .Subscription => "subscription"
  | _ => ""

/-- The tokens of `kw { f(a: T!): R }` and the end of input. -/
def operationExample (kw : TokenType) (kwText f a T R : String) : Tokens :=
  [⟨.ReservedType, "type"⟩, ⟨kw, kwText⟩, ⟨.CurlyOpen, "\x7b"⟩, ⟨.Field, f⟩, ⟨.ParenOpen, "("⟩,
    ⟨.Field, a⟩, ⟨.Colon, ":"⟩, ⟨.Identifier, T⟩, ⟨.Exclamation, "!"⟩, ⟨.ParenClose, ")"⟩,
    ⟨.Colon, ":"⟩, ⟨.Identifier, R⟩, ⟨.CurlyClose, "\x7d"⟩, ⟨.EOF, ""⟩]

/-- The tokens of `query { user: User }` and the end of input. -/
def noArgumentsExample : Tokens :=
  [⟨.ReservedType, "type"⟩, ⟨.Query, "query"⟩, ⟨.CurlyOpen, "\x7b"⟩, ⟨.Field, "user"⟩,
    ⟨.Colon, ":"⟩, ⟨.Identifier, "User"⟩, ⟨.CurlyClose, "\x7d"⟩, ⟨.EOF, ""⟩]

/-- The alternation rule of a union member list, after a token of kind `prev`:
a `|` only right after `=` or an identifier, an identifier only right after `=`
or `|`, and nothing else. -/
def alternates : TokenType → Tokens → Bool
  | _, [] => true
  | prev, t :: ts =>
    ((t.Kind == .Pipe && (prev == .Equal || prev == .Identifier))
      || (t.Kind == .Identifier && (prev == .Equal || prev == .Pipe)))
    && alternates t.Kind ts

/-- The kind of the last token of the member list (`prev` when it is empty). -/
def lastKind : TokenType → Tokens → TokenType
  | prev, [] => prev
  | _, t :: ts => lastKind t.Kind ts

/-- The raw texts of the identifiers of a member list, in source order. -/
def memberNames : Tokens → List String
  | [] => []
  | t :: ts => if t.Kind = .Identifier then t.Value :: memberNames ts else memberNames ts

/-- The member list `m1 | m2 | ... | mn`. -/
def renderMembers : List String → Tokens
  | [] => []
  | [m] => [⟨.Identifier, m⟩]
  | m :: m' :: ms => ⟨.Identifier, m⟩ :: ⟨.Pipe, "|"⟩ :: renderMembers (m' :: ms)

/-- The tokens of `union name = members`. -/
def renderUnion (name : String) (members : Tokens) : Tokens :=
  ⟨.Union, "union"⟩ :: ⟨.Identifier, name⟩ :: ⟨.Equal, "="⟩ :: members

/-- Every node of a FieldType tree: the node itself, then those of its
`ListType`. -/
def FieldType.nodes : FieldType → List FieldType
  | ⟨name, nullable, isList, none⟩ => [⟨name, nullable, isList, none⟩]
  | ⟨name, nullable, isList, some elem⟩ => ⟨name, nullable, isList, some elem⟩ :: elem.nodes

/-- `IsList` is set exactly when `ListType` is. -/
def FieldType.listConsistent (n : FieldType) : Bool := n.IsList == n.ListType.isSome

/-- The FieldType nodes of a field: those of its type.  Its arguments hold
bytes (`ArgumentDefinition.Typ`), no FieldType. -/
def FieldDefinition.nodes (fd : FieldDefinition) : List FieldType :=
  match fd.Typ with
  | some ft => ft.nodes
  | none => []

/-- The FieldType nodes of a sequence of fields. -/
def fieldsNodes (fds : List FieldDefinition) : List FieldType :=
  fds.flatMap FieldDefinition.nodes

/-- Every FieldType node reachable in a Schema. -/
def Schema.nodes (s : Schema) : List FieldType :=
  s.Operations.flatMap (fun d => fieldsNodes d.Fields)
    ++ s.Types.flatMap (fun d => fieldsNodes d.Fields)
    ++ s.Interfaces.flatMap (fun d => fieldsNodes d.Fields)
    ++ s.Inputs.flatMap (fun d => fieldsNodes d.Fields)

/-- All the nodes of a list keep `IsList` and `ListType` in step. -/
def Good (l : List FieldType) : Prop := ∀ n ∈ l, n.listConsistent = true

/-- The shape the claim asks of a node: a named reference or a list wrapper,
not both and not neither. -/
def FieldType.namedOrList (n : FieldType) : Bool :=
  (n.Name.isSome && !n.IsList && n.ListType.isNone)
    || (n.IsList && n.ListType.isSome && n.Name.isNone)

/-- The tokens of `type T { f: Foo[] }` and the end of input. -/
def bothAndNeitherExample : Tokens :=
  [⟨.ReservedType, "type"⟩, ⟨.Identifier, "T"⟩, ⟨.CurlyOpen, "\x7b"⟩, ⟨.Field, "f"⟩,
    ⟨.Colon, ":"⟩, ⟨.Identifier, "Foo"⟩, ⟨.BracketOpen, "["⟩, ⟨.BracketClose, "]"⟩,
    ⟨.CurlyClose, "\x7d"⟩, ⟨.EOF, ""⟩]

/-- The Schema that `Parse` returns on `bothAndNeitherExample`. -/
def bothAndNeitherSchema : Schema :=
  { tokens := bothAndNeitherExample,
    Types :=
      [{ Name := "T",
         Fields :=
           [{ Name := "f", Arguments := [],
              Typ := some { Name := some "Foo", Nullable := true, IsList := true,
                            ListType := some { Name := none, Nullable := true,
                                               IsList := false, ListType := none } } }],
         tokens :=
           [⟨.Identifier, "T"⟩, ⟨.CurlyOpen, "\x7b"⟩, ⟨.Field, "f"⟩, ⟨.Colon, ":"⟩,
             ⟨.Identifier, "Foo"⟩, ⟨.BracketOpen, "["⟩, ⟨.BracketClose, "]"⟩] }] }

/-- The tree that `parseFieldType` returns on `[[Foo!]!]`: the two `!` sit on
the two inner levels. -/
def nestedListTree : FieldType :=
  { Name := none, Nullable := true, IsList := true,
    ListType := some
      { Name := none, Nullable := false, IsList := true,
        ListType := some
          { Name := some "Foo", Nullable := false, IsList := false, ListType := none } } }

/-- The kinds at which the member loop of `parseUnionDefinition` hands back to
the top level without consuming the token (parser.go 402). -/
def startsDeclaration : TokenType → Bool
  | .ReservedType | .Union | .Enum | .Interface | .Input | .Extend | .ReservedSchema => true
  | _ => false

/-- What a type block and an interface block have in common: the name, the
fields and the returned cursor. -/
def asInterface (r : TypeDefinition × Nat) : InterfaceDefinition × Nat :=
  ({ Name := r.1.Name, Fields := r.1.Fields }, r.2)

/-- The kinds that the switch in the loop of `parseFieldDefinitions` has a case
for (parser.go 285-299). -/
def fieldLoopHandles : TokenType → Bool
  | .CurlyOpen | .ParenOpen | .Field | .CurlyClose | .ParenClose | .EOF => true
  | _ => false

/-- The error message names the raw text: the text occurs in the message. -/
def mentions (msg raw : String) : Prop := raw.data <:+: msg.data

/-- The tokens of a field with no type: `name :` and then the token `x`. -/
def badField (fname : String) (x : Token) : Tokens :=
  [⟨.Field, fname⟩, ⟨.Colon, ":"⟩, x]

/-- The error of `parseFieldDefinition` when no type follows the colon
(parser.go 325). -/
def expectedTypeError (x : Token) : Failure :=
  .error ("expected identifier or '[' but got " ++ x.Value)

/-- The tokenizer contract: the last token of the sequence is the end-of-input
token. -/
def endsWithEOF (tokens : Tokens) : Bool :=
  match tokens.getLast? with
  | some t => t.Kind == .EOF
  | none => false

/-- A result that is no index panic and whose cursor, when there is one, lies
inside a sequence of `n` tokens. -/
def Safe {α : Type} (n : Nat) : Result (α × Nat) → Prop
  | .ok r => r.2 < n
  | .error e => e ≠ .panic

/-- A result that is a value, with its cursor from `lo` up to, not including,
`hi`. -/
def returnsWithin {α : Type} (lo hi : Nat) : Result (α × Nat) → Prop
  | .ok r => lo ≤ r.2 ∧ r.2 < hi
  | .error _ => False

/-- The tokens of `type T { a: A ( b: B }` and the end of input. -/
def skippedParenExample : Tokens :=
  [⟨.ReservedType, "type"⟩, ⟨.Identifier, "T"⟩, ⟨.CurlyOpen, "\x7b"⟩, ⟨.Field, "a"⟩,
    ⟨.Colon, ":"⟩, ⟨.Identifier, "A"⟩, ⟨.ParenOpen, "("⟩, ⟨.Field, "b"⟩, ⟨.Colon, ":"⟩,
    ⟨.Identifier, "B"⟩, ⟨.CurlyClose, "\x7d"⟩, ⟨.EOF, ""⟩]

/-! # Theorems -/

/-! ## Token access -/

theorem tokenAt_of_eq (a : Tokens) (t : Token) (b tokens : Tokens) (cur : Nat)
    (h : tokens = a ++ t :: b) (hc : cur = a.length) : tokenAt tokens cur = .ok t := by
  subst h hc
  rw [tokenAt, List.getElem?_append_right (Nat.le_refl _)]
  simp

theorem lt_length_of_tokenAt (tokens : Tokens) (cur : Nat) (t : Token)
    (h : tokenAt tokens cur = .ok t) : cur < tokens.length := by
  unfold tokenAt at h
  cases hg : tokens[cur]? with
  | none => simp [hg] at h
  | some x => exact (List.getElem?_eq_some_iff.mp hg).1

theorem TypeExpr.depth_pos (t : TypeExpr) : 0 < t.depth := by
  cases t <;> simp [TypeExpr.depth]

theorem TypeExpr.depth_le_length (t : TypeExpr) : t.depth ≤ t.render.length := by
  induction t with
  | named n nn => simp [TypeExpr.depth, TypeExpr.render]
  | list e nn ih => simp [TypeExpr.depth, TypeExpr.render]; omega

/-! ## Type expressions -/

/-- The rendering of a type expression parses back to its tree; a `]` that
follows is consumed as well. -/
theorem parseFieldType_render (t : TypeExpr) :
    ∀ (fuel : Nat) (pre : Tokens) (nxt : Token) (rest : Tokens),
      t.depth ≤ fuel → nxt.Kind ≠ .BracketOpen → nxt.Kind ≠ .Exclamation →
      parseFieldType fuel (pre ++ (t.render ++ nxt :: rest)) pre.length
        = .ok (t.toFieldType, pre.length + t.render.length + closeStep nxt) := by
  induction t with
  | named name nonNull =>
    intro fuel pre nxt rest hf h1 h2
    obtain ⟨fuel, rfl⟩ : ∃ k, fuel = k + 1 := ⟨fuel - 1, by simp [TypeExpr.depth] at hf; omega⟩
    have e0 : tokenAt (pre ++ ((TypeExpr.named name nonNull).render ++ nxt :: rest)) pre.length
        = .ok ⟨.Identifier, name⟩ :=
      tokenAt_of_eq pre _ (bang nonNull ++ nxt :: rest) _ _ (by simp [TypeExpr.render]) rfl
    cases nonNull
    · have e1 : tokenAt (pre ++ ((TypeExpr.named name false).render ++ nxt :: rest))
          (pre.length + 1) = .ok nxt :=
        tokenAt_of_eq (pre ++ [⟨.Identifier, name⟩]) _ rest _ _
          (by simp [TypeExpr.render, bang]) (by simp)
      generalize pre ++ ((TypeExpr.named name false).render ++ nxt :: rest) = toks at e0 e1
      simp [parseFieldType, bind, Except.bind, pure, Except.pure, e0, e1, h1, h2,
        TypeExpr.toFieldType, TypeExpr.render, bang, closeStep]
      split <;> simp_all
    · have e1 : tokenAt (pre ++ ((TypeExpr.named name true).render ++ nxt :: rest))
          (pre.length + 1) = .ok ⟨.Exclamation, "!"⟩ :=
        tokenAt_of_eq (pre ++ [⟨.Identifier, name⟩]) _ (nxt :: rest) _ _
          (by simp [TypeExpr.render, bang]) (by simp)
      have e2 : tokenAt (pre ++ ((TypeExpr.named name true).render ++ nxt :: rest))
          (pre.length + 1 + 1) = .ok nxt :=
        tokenAt_of_eq (pre ++ [⟨.Identifier, name⟩, ⟨.Exclamation, "!"⟩]) _ rest _ _
          (by simp [TypeExpr.render, bang]) (by simp)
      generalize pre ++ ((TypeExpr.named name true).render ++ nxt :: rest) = toks at e0 e1 e2
      simp [parseFieldType, bind, Except.bind, pure, Except.pure, e0, e1, e2, h1, h2,
        TypeExpr.toFieldType, TypeExpr.render, bang, closeStep]
      split <;> simp_all
  | list elem nonNull ih =>
    intro fuel pre nxt rest hf h1 h2
    obtain ⟨fuel, rfl⟩ : ∃ k, fuel = k + 1 := ⟨fuel - 1, by simp [TypeExpr.depth] at hf; omega⟩
    have hf2 : elem.depth ≤ fuel := by simp [TypeExpr.depth] at hf; omega
    have e0 : tokenAt (pre ++ ((TypeExpr.list elem nonNull).render ++ nxt :: rest)) pre.length
        = .ok ⟨.BracketOpen, "["⟩ :=
      tokenAt_of_eq pre _ (elem.render ++ ⟨.BracketClose, "]"⟩ :: (bang nonNull ++ nxt :: rest))
        _ _ (by simp [TypeExpr.render]) rfl
    have er := ih fuel (pre ++ [⟨.BracketOpen, "["⟩]) ⟨.BracketClose, "]"⟩
      (bang nonNull ++ nxt :: rest) hf2 (by simp) (by simp)
    have et : (pre ++ [⟨.BracketOpen, "["⟩])
          ++ (elem.render ++ ⟨.BracketClose, "]"⟩ :: (bang nonNull ++ nxt :: rest))
        = pre ++ ((TypeExpr.list elem nonNull).render ++ nxt :: rest) := by
      simp [TypeExpr.render]
    rw [et] at er
    simp only [List.length_append, List.length_singleton, closeStep, if_true] at er
    cases nonNull
    · have e1 : tokenAt (pre ++ ((TypeExpr.list elem false).render ++ nxt :: rest))
          (pre.length + 1 + elem.render.length + 1) = .ok nxt :=
        tokenAt_of_eq (pre ++ (TypeExpr.list elem false).render) _ rest _ _
          (by simp) (by simp [TypeExpr.render, bang]; omega)
      generalize pre ++ ((TypeExpr.list elem false).render ++ nxt :: rest) = toks at e0 e1 er
      simp [parseFieldType, bind, Except.bind, pure, Except.pure, e0, e1, er, h1, h2,
        TypeExpr.toFieldType, TypeExpr.render, bang, closeStep]
      split <;> simp_all <;> omega
    · have e1 : tokenAt (pre ++ ((TypeExpr.list elem true).render ++ nxt :: rest))
          (pre.length + 1 + elem.render.length + 1) = .ok ⟨.Exclamation, "!"⟩ :=
        tokenAt_of_eq (pre ++ ⟨.BracketOpen, "["⟩ :: (elem.render ++ [⟨.BracketClose, "]"⟩])) _
          (nxt :: rest) _ _ (by simp [TypeExpr.render, bang]) (by simp; omega)
      have e2 : tokenAt (pre ++ ((TypeExpr.list elem true).render ++ nxt :: rest))
          (pre.length + 1 + elem.render.length + 1 + 1) = .ok nxt :=
        tokenAt_of_eq (pre ++ (TypeExpr.list elem true).render) _ rest _ _
          (by simp) (by simp [TypeExpr.render, bang]; omega)
      generalize pre ++ ((TypeExpr.list elem true).render ++ nxt :: rest) = toks at e0 e1 e2 er
      simp [parseFieldType, bind, Except.bind, pure, Except.pure, e0, e1, e2, er, h1, h2,
        TypeExpr.toFieldType, TypeExpr.render, bang, closeStep]
      split <;> simp_all <;> omega

/-- Same, when the token that follows is not a `]`: the cursor stops on it. -/
theorem parseFieldType_render_stop (t : TypeExpr) (fuel : Nat) (pre : Tokens) (nxt : Token)
    (rest : Tokens) (hf : t.depth ≤ fuel) (h1 : nxt.Kind ≠ .BracketOpen)
    (h2 : nxt.Kind ≠ .Exclamation) (h3 : nxt.Kind ≠ .BracketClose) :
    parseFieldType fuel (pre ++ (t.render ++ nxt :: rest)) pre.length
      = .ok (t.toFieldType, pre.length + t.render.length) := by
  rw [parseFieldType_render t fuel pre nxt rest hf h1 h2]
  simp [closeStep, h3]

/-- C3: round trip of type expressions. For every well-formed type-expression
tree `t`, when the tokens at the cursor are the rendering of `t` followed by a
token that is not `[`, `!` or `]`, `parseFieldType` (with fuel for the nesting
depth) returns exactly the tree of `t` and the cursor of that following
token. -/
theorem C3_parseFieldType_roundtrip (t : TypeExpr) (fuel : Nat) (pre : Tokens) (nxt : Token)
    (rest : Tokens) (hf : t.depth ≤ fuel) (h1 : nxt.Kind ≠ .BracketOpen)
    (h2 : nxt.Kind ≠ .Exclamation) (h3 : nxt.Kind ≠ .BracketClose) :
    parseFieldType fuel (pre ++ (t.render ++ nxt :: rest)) pre.length
        = .ok (t.toFieldType, pre.length + t.render.length)
      ∧ tokenAt (pre ++ (t.render ++ nxt :: rest)) (pre.length + t.render.length) = .ok nxt :=
  ⟨parseFieldType_render_stop t fuel pre nxt rest hf h1 h2 h3,
    tokenAt_of_eq (pre ++ t.render) nxt rest _ _ (by simp) (by simp)⟩

/-- `[Foo]!` is a non-nullable list of nullable `Foo`, and `[Foo!]` a nullable
list of non-nullable `Foo`. -/
theorem C3_parseFieldType_roundtrip_witness :
    (parseFieldType 2
        [⟨.BracketOpen, "["⟩, ⟨.Identifier, "Foo"⟩, ⟨.BracketClose, "]"⟩, ⟨.Exclamation, "!"⟩,
          ⟨.CurlyClose, "\x7d"⟩] 0
      = .ok ({ Name := none, Nullable := false, IsList := true,
               ListType := some { Name := some "Foo", Nullable := true, IsList := false,
                                  ListType := none } }, 4))
    ∧ (parseFieldType 2
        [⟨.BracketOpen, "["⟩, ⟨.Identifier, "Foo"⟩, ⟨.Exclamation, "!"⟩, ⟨.BracketClose, "]"⟩,
          ⟨.CurlyClose, "\x7d"⟩] 0
      = .ok ({ Name := none, Nullable := true, IsList := true,
               ListType := some { Name := some "Foo", Nullable := false, IsList := false,
                                  ListType := none } }, 4)) :=
  ⟨(C3_parseFieldType_roundtrip (.list (.named "Foo" false) true) 2 [] ⟨.CurlyClose, "\x7d"⟩ []
      (by decide) (by decide) (by decide) (by decide)).1,
   (C3_parseFieldType_roundtrip (.list (.named "Foo" true) false) 2 [] ⟨.CurlyClose, "\x7d"⟩ []
      (by decide) (by decide) (by decide) (by decide)).1⟩

/-! ## The top-level loop -/

/-- The switch of `Parse` has no default case: on a token of any other kind
the loop goes round without moving the cursor, whatever the fuel. -/
theorem ParseLoop_stuck (argType : FieldType → String)
    (kindText : TokenType → String) (tokens : Tokens) (cur : Nat)
    (t : Token) (schema : Schema) (h : tokenAt tokens cur = .ok t)
    (h1 : t.Kind ≠ .ReservedType) (h2 : t.Kind ≠ .Interface) (h3 : t.Kind ≠ .Union)
    (h4 : t.Kind ≠ .EOF) :
    ∀ fuel, ParseLoop argType kindText fuel tokens cur schema = .error .outOfFuel := by
  intro fuel
  induction fuel with
  | zero => rfl
  | succ fuel ih =>
    have hlt := lt_length_of_tokenAt tokens cur t h
    obtain ⟨k, v⟩ := t
    cases k <;>
      first
      | exact absurd rfl h1
      | exact absurd rfl h2
      | exact absurd rfl h3
      | exact absurd rfl h4
      | (simp only [ParseLoop, hlt, if_true, h, bind, Except.bind]; exact ih)

/-- C1 (the code departs from it): when the top-level loop of `Parse` reaches a
token whose kind is none of `ReservedType`, `Interface`, `Union`, `EOF`, the
loop never returns: it is out of fuel for every fuel, so no `UnexpectedToken`
error is produced. -/
theorem C1_top_level_other_token_never_returns (argType : FieldType → String)
    (kindText : TokenType → String)
    (tokens : Tokens) (cur : Nat) (t : Token) (schema : Schema) (fuel : Nat)
    (h : tokenAt tokens cur = .ok t)
    (h1 : t.Kind ≠ .ReservedType) (h2 : t.Kind ≠ .Interface) (h3 : t.Kind ≠ .Union)
    (h4 : t.Kind ≠ .EOF) :
    ParseLoop argType kindText fuel tokens cur schema = .error .outOfFuel
      ∧ ParseLoop argType kindText fuel tokens cur schema ≠ .error (unexpectedToken t.Value) := by
  have hs := ParseLoop_stuck argType kindText tokens cur t schema h h1 h2 h3 h4 fuel
  refine ⟨hs, ?_⟩
  rw [hs]
  simp [unexpectedToken]

/-- The input `:` followed by end of input. -/
theorem C1_top_level_other_token_never_returns_witness :
    Parse (fun _ => "") (fun _ => "") 1000 [⟨.Colon, ":"⟩, ⟨.EOF, ""⟩] = .error .outOfFuel :=
  (C1_top_level_other_token_never_returns (fun _ => "") (fun _ => "") [⟨.Colon, ":"⟩, ⟨.EOF, ""⟩] 0
    ⟨.Colon, ":"⟩ { tokens := [⟨.Colon, ":"⟩, ⟨.EOF, ""⟩] } 1000 rfl
    (by decide) (by decide) (by decide) (by decide)).1

/-! ## Nesting of lists -/

/-- C4 as stated fails: on `[[Foo!]!]` followed by a closing brace the outermost
node comes back nullable. -/
theorem C4_outer_list_counterexample :
    parseFieldType 3
        [⟨.BracketOpen, "["⟩, ⟨.BracketOpen, "["⟩, ⟨.Identifier, "Foo"⟩, ⟨.Exclamation, "!"⟩,
          ⟨.BracketClose, "]"⟩, ⟨.Exclamation, "!"⟩, ⟨.BracketClose, "]"⟩,
          ⟨.CurlyClose, "\x7d"⟩] 0
      = .ok (nestedListTree, 7)
    ∧ nestedListTree.Nullable = true
    ∧ nestedListTree.Nullable ≠ false :=
  ⟨rfl, rfl, by decide⟩

/-- C4 (amended): `[[Foo!]!]` followed by a block-closing or field token parses
to a nullable list whose element is a non-nullable list whose element is the
non-nullable named type; the two `!` belong to the two inner levels. -/
theorem C4_nested_list_nullability (name : String) (fuel : Nat) (pre : Tokens) (nxt : Token)
    (rest : Tokens) (hf : 3 ≤ fuel) (hn : nxt.Kind = .CurlyClose ∨ nxt.Kind = .Field) :
    parseFieldType fuel
        (pre ++ ([⟨.BracketOpen, "["⟩, ⟨.BracketOpen, "["⟩, ⟨.Identifier, name⟩,
          ⟨.Exclamation, "!"⟩, ⟨.BracketClose, "]"⟩, ⟨.Exclamation, "!"⟩,
          ⟨.BracketClose, "]"⟩] ++ nxt :: rest)) pre.length
      = .ok ({ Name := none, Nullable := true, IsList := true,
               ListType := some
                 { Name := none, Nullable := false, IsList := true,
                   ListType := some
                     { Name := some name, Nullable := false, IsList := false,
                       ListType := none } } }, pre.length + 7) := by
  have h := parseFieldType_render_stop (.list (.list (.named name true) true) false) fuel pre
    nxt rest (by simpa [TypeExpr.depth] using hf)
    (by rcases hn with h | h <;> simp [h]) (by rcases hn with h | h <;> simp [h])
    (by rcases hn with h | h <;> simp [h])
  simpa [TypeExpr.render, TypeExpr.toFieldType, bang] using h

theorem C4_nested_list_nullability_witness :
    parseFieldType 3
        [⟨.BracketOpen, "["⟩, ⟨.BracketOpen, "["⟩, ⟨.Identifier, "Foo"⟩, ⟨.Exclamation, "!"⟩,
          ⟨.BracketClose, "]"⟩, ⟨.Exclamation, "!"⟩, ⟨.BracketClose, "]"⟩,
          ⟨.CurlyClose, "\x7d"⟩] 0
      = .ok ({ Name := none, Nullable := true, IsList := true,
               ListType := some
                 { Name := none, Nullable := false, IsList := true,
                   ListType := some
                     { Name := some "Foo", Nullable := false, IsList := false,
                       ListType := none } } }, 7) :=
  C4_nested_list_nullability "Foo" 3 [] ⟨.CurlyClose, "\x7d"⟩ [] (by decide) (Or.inl rfl)

/-! ## Type blocks -/

theorem parseFieldDefinition_render (f : FieldSrc) (fuel : Nat) (pre : Tokens) (nxt : Token)
    (rest : Tokens) (hf : f.typ.depth ≤ fuel) (h1 : nxt.Kind ≠ .BracketOpen)
    (h2 : nxt.Kind ≠ .Exclamation) (h3 : nxt.Kind ≠ .BracketClose) :
    parseFieldDefinition fuel (pre ++ (f.render ++ nxt :: rest)) pre.length
      = .ok (f.toFieldDefinition, pre.length + f.render.length) := by
  have e0 : tokenAt (pre ++ (f.render ++ nxt :: rest)) pre.length = .ok ⟨.Field, f.name⟩ :=
    tokenAt_of_eq pre _ (⟨.Colon, ":"⟩ :: (f.typ.render ++ nxt :: rest)) _ _
      (by simp [FieldSrc.render]) rfl
  have e1 : tokenAt (pre ++ (f.render ++ nxt :: rest)) (pre.length + 1) = .ok ⟨.Colon, ":"⟩ :=
    tokenAt_of_eq (pre ++ [⟨.Field, f.name⟩]) _ (f.typ.render ++ nxt :: rest) _ _
      (by simp [FieldSrc.render]) (by simp)
  have hr := parseFieldType_render_stop f.typ fuel (pre ++ [⟨.Field, f.name⟩, ⟨.Colon, ":"⟩])
    nxt rest hf h1 h2 h3
  have et : (pre ++ [⟨.Field, f.name⟩, ⟨.Colon, ":"⟩]) ++ (f.typ.render ++ nxt :: rest)
      = pre ++ (f.render ++ nxt :: rest) := by simp [FieldSrc.render]
  rw [et] at hr
  simp only [List.length_append, List.length_cons, List.length_nil] at hr
  have e2 : ∃ t, tokenAt (pre ++ (f.render ++ nxt :: rest)) (pre.length + 1 + 1) = .ok t
      ∧ (t.Kind = .Identifier ∨ t.Kind = .BracketOpen) := by
    cases hty : f.typ with
    | named n nn =>
      exact ⟨⟨.Identifier, n⟩, tokenAt_of_eq (pre ++ [⟨.Field, f.name⟩, ⟨.Colon, ":"⟩]) _
        (bang nn ++ nxt :: rest) _ _ (by simp [FieldSrc.render, hty, TypeExpr.render]) (by simp),
        Or.inl rfl⟩
    | list e nn =>
      exact ⟨⟨.BracketOpen, "["⟩, tokenAt_of_eq (pre ++ [⟨.Field, f.name⟩, ⟨.Colon, ":"⟩]) _
        (e.render ++ ⟨.BracketClose, "]"⟩ :: (bang nn ++ nxt :: rest)) _ _
        (by simp [FieldSrc.render, hty, TypeExpr.render]) (by simp), Or.inr rfl⟩
  obtain ⟨t, e2, hk⟩ := e2
  generalize pre ++ (f.render ++ nxt :: rest) = toks at e0 e1 e2 hr
  have hlen : pre.length + f.render.length = pre.length + (0 + 1 + 1) + f.typ.render.length := by
    simp [FieldSrc.render]; omega
  rw [hlen]
  obtain ⟨k, v⟩ := t
  rcases hk with hk | hk <;> simp only at hk <;> subst hk <;>
    simp [parseFieldDefinition, bind, Except.bind, pure, Except.pure, e0, e1, e2, hr,
      FieldSrc.toFieldDefinition]

theorem getElem?_of_eq (a : Tokens) (t : Token) (b tokens : Tokens) (cur : Nat)
    (h : tokens = a ++ t :: b) (hc : cur = a.length) : tokens[cur]? = some t := by
  subst h hc
  rw [List.getElem?_append_right (Nat.le_refl _)]
  simp

theorem fieldSrc_render_length (f : FieldSrc) : f.render.length = f.typ.render.length + 2 := by
  simp [FieldSrc.render]

/-- What follows a field inside a block: the next field or the closing token. -/
theorem renderFields_head (fs : List FieldSrc) (close : Token) (rest : Tokens) :
    ∃ nxt rest', renderFields fs ++ close :: rest = nxt :: rest'
      ∧ (nxt.Kind = .Field ∨ nxt = close) := by
  cases fs with
  | nil => exact ⟨close, rest, by simp [renderFields], Or.inr rfl⟩
  | cons f fs =>
    exact ⟨⟨.Field, f.name⟩, _, by simp [renderFields, FieldSrc.render]; rfl, Or.inl rfl⟩

theorem parseFieldDefinitionsLoop_render (fs : List FieldSrc) :
    ∀ (fuel : Nat) (pre : Tokens) (close : Token) (rest : Tokens) (acc : List FieldDefinition),
      (renderFields fs).length + 1 ≤ fuel → close.Kind = .CurlyClose →
      parseFieldDefinitionsLoop fuel (pre ++ (renderFields fs ++ close :: rest)) pre.length acc
        = .ok (acc ++ fs.map FieldSrc.toFieldDefinition,
            pre.length + (renderFields fs).length) := by
  induction fs with
  | nil =>
    intro fuel pre close rest acc hf hc
    obtain ⟨fuel, rfl⟩ : ∃ k, fuel = k + 1 := ⟨fuel - 1, by omega⟩
    have e0 : tokenAt (pre ++ (renderFields [] ++ close :: rest)) pre.length = .ok close :=
      tokenAt_of_eq pre _ rest _ _ (by simp [renderFields]) rfl
    have hlt := lt_length_of_tokenAt _ _ _ e0
    generalize pre ++ (renderFields [] ++ close :: rest) = toks at e0 hlt
    obtain ⟨k, v⟩ := close
    simp only at hc
    subst hc
    simp [parseFieldDefinitionsLoop, hlt, e0, bind, Except.bind, pure, Except.pure, renderFields]
  | cons f fs ih =>
    intro fuel pre close rest acc hf hc
    obtain ⟨fuel, rfl⟩ : ∃ k, fuel = k + 1 := ⟨fuel - 1, by omega⟩
    have hlen : (renderFields (f :: fs)).length
        = f.typ.render.length + 2 + (renderFields fs).length := by
      simp [renderFields, FieldSrc.render]; omega
    have hd := f.typ.depth_le_length
    obtain ⟨nxt, rest', hnx, hk⟩ := renderFields_head fs close rest
    have e0 : tokenAt (pre ++ (renderFields (f :: fs) ++ close :: rest)) pre.length
        = .ok ⟨.Field, f.name⟩ :=
      tokenAt_of_eq pre _ (⟨.Colon, ":"⟩ :: (f.typ.render ++ (renderFields fs ++ close :: rest)))
        _ _ (by simp [renderFields, FieldSrc.render]) rfl
    have hlt := lt_length_of_tokenAt _ _ _ e0
    have hnk : nxt.Kind ≠ .BracketOpen ∧ nxt.Kind ≠ .Exclamation ∧ nxt.Kind ≠ .BracketClose := by
      rcases hk with hk | hk
      · simp [hk]
      · subst hk; simp [hc]
    have e1 := parseFieldDefinition_render f fuel pre nxt rest' (by omega) hnk.1 hnk.2.1 hnk.2.2
    rw [← hnx] at e1
    have et : pre ++ (f.render ++ (renderFields fs ++ close :: rest))
        = pre ++ (renderFields (f :: fs) ++ close :: rest) := by simp [renderFields]
    rw [et] at e1
    have e2 := ih fuel (pre ++ f.render) close rest (acc ++ [f.toFieldDefinition])
      (by omega) hc
    have et2 : (pre ++ f.render) ++ (renderFields fs ++ close :: rest)
        = pre ++ (renderFields (f :: fs) ++ close :: rest) := by simp [renderFields]
    rw [et2] at e2
    simp only [List.length_append] at e2
    generalize pre ++ (renderFields (f :: fs) ++ close :: rest) = toks at e0 e1 e2 hlt
    simp [parseFieldDefinitionsLoop, hlt, e0, e1, e2, bind, Except.bind, renderFields]
    omega

theorem slice_of_eq (a body b tokens : Tokens) (start cur : Nat)
    (h : tokens = a ++ (body ++ b)) (hs : start = a.length) (hc : cur = a.length + body.length) :
    slice tokens start cur = body := by
  subst h hs hc
  simp [slice]

theorem parseTypeDefinition_render (d : TypeSrc) (fuel : Nat) (pre : Tokens) (close : Token)
    (rest : Tokens) (hf : (renderFields d.fields).length + 2 ≤ fuel)
    (hc : close.Kind = .CurlyClose) :
    parseTypeDefinition fuel (pre ++ (d.body ++ close :: rest)) pre.length
      = .ok (d.toTypeDefinition, pre.length + d.body.length + 1) := by
  obtain ⟨fuel, rfl⟩ : ∃ k, fuel = k + 1 := ⟨fuel - 1, by omega⟩
  have e0 : tokenAt (pre ++ (d.body ++ close :: rest)) pre.length = .ok ⟨.Identifier, d.name⟩ :=
    tokenAt_of_eq pre _ (⟨.CurlyOpen, "\x7b"⟩ :: (renderFields d.fields ++ close :: rest)) _ _
      (by simp [TypeSrc.body]) rfl
  have e1 : tokenAt (pre ++ (d.body ++ close :: rest)) (pre.length + 1)
      = .ok ⟨.CurlyOpen, "\x7b"⟩ :=
    tokenAt_of_eq (pre ++ [⟨.Identifier, d.name⟩]) _ (renderFields d.fields ++ close :: rest) _ _
      (by simp [TypeSrc.body]) (by simp)
  have eclose : tokenAt (pre ++ (d.body ++ close :: rest)) (pre.length + d.body.length)
      = .ok close :=
    tokenAt_of_eq (pre ++ d.body) _ rest _ _ (by simp) (by simp)
  have hltc := lt_length_of_tokenAt _ _ _ eclose
  have esl : slice (pre ++ (d.body ++ close :: rest)) pre.length (pre.length + d.body.length)
      = d.body := slice_of_eq pre d.body (close :: rest) _ _ _ rfl rfl rfl
  have hbl : d.body.length = (renderFields d.fields).length + 2 := by simp [TypeSrc.body]
  obtain ⟨ck, cv⟩ := close
  simp only at hc
  subst hc
  cases hfs : d.fields with
  | nil =>
    have hb0 : d.body.length = 2 := by simp [hbl, hfs, renderFields]
    rw [hb0] at eclose hltc esl ⊢
    generalize pre ++ (d.body ++ _ :: rest) = toks at e0 e1 eclose hltc esl
    simp [parseTypeDefinition, parseTypeDefinitionLoop, bind, Except.bind, pure, Except.pure,
      e0, e1, eclose, hltc, esl, TypeSrc.toTypeDefinition, hfs]
  | cons f fs =>
    have e2 : tokenAt (pre ++ (d.body ++ ⟨.CurlyClose, cv⟩ :: rest)) (pre.length + 1 + 1)
        = .ok ⟨.Field, f.name⟩ :=
      tokenAt_of_eq (pre ++ [⟨.Identifier, d.name⟩, ⟨.CurlyOpen, "\x7b"⟩]) _
        (⟨.Colon, ":"⟩ :: (f.typ.render ++ (renderFields fs ++ ⟨.CurlyClose, cv⟩ :: rest))) _ _
        (by simp [TypeSrc.body, hfs, renderFields, FieldSrc.render]) (by simp)
    have hlt2 := lt_length_of_tokenAt _ _ _ e2
    have e3 := parseFieldDefinitionsLoop_render d.fields fuel
      (pre ++ [⟨.Identifier, d.name⟩, ⟨.CurlyOpen, "\x7b"⟩]) ⟨.CurlyClose, cv⟩ rest []
      (by omega) rfl
    have et : (pre ++ [⟨.Identifier, d.name⟩, ⟨.CurlyOpen, "\x7b"⟩])
          ++ (renderFields d.fields ++ ⟨.CurlyClose, cv⟩ :: rest)
        = pre ++ (d.body ++ ⟨.CurlyClose, cv⟩ :: rest) := by simp [TypeSrc.body]
    rw [et] at e3
    have hl3 : (pre ++ ([⟨.Identifier, d.name⟩, ⟨.CurlyOpen, "\x7b"⟩] : Tokens)).length
        + (renderFields d.fields).length = pre.length + d.body.length := by
      simp [hbl]; omega
    rw [hl3] at e3
    simp only [List.length_append, List.length_cons, List.length_nil, List.nil_append] at e3
    obtain ⟨fuel, rfl⟩ : ∃ k, fuel = k + 1 := ⟨fuel - 1, by omega⟩
    generalize pre ++ (d.body ++ _ :: rest) = toks at e0 e1 e2 e3 eclose hltc hlt2 esl
    simp [parseTypeDefinition, parseTypeDefinitionLoop, parseFieldDefinitions, bind, Except.bind,
      pure, Except.pure, e0, e1, e2, e3, eclose, hltc, hlt2, esl, TypeSrc.toTypeDefinition]


theorem typeSrc_render_length (d : TypeSrc) :
    d.render.length = (renderFields d.fields).length + 4 := by
  simp [TypeSrc.render, TypeSrc.body]

theorem ParseLoop_renderTypes (argType : FieldType → String)
    (kindText : TokenType → String) (ds : List TypeSrc) :
    ∀ (fuel : Nat) (pre : Tokens) (eof : Token) (schema : Schema),
      (renderTypes ds).length + 1 ≤ fuel → eof.Kind = .EOF →
      ParseLoop argType kindText fuel (pre ++ (renderTypes ds ++ [eof])) pre.length schema
        = .ok { schema with Types := schema.Types ++ ds.map TypeSrc.toTypeDefinition } := by
  induction ds with
  | nil =>
    intro fuel pre eof schema hf he
    obtain ⟨fuel, rfl⟩ : ∃ k, fuel = k + 1 := ⟨fuel - 1, by omega⟩
    have e0 : tokenAt (pre ++ (renderTypes [] ++ [eof])) pre.length = .ok eof :=
      tokenAt_of_eq pre _ [] _ _ (by simp [renderTypes]) rfl
    have hlt := lt_length_of_tokenAt _ _ _ e0
    generalize pre ++ (renderTypes [] ++ [eof]) = toks at e0 hlt
    obtain ⟨k, v⟩ := eof
    simp only at he
    subst he
    simp [ParseLoop, hlt, e0, bind, Except.bind, pure, Except.pure]
  | cons d ds ih =>
    intro fuel pre eof schema hf he
    obtain ⟨fuel, rfl⟩ : ∃ k, fuel = k + 1 := ⟨fuel - 1, by omega⟩
    have hlen : (renderTypes (d :: ds)).length
        = (renderFields d.fields).length + 4 + (renderTypes ds).length := by
      simp [renderTypes, typeSrc_render_length]
    have e0 : tokenAt (pre ++ (renderTypes (d :: ds) ++ [eof])) pre.length
        = .ok ⟨.ReservedType, "type"⟩ :=
      tokenAt_of_eq pre _ (d.body ++ ⟨.CurlyClose, "\x7d"⟩ :: (renderTypes ds ++ [eof])) _ _
        (by simp [renderTypes, TypeSrc.render]) rfl
    have hlt := lt_length_of_tokenAt _ _ _ e0
    have e1 : (pre ++ (renderTypes (d :: ds) ++ [eof]))[pre.length + 1]?
        = some ⟨.Identifier, d.name⟩ :=
      getElem?_of_eq (pre ++ [⟨.ReservedType, "type"⟩]) _
        (⟨.CurlyOpen, "\x7b"⟩ :: (renderFields d.fields
          ++ ⟨.CurlyClose, "\x7d"⟩ :: (renderTypes ds ++ [eof]))) _ _
        (by simp [renderTypes, TypeSrc.render, TypeSrc.body]) (by simp)
    have hlt1 : pre.length + 1 < (pre ++ (renderTypes (d :: ds) ++ [eof])).length :=
      (List.getElem?_eq_some_iff.mp e1).1
    have e2 := parseTypeDefinition_render d fuel (pre ++ [⟨.ReservedType, "type"⟩])
      ⟨.CurlyClose, "\x7d"⟩ (renderTypes ds ++ [eof]) (by omega) rfl
    have et : (pre ++ [⟨.ReservedType, "type"⟩])
          ++ (d.body ++ ⟨.CurlyClose, "\x7d"⟩ :: (renderTypes ds ++ [eof]))
        = pre ++ (renderTypes (d :: ds) ++ [eof]) := by
      simp [renderTypes, TypeSrc.render]
    rw [et] at e2
    have e3 := ih fuel (pre ++ d.render) eof
      { schema with Types := schema.Types ++ [d.toTypeDefinition] } (by omega) he
    have et3 : (pre ++ d.render) ++ (renderTypes ds ++ [eof])
        = pre ++ (renderTypes (d :: ds) ++ [eof]) := by simp [renderTypes]
    rw [et3] at e3
    have hl3 : (pre ++ d.render).length
        = (pre ++ ([⟨.ReservedType, "type"⟩] : Tokens)).length + d.body.length + 1 := by
      simp [TypeSrc.render]; omega
    rw [hl3] at e3
    simp only [List.length_append, List.length_cons, List.length_nil] at e2 e3
    generalize pre ++ (renderTypes (d :: ds) ++ [eof]) = toks at e0 e1 e2 e3 hlt hlt1
    simp [ParseLoop, hlt, hlt1, e0, e1, e2, e3, bind, Except.bind]

/-- C2: for every list of object-type declarations, each written as `type`,
its name, `{`, its fields (`name : T` with `T` a well-formed type expression)
and `}`, the whole followed by the end-of-input token, `Parse` (with fuel for
the length of the token sequence) succeeds; the Schema has one TypeDefinition
per declaration, in source order, each with its fields in source order, and no
operations, interfaces or unions. -/
theorem C2_Parse_type_declarations (argType : FieldType → String)
    (kindText : TokenType → String) (ds : List TypeSrc)
    (eof : Token) (fuel : Nat) (hf : (renderTypes ds ++ [eof]).length ≤ fuel)
    (he : eof.Kind = .EOF) :
    Parse argType kindText fuel (renderTypes ds ++ [eof])
      = .ok { tokens := renderTypes ds ++ [eof],
              Types := ds.map TypeSrc.toTypeDefinition,
              Operations := [], Interfaces := [], Unions := [] } := by
  have h := ParseLoop_renderTypes argType kindText ds fuel [] eof
    { tokens := renderTypes ds ++ [eof] } (by simpa using hf) he
  simpa [Parse] using h

/-- The declaration `type User { name: String! friends: [User] }`. -/
theorem C2_Parse_type_declarations_witness :
    Parse (fun _ => "") (fun _ => "") 14
      [⟨.ReservedType, "type"⟩, ⟨.Identifier, "User"⟩, ⟨.CurlyOpen, "\x7b"⟩,
        ⟨.Field, "name"⟩, ⟨.Colon, ":"⟩, ⟨.Identifier, "String"⟩, ⟨.Exclamation, "!"⟩,
        ⟨.Field, "friends"⟩, ⟨.Colon, ":"⟩, ⟨.BracketOpen, "["⟩, ⟨.Identifier, "User"⟩,
        ⟨.BracketClose, "]"⟩, ⟨.CurlyClose, "\x7d"⟩, ⟨.EOF, ""⟩]
    = .ok { tokens :=
              [⟨.ReservedType, "type"⟩, ⟨.Identifier, "User"⟩, ⟨.CurlyOpen, "\x7b"⟩,
                ⟨.Field, "name"⟩, ⟨.Colon, ":"⟩, ⟨.Identifier, "String"⟩, ⟨.Exclamation, "!"⟩,
                ⟨.Field, "friends"⟩, ⟨.Colon, ":"⟩, ⟨.BracketOpen, "["⟩, ⟨.Identifier, "User"⟩,
                ⟨.BracketClose, "]"⟩, ⟨.CurlyClose, "\x7d"⟩, ⟨.EOF, ""⟩],
            Types :=
              [{ Name := "User",
                 Fields :=
                   [{ Name := "name", Arguments := [],
                      Typ := some { Name := some "String", Nullable := false, IsList := false,
                                    ListType := none } },
                    { Name := "friends", Arguments := [],
                      Typ := some { Name := none, Nullable := true, IsList := true,
                                    ListType := some { Name := some "User", Nullable := true,
                                                       IsList := false, ListType := none } } }],
                 tokens :=
                   [⟨.Identifier, "User"⟩, ⟨.CurlyOpen, "\x7b"⟩,
                     ⟨.Field, "name"⟩, ⟨.Colon, ":"⟩, ⟨.Identifier, "String"⟩,
                     ⟨.Exclamation, "!"⟩, ⟨.Field, "friends"⟩, ⟨.Colon, ":"⟩,
                     ⟨.BracketOpen, "["⟩, ⟨.Identifier, "User"⟩, ⟨.BracketClose, "]"⟩] }],
            Operations := [], Interfaces := [], Unions := [] } :=
  C2_Parse_type_declarations (fun _ => "") (fun _ => "")
    [{ name := "User",
       fields := [{ name := "name", typ := .named "String" true },
                  { name := "friends", typ := .list (.named "User" false) false }] }]
    ⟨.EOF, ""⟩ 14 (by decide) rfl

/-! ## Operations -/

/-- C6: for each of the three operation keywords and all names, `Parse` of
`kw { f(a: T!): R }` (with fuel for the length of the token sequence) succeeds
with exactly one OperationDefinition tagged `query`, `mutation` or
`subscription` for the keyword, holding one field `f` with the nullable named
return type `R` and one argument named `a`; no types, interfaces or unions are
produced.  The `Type` of the argument is not the non-nullable named type `T`:
the field is a byte string, and it holds whatever bytes `argType` gives for
that type. -/
theorem C6_Parse_operation (argType : FieldType → String)
    (kindText : TokenType → String) (kw : TokenType)
    (kwText f a T R : String) (fuel : Nat) (hf : 14 ≤ fuel)
    (hk : kw = .Query ∨ kw = .Mutate ∨ kw = .Subscription) :
    Parse argType kindText fuel (operationExample kw kwText f a T R)
      = .ok { tokens := operationExample kw kwText f a T R,
              Operations :=
                [{ OperationType := operationTag kw,
                   Fields :=
                     [{ Name := f,
                        Arguments :=
                          [{ Name := a,
                             Typ := argType { Name := some T, Nullable := false,
                                              IsList := false, ListType := none } }],
                        Typ := some { Name := some R, Nullable := true, IsList := false,
                                      ListType := none } }] }],
              Types := [], Interfaces := [], Unions := [] } := by
  obtain ⟨k, rfl⟩ : ∃ k, fuel = k + 14 := ⟨fuel - 14, by omega⟩
  rcases hk with rfl | rfl | rfl <;> rfl


/-- The block `query { user(id: ID!): User }`, when `Type` receives the name of
the parsed type. -/
theorem C6_Parse_operation_witness :
    Parse (fun ft => ft.Name.getD "") (fun _ => "") 14
        (operationExample .Query "query" "user" "id" "ID" "User")
      = .ok { tokens := operationExample .Query "query" "user" "id" "ID" "User",
              Operations :=
                [{ OperationType := "query",
                   Fields :=
                     [{ Name := "user",
                        Arguments :=
                          [{ Name := "id", Typ := "ID" }],
                        Typ := some { Name := some "User", Nullable := true, IsList := false,
                                      ListType := none } }] }],
              Types := [], Interfaces := [], Unions := [] } :=
  C6_Parse_operation (fun ft => ft.Name.getD "") (fun _ => "") .Query "query" "user" "id" "ID"
    "User" 14 (by decide) (Or.inl rfl)

/-- The switch of `parseArguments` has no default case: on a token that is
none of `(`, `,`, a field name or `)` the loop goes round without moving the
cursor, whatever the fuel. -/
theorem parseArgumentsLoop_stuck (argType : FieldType → String)
    (tokens : Tokens) (cur : Nat) (t : Token)
    (args : List ArgumentDefinition) (h : tokenAt tokens cur = .ok t)
    (h1 : t.Kind ≠ .ParenOpen) (h2 : t.Kind ≠ .Comma) (h3 : t.Kind ≠ .Field)
    (h4 : t.Kind ≠ .ParenClose) :
    ∀ fuel, parseArgumentsLoop argType fuel tokens cur args = .error .outOfFuel := by
  intro fuel
  induction fuel with
  | zero => rfl
  | succ fuel ih =>
    have hlt := lt_length_of_tokenAt tokens cur t h
    obtain ⟨k, v⟩ := t
    cases k <;>
      first
      | exact absurd rfl h1
      | exact absurd rfl h2
      | exact absurd rfl h3
      | exact absurd rfl h4
      | (simp only [parseArgumentsLoop, hlt, if_true, h, bind, Except.bind]; exact ih)

/-- An operation field whose name is followed by anything but `(`, `,`, a field
name or `)` (a colon, for one) never gets past its argument list. -/
theorem parseOperationField_stuck (argType : FieldType → String)
    (tokens : Tokens) (cur : Nat) (name t : Token)
    (h0 : tokenAt tokens cur = .ok name) (h : tokenAt tokens (cur + 1) = .ok t)
    (h1 : t.Kind ≠ .ParenOpen) (h2 : t.Kind ≠ .Comma) (h3 : t.Kind ≠ .Field)
    (h4 : t.Kind ≠ .ParenClose) (fuel : Nat) :
    parseOperationField argType fuel tokens cur = .error .outOfFuel := by
  simp [parseOperationField, parseArguments, h0, bind, Except.bind,
    parseArgumentsLoop_stuck argType tokens (cur + 1) t [] h h1 h2 h3 h4 fuel]

/-- C7 (the code departs from it): on `query { user: User }`, where the field
name is followed directly by the colon, neither `parseOperationField` nor
`Parse` returns: both are out of fuel for every fuel, so no FieldDefinition
with an empty argument sequence and no Schema is produced. -/
theorem C7_operation_field_without_arguments_never_returns (argType : FieldType → String)
    (kindText : TokenType → String)
    (fuel : Nat) :
    parseOperationField argType fuel noArgumentsExample 3 = .error .outOfFuel
      ∧ Parse argType kindText fuel noArgumentsExample = .error .outOfFuel := by
  have hs : ∀ n, parseOperationField argType n noArgumentsExample 3 = .error .outOfFuel :=
    parseOperationField_stuck argType noArgumentsExample 3 ⟨.Field, "user"⟩ ⟨.Colon, ":"⟩ rfl rfl
      (by decide) (by decide) (by decide) (by decide)
  refine ⟨hs fuel, ?_⟩
  have e0 : tokenAt noArgumentsExample 0 = .ok ⟨.ReservedType, "type"⟩ := rfl
  have e1 : tokenAt noArgumentsExample 1 = .ok ⟨.Query, "query"⟩ := rfl
  have g1 : noArgumentsExample[1]? = some ⟨.Query, "query"⟩ := rfl
  have e2 : tokenAt noArgumentsExample 2 = .ok ⟨.CurlyOpen, "\x7b"⟩ := rfl
  have e3 : tokenAt noArgumentsExample 3 = .ok ⟨.Field, "user"⟩ := rfl
  have l0 : 0 < noArgumentsExample.length := by decide
  have l1 : 1 < noArgumentsExample.length := by decide
  have l3 : 3 < noArgumentsExample.length := by decide
  have h3 : ∀ n, parseOperationFields argType n noArgumentsExample 3 = .error .outOfFuel := by
    intro n
    cases n with
    | zero => rfl
    | succ n =>
      simp [parseOperationFields, parseOperationFieldsLoop, l3, e3, hs n, bind, Except.bind]
  have h2 : ∀ n, parseOperationDefinition argType n noArgumentsExample 1 = .error .outOfFuel := by
    intro n
    cases n with
    | zero => rfl
    | succ n =>
      simp [parseOperationDefinition, parseOperationDefinitionLoop, l3, e1, e2, e3, h3 n, bind,
        Except.bind, pure, Except.pure]
  cases fuel with
  | zero => rfl
  | succ n =>
    simp [Parse, ParseLoop, l0, l1, e0, g1, h2 n, bind, Except.bind]


/-! ## Argument lists -/

theorem parseArgument_render (argType : FieldType → String)
    (a : ArgSrc) (fuel : Nat) (pre : Tokens) (nxt : Token)
    (rest : Tokens) (hf : a.typ.depth ≤ fuel) (h1 : nxt.Kind ≠ .BracketOpen)
    (h2 : nxt.Kind ≠ .Exclamation) (h3 : nxt.Kind ≠ .BracketClose) :
    parseArgument argType fuel (pre ++ (a.render ++ nxt :: rest)) pre.length
      = .ok (a.toArgumentDefinition argType, pre.length + a.render.length) := by
  have e0 : tokenAt (pre ++ (a.render ++ nxt :: rest)) pre.length = .ok ⟨.Field, a.name⟩ :=
    tokenAt_of_eq pre _ (⟨.Colon, ":"⟩ :: (a.typ.render ++ nxt :: rest)) _ _
      (by simp [ArgSrc.render]) rfl
  have e1 : tokenAt (pre ++ (a.render ++ nxt :: rest)) (pre.length + 1) = .ok ⟨.Colon, ":"⟩ :=
    tokenAt_of_eq (pre ++ [⟨.Field, a.name⟩]) _ (a.typ.render ++ nxt :: rest) _ _
      (by simp [ArgSrc.render]) (by simp)
  have hr := parseFieldType_render_stop a.typ fuel (pre ++ [⟨.Field, a.name⟩, ⟨.Colon, ":"⟩])
    nxt rest hf h1 h2 h3
  have et : (pre ++ [⟨.Field, a.name⟩, ⟨.Colon, ":"⟩]) ++ (a.typ.render ++ nxt :: rest)
      = pre ++ (a.render ++ nxt :: rest) := by simp [ArgSrc.render]
  rw [et] at hr
  simp only [List.length_append, List.length_cons, List.length_nil] at hr
  generalize pre ++ (a.render ++ nxt :: rest) = toks at e0 e1 hr
  have hlen : pre.length + a.render.length = pre.length + (0 + 1 + 1) + a.typ.render.length := by
    simp [ArgSrc.render]; omega
  rw [hlen]
  simp [parseArgument, bind, Except.bind, pure, Except.pure, e0, e1, hr,
    ArgSrc.toArgumentDefinition]

theorem argSrc_render_length (a : ArgSrc) : a.render.length = a.typ.render.length + 2 := by
  simp [ArgSrc.render]

/-- From the first argument group (or the `)` of an empty list) to the `)`. -/
theorem parseArgumentsLoop_render (argType : FieldType → String) (args : List ArgSrc) :
    ∀ (fuel : Nat) (pre : Tokens) (close : Token) (rest : Tokens)
      (acc : List ArgumentDefinition),
      (renderArgs args).length + 1 ≤ fuel → close.Kind = .ParenClose →
      parseArgumentsLoop argType fuel (pre ++ (renderArgs args ++ close :: rest)) pre.length acc
        = .ok (acc ++ args.map (ArgSrc.toArgumentDefinition argType),
            pre.length + (renderArgs args).length + 1) := by
  induction args with
  | nil =>
    intro fuel pre close rest acc hf hc
    obtain ⟨fuel, rfl⟩ : ∃ k, fuel = k + 1 := ⟨fuel - 1, by omega⟩
    have e0 : tokenAt (pre ++ (renderArgs [] ++ close :: rest)) pre.length = .ok close :=
      tokenAt_of_eq pre _ rest _ _ (by simp [renderArgs]) rfl
    have hlt := lt_length_of_tokenAt _ _ _ e0
    generalize pre ++ (renderArgs [] ++ close :: rest) = toks at e0 hlt
    obtain ⟨k, v⟩ := close
    simp only at hc
    subst hc
    simp [parseArgumentsLoop, hlt, e0, bind, Except.bind, pure, Except.pure, renderArgs]
  | cons a as ih =>
    intro fuel pre close rest acc hf hc
    obtain ⟨fuel, rfl⟩ : ∃ k, fuel = k + 1 := ⟨fuel - 1, by omega⟩
    have hd := a.typ.depth_le_length
    have hal := argSrc_render_length a
    have hck : close.Kind ≠ .BracketOpen ∧ close.Kind ≠ .Exclamation
        ∧ close.Kind ≠ .BracketClose := by simp [hc]
    cases as with
    | nil =>
      have hlen : (renderArgs [a]).length = a.render.length := by simp [renderArgs]
      have e0 : tokenAt (pre ++ (renderArgs [a] ++ close :: rest)) pre.length
          = .ok ⟨.Field, a.name⟩ :=
        tokenAt_of_eq pre _ (⟨.Colon, ":"⟩ :: (a.typ.render ++ close :: rest)) _ _
          (by simp [renderArgs, ArgSrc.render]) rfl
      have hlt := lt_length_of_tokenAt _ _ _ e0
      have e1 := parseArgument_render argType a fuel pre close rest (by omega) hck.1 hck.2.1 hck.2.2
      have et : pre ++ (a.render ++ close :: rest)
          = pre ++ (renderArgs [a] ++ close :: rest) := by simp [renderArgs]
      rw [et] at e1
      have e2 := ih fuel (pre ++ a.render) close rest (acc ++ [a.toArgumentDefinition argType])
        (by simp [renderArgs]; omega) hc
      have et2 : (pre ++ a.render) ++ (renderArgs [] ++ close :: rest)
          = pre ++ (renderArgs [a] ++ close :: rest) := by simp [renderArgs]
      rw [et2] at e2
      simp only [List.length_append] at e2
      generalize pre ++ (renderArgs [a] ++ close :: rest) = toks at e0 e1 e2 hlt
      simp [parseArgumentsLoop, hlt, e0, e1, e2, bind, Except.bind, renderArgs]
    | cons b bs =>
      have hlen : (renderArgs (a :: b :: bs)).length
          = a.render.length + 1 + (renderArgs (b :: bs)).length := by
        simp [renderArgs]; omega
      have e0 : tokenAt (pre ++ (renderArgs (a :: b :: bs) ++ close :: rest)) pre.length
          = .ok ⟨.Field, a.name⟩ :=
        tokenAt_of_eq pre _ (⟨.Colon, ":"⟩ :: (a.typ.render
          ++ (⟨.Comma, ","⟩ :: (renderArgs (b :: bs) ++ close :: rest)))) _ _
          (by simp [renderArgs, ArgSrc.render]) rfl
      have hlt := lt_length_of_tokenAt _ _ _ e0
      have e1 := parseArgument_render argType a fuel pre ⟨.Comma, ","⟩
        (renderArgs (b :: bs) ++ close :: rest) (by omega) (by simp) (by simp) (by simp)
      have et : pre ++ (a.render ++ ⟨.Comma, ","⟩ :: (renderArgs (b :: bs) ++ close :: rest))
          = pre ++ (renderArgs (a :: b :: bs) ++ close :: rest) := by simp [renderArgs]
      rw [et] at e1
      have ec : tokenAt (pre ++ (renderArgs (a :: b :: bs) ++ close :: rest))
          (pre.length + a.render.length) = .ok ⟨.Comma, ","⟩ :=
        tokenAt_of_eq (pre ++ a.render) _ (renderArgs (b :: bs) ++ close :: rest) _ _
          (by simp [renderArgs]) (by simp)
      have hltc := lt_length_of_tokenAt _ _ _ ec
      obtain ⟨fuel, rfl⟩ : ∃ k, fuel = k + 1 := ⟨fuel - 1, by omega⟩
      have e2 := ih fuel (pre ++ (a.render ++ [⟨.Comma, ","⟩])) close rest
        (acc ++ [a.toArgumentDefinition argType]) (by omega) hc
      have et2 : (pre ++ (a.render ++ [⟨.Comma, ","⟩])) ++ (renderArgs (b :: bs) ++ close :: rest)
          = pre ++ (renderArgs (a :: b :: bs) ++ close :: rest) := by simp [renderArgs]
      rw [et2] at e2
      simp only [List.length_append, List.length_singleton] at e2
      generalize pre ++ (renderArgs (a :: b :: bs) ++ close :: rest) = toks
        at e0 e1 e2 ec hlt hltc
      have hassoc : pre.length + (a.render.length + 1) = pre.length + a.render.length + 1 := by
        omega
      rw [hassoc] at e2
      simp [parseArgumentsLoop, hlt, hltc, e0, e1, e2, ec, bind, Except.bind, renderArgs]
      omega

/-- C8: at a `(` followed by `k` argument groups `name : T` (`T` a well-formed
type expression) separated by single commas, then `)`, `parseArguments` (with
fuel for the length of the list) returns exactly `k` ArgumentDefinitions with
the names of the groups, in source order, and the cursor just past the `)`;
the empty list `()` gives no argument and no error.  The `Type` of an argument
is not the type of its group: the field is a byte string, and it holds
whatever bytes `argType` gives for that type. -/
theorem C8_parseArguments_list (argType : FieldType → String)
    (args : List ArgSrc) (fuel : Nat) (pre rest : Tokens)
    (hf : (renderArgList args).length ≤ fuel) :
    parseArguments argType fuel (pre ++ (renderArgList args ++ rest)) pre.length
      = .ok (args.map (ArgSrc.toArgumentDefinition argType),
             pre.length + (renderArgList args).length) := by
  obtain ⟨fuel, rfl⟩ : ∃ k, fuel = k + 1 := ⟨fuel - 1, by simp [renderArgList] at hf; omega⟩
  have hl : (renderArgList args).length = (renderArgs args).length + 2 := by
    simp [renderArgList]
  have e0 : tokenAt (pre ++ (renderArgList args ++ rest)) pre.length = .ok ⟨.ParenOpen, "("⟩ :=
    tokenAt_of_eq pre _ (renderArgs args ++ ⟨.ParenClose, ")"⟩ :: rest) _ _
      (by simp [renderArgList]) rfl
  have hlt := lt_length_of_tokenAt _ _ _ e0
  have e1 := parseArgumentsLoop_render argType args fuel (pre ++ [⟨.ParenOpen, "("⟩])
    ⟨.ParenClose, ")"⟩ rest [] (by omega) rfl
  have et : (pre ++ [⟨.ParenOpen, "("⟩]) ++ (renderArgs args ++ ⟨.ParenClose, ")"⟩ :: rest)
      = pre ++ (renderArgList args ++ rest) := by simp [renderArgList]
  rw [et] at e1
  simp only [List.length_append, List.length_singleton, List.nil_append] at e1
  generalize pre ++ (renderArgList args ++ rest) = toks at e0 e1 hlt
  rw [hl]
  simp [parseArguments, parseArgumentsLoop, hlt, e0, e1, bind, Except.bind]
  omega

/-- The empty list `()` and the list `(id: ID!, tags: [String])`. -/
theorem C8_parseArguments_list_witness :
    parseArguments (fun ft => ft.Name.getD "") 2 [⟨.ParenOpen, "("⟩, ⟨.ParenClose, ")"⟩] 0
      = .ok ([], 2)
    ∧ parseArguments (fun ft => ft.Name.getD "") 12
        [⟨.ParenOpen, "("⟩, ⟨.Field, "id"⟩, ⟨.Colon, ":"⟩, ⟨.Identifier, "ID"⟩,
          ⟨.Exclamation, "!"⟩, ⟨.Comma, ","⟩, ⟨.Field, "tags"⟩, ⟨.Colon, ":"⟩,
          ⟨.BracketOpen, "["⟩, ⟨.Identifier, "String"⟩, ⟨.BracketClose, "]"⟩,
          ⟨.ParenClose, ")"⟩, ⟨.Colon, ":"⟩] 0
      = .ok ([{ Name := "id", Typ := "ID" }, { Name := "tags", Typ := "" }], 12) :=
  ⟨C8_parseArguments_list (fun ft => ft.Name.getD "") [] 2 [] [] (by decide),
   C8_parseArguments_list (fun ft => ft.Name.getD "")
     [{ name := "id", typ := .named "ID" true },
      { name := "tags", typ := .list (.named "String" false) false }] 12 []
     [⟨.Colon, ":"⟩] (by decide)⟩

/-! ## Unions -/

/-- The member loop on a list that obeys the alternation rule and is followed
by the end of input. -/
theorem parseUnionDefinitionLoop_alternates (ms : Tokens) :
    ∀ (fuel : Nat) (pre : Tokens) (prev eof : Token) (rest : Tokens) (u : UnionDefinition),
      ms.length + 1 ≤ fuel → alternates prev.Kind ms = true → eof.Kind = .EOF →
      parseUnionDefinitionLoop fuel (pre ++ (ms ++ eof :: rest)) pre.length prev u
        = if lastKind prev.Kind ms = .Identifier then
            .ok ({ u with Types := u.Types ++ memberNames ms }, pre.length + ms.length)
          else .error unexpectedEndOfInput := by
  induction ms with
  | nil =>
    intro fuel pre prev eof rest u hf ha he
    obtain ⟨fuel, rfl⟩ : ∃ k, fuel = k + 1 := ⟨fuel - 1, by omega⟩
    have e0 : tokenAt (pre ++ ([] ++ eof :: rest)) pre.length = .ok eof :=
      tokenAt_of_eq pre _ rest _ _ (by simp) rfl
    have hlt := lt_length_of_tokenAt _ _ _ e0
    generalize pre ++ ([] ++ eof :: rest) = toks at e0 hlt
    obtain ⟨k, v⟩ := eof
    simp only at he
    subst he
    by_cases hp : prev.Kind = .Identifier <;>
      simp [parseUnionDefinitionLoop, hlt, e0, bind, Except.bind, pure, Except.pure, lastKind,
        memberNames, hp, throw, throwThe, MonadExceptOf.throw]
  | cons t ts ih =>
    intro fuel pre prev eof rest u hf ha he
    obtain ⟨fuel, rfl⟩ : ∃ k, fuel = k + 1 := ⟨fuel - 1, by simp at hf; omega⟩
    have e0 : tokenAt (pre ++ ((t :: ts) ++ eof :: rest)) pre.length = .ok t :=
      tokenAt_of_eq pre _ (ts ++ eof :: rest) _ _ (by simp) rfl
    have hlt := lt_length_of_tokenAt _ _ _ e0
    simp only [alternates, Bool.and_eq_true, Bool.or_eq_true, beq_iff_eq] at ha
    obtain ⟨hstep, htail⟩ := ha
    have e1 := ih fuel (pre ++ [t]) t eof rest
    have et : (pre ++ [t]) ++ (ts ++ eof :: rest) = pre ++ ((t :: ts) ++ eof :: rest) := by simp
    rw [et] at e1
    simp only [List.length_append, List.length_singleton] at e1
    have hl : pre.length + 1 + ts.length = pre.length + (t :: ts).length := by simp; omega
    generalize pre ++ ((t :: ts) ++ eof :: rest) = toks at e0 e1 hlt
    obtain ⟨k, v⟩ := t
    rcases hstep with ⟨hk, hp⟩ | ⟨hk, hp⟩
    · simp only at hk
      subst hk
      have e2 := e1 u (by simp at hf; omega) htail he
      simp [parseUnionDefinitionLoop, hlt, e0, bind, Except.bind, hp, e2, lastKind, memberNames,
        hl]
    · simp only at hk
      subst hk
      have e2 := e1 { u with Types := u.Types ++ [v] } (by simp at hf; omega) htail he
      simp [parseUnionDefinitionLoop, hlt, e0, bind, Except.bind, hp, e2, lastKind, memberNames,
        hl]

theorem parseUnionDefinition_alternates (name : String) (ms : Tokens) (fuel : Nat)
    (pre : Tokens) (eof : Token) (rest : Tokens) (hf : ms.length + 1 ≤ fuel)
    (ha : alternates .Equal ms = true) (he : eof.Kind = .EOF) :
    parseUnionDefinition fuel (pre ++ (renderUnion name ms ++ eof :: rest)) pre.length
      = if lastKind .Equal ms = .Identifier then
          .ok ({ Name := name, Types := memberNames ms },
            pre.length + (renderUnion name ms).length)
        else .error unexpectedEndOfInput := by
  have e1 : tokenAt (pre ++ (renderUnion name ms ++ eof :: rest)) (pre.length + 1)
      = .ok ⟨.Identifier, name⟩ :=
    tokenAt_of_eq (pre ++ [⟨.Union, "union"⟩]) _ (⟨.Equal, "="⟩ :: (ms ++ eof :: rest)) _ _
      (by simp [renderUnion]) (by simp)
  have e2 : tokenAt (pre ++ (renderUnion name ms ++ eof :: rest)) (pre.length + 1 + 1)
      = .ok ⟨.Equal, "="⟩ :=
    tokenAt_of_eq (pre ++ [⟨.Union, "union"⟩, ⟨.Identifier, name⟩]) _ (ms ++ eof :: rest) _ _
      (by simp [renderUnion]) (by simp)
  have e3 := parseUnionDefinitionLoop_alternates ms fuel
    (pre ++ [⟨.Union, "union"⟩, ⟨.Identifier, name⟩, ⟨.Equal, "="⟩]) ⟨.Equal, "="⟩ eof rest
    { Name := name, Types := [] } hf ha he
  have et : (pre ++ [⟨.Union, "union"⟩, ⟨.Identifier, name⟩, ⟨.Equal, "="⟩])
        ++ (ms ++ eof :: rest)
      = pre ++ (renderUnion name ms ++ eof :: rest) := by simp [renderUnion]
  rw [et] at e3
  simp only [List.length_append, List.length_cons, List.length_nil, List.nil_append] at e3
  have hl : pre.length + (renderUnion name ms).length = pre.length + (0 + 1 + 1 + 1) + ms.length := by
    simp [renderUnion]; omega
  generalize pre ++ (renderUnion name ms ++ eof :: rest) = toks at e1 e2 e3
  simp [parseUnionDefinition, e1, e2, e3, bind, Except.bind, pure, Except.pure, hl]


/-- `Parse` of a single union followed by the end of input. -/
theorem Parse_union_alternates (argType : FieldType → String)
    (kindText : TokenType → String) (name : String) (ms : Tokens)
    (fuel : Nat) (eof : Token) (hf : ms.length + 3 ≤ fuel)
    (ha : alternates .Equal ms = true) (he : eof.Kind = .EOF) :
    Parse argType kindText fuel (renderUnion name ms ++ [eof])
      = if lastKind .Equal ms = .Identifier then
          .ok { tokens := renderUnion name ms ++ [eof],
                Unions := [{ Name := name, Types := memberNames ms }] }
        else .error unexpectedEndOfInput := by
  obtain ⟨fuel, rfl⟩ : ∃ k, fuel = k + 2 := ⟨fuel - 2, by omega⟩
  have e0 : tokenAt (renderUnion name ms ++ [eof]) 0 = .ok ⟨.Union, "union"⟩ := rfl
  have hlt := lt_length_of_tokenAt _ _ _ e0
  have e1 := parseUnionDefinition_alternates name ms (fuel + 1) [] eof [] (by omega) ha he
  have e2 : tokenAt (renderUnion name ms ++ [eof]) (renderUnion name ms).length = .ok eof :=
    tokenAt_of_eq (renderUnion name ms) _ [] _ _ rfl rfl
  have hlt2 := lt_length_of_tokenAt _ _ _ e2
  simp only [List.nil_append, List.length_nil, Nat.zero_add] at e1
  generalize renderUnion name ms ++ [eof] = toks at e0 e1 e2 hlt hlt2
  obtain ⟨k, v⟩ := eof
  simp only at he
  subst he
  by_cases hl : lastKind .Equal ms = .Identifier
  · simp only [hl, if_true] at e1
    simp [Parse, ParseLoop, hlt, hlt2, e0, e1, e2, bind, Except.bind, pure, Except.pure, hl]
  · simp only [hl, if_false] at e1
    simp [Parse, ParseLoop, hlt, e0, e1, bind, Except.bind, hl]

theorem renderMembers_facts (names : List String) :
    ∀ prev : TokenType, prev = .Equal ∨ prev = .Pipe →
      alternates prev (renderMembers names) = true
        ∧ memberNames (renderMembers names) = names
        ∧ (names ≠ [] → lastKind prev (renderMembers names) = .Identifier) := by
  induction names with
  | nil => intro prev _; simp [renderMembers, alternates, memberNames]
  | cons m ms ih =>
    intro prev hp
    cases ms with
    | nil =>
      rcases hp with rfl | rfl <;> simp [renderMembers, alternates, memberNames, lastKind]
    | cons m' ms' =>
      obtain ⟨h1, h2, h3⟩ := ih .Pipe (Or.inr rfl)
      rcases hp with rfl | rfl <;>
        simp [renderMembers, alternates, memberNames, lastKind, h1, h2] <;>
        simpa [renderMembers] using h3 (by simp)

/-- C9: for every non-empty list of member names (duplicates allowed), `Parse`
of `union U = m1 | ... | mn` and the end of input (with fuel for the length of
the token sequence) succeeds with exactly one UnionDefinition named `U` whose
Types are the member names in source order, duplicates kept. -/
theorem C9_Parse_union (argType : FieldType → String)
    (kindText : TokenType → String) (name : String) (members : List String)
    (eof : Token) (fuel : Nat) (hn : members ≠ [])
    (hf : (renderUnion name (renderMembers members) ++ [eof]).length ≤ fuel)
    (he : eof.Kind = .EOF) :
    Parse argType kindText fuel (renderUnion name (renderMembers members) ++ [eof])
      = .ok { tokens := renderUnion name (renderMembers members) ++ [eof],
              Unions := [{ Name := name, Types := members }],
              Operations := [], Types := [], Interfaces := [] } := by
  obtain ⟨h1, h2, h3⟩ := renderMembers_facts members .Equal (Or.inl rfl)
  have h := Parse_union_alternates argType kindText name (renderMembers members) fuel eof
    (by simp [renderUnion] at hf; omega) h1 he
  rw [h, if_pos (h3 hn), h2]

/-- The union `union SearchResult = Photo | Person`, and one with a duplicate. -/
theorem C9_Parse_union_witness :
    Parse (fun _ => "") (fun _ => "") 7
        [⟨.Union, "union"⟩, ⟨.Identifier, "SearchResult"⟩, ⟨.Equal, "="⟩,
          ⟨.Identifier, "Photo"⟩, ⟨.Pipe, "|"⟩, ⟨.Identifier, "Person"⟩, ⟨.EOF, ""⟩]
      = .ok { tokens :=
                [⟨.Union, "union"⟩, ⟨.Identifier, "SearchResult"⟩, ⟨.Equal, "="⟩,
                  ⟨.Identifier, "Photo"⟩, ⟨.Pipe, "|"⟩, ⟨.Identifier, "Person"⟩, ⟨.EOF, ""⟩],
              Unions := [{ Name := "SearchResult", Types := ["Photo", "Person"] }],
              Operations := [], Types := [], Interfaces := [] } :=
  C9_Parse_union (fun _ => "") (fun _ => "") "SearchResult" ["Photo", "Person"] ⟨.EOF, ""⟩ 7
    (by decide) (by decide) rfl

/-- C10: when the member list of a union obeys the alternation rule and its
last token before the end of input is not an identifier (a dangling `|`, or
nothing after `=`), `parseUnionDefinition`, and with it `Parse`, fails with
"unexpected end of input" (given fuel for the length of the token sequence). -/
theorem C10_union_dangling_pipe (argType : FieldType → String)
    (kindText : TokenType → String) (name : String) (ms : Tokens)
    (eof : Token) (fuel : Nat) (pre rest : Tokens)
    (hf : (renderUnion name ms ++ [eof]).length ≤ fuel)
    (ha : alternates .Equal ms = true) (hl : lastKind .Equal ms ≠ .Identifier)
    (he : eof.Kind = .EOF) :
    parseUnionDefinition fuel (pre ++ (renderUnion name ms ++ eof :: rest)) pre.length
        = .error (.error "unexpected end of input")
      ∧ Parse argType kindText fuel (renderUnion name ms ++ [eof])
        = .error (.error "unexpected end of input") := by
  have hf2 : ms.length + 3 ≤ fuel := by simp [renderUnion] at hf; omega
  have h1 := parseUnionDefinition_alternates name ms fuel pre eof rest (by omega) ha he
  have h2 := Parse_union_alternates argType kindText name ms fuel eof hf2 ha he
  rw [if_neg hl] at h1 h2
  exact ⟨h1, h2⟩

/-- The unions `union U = A |` and `union U =`. -/
theorem C10_union_dangling_pipe_witness :
    (Parse (fun _ => "") (fun _ => "") 6
        [⟨.Union, "union"⟩, ⟨.Identifier, "U"⟩, ⟨.Equal, "="⟩, ⟨.Identifier, "A"⟩,
          ⟨.Pipe, "|"⟩, ⟨.EOF, ""⟩]
      = .error (.error "unexpected end of input"))
    ∧ (Parse (fun _ => "") (fun _ => "") 4
        [⟨.Union, "union"⟩, ⟨.Identifier, "U"⟩, ⟨.Equal, "="⟩, ⟨.EOF, ""⟩]
      = .error (.error "unexpected end of input")) :=
  ⟨(C10_union_dangling_pipe (fun _ => "") (fun _ => "") "U"
      [⟨.Identifier, "A"⟩, ⟨.Pipe, "|"⟩] ⟨.EOF, ""⟩ 6
      [] [] (by decide) (by decide) (by decide) rfl).2,
   (C10_union_dangling_pipe (fun _ => "") (fun _ => "") "U" [] ⟨.EOF, ""⟩ 4 [] []
      (by decide) (by decide) (by decide) rfl).2⟩

/-! ## The shape of field types -/

theorem Good.nil : Good [] := by intro n hn; simp at hn

theorem Good.append {a b : List FieldType} (ha : Good a) (hb : Good b) : Good (a ++ b) := by
  intro n hn
  rcases List.mem_append.mp hn with h | h
  · exact ha n h
  · exact hb n h

theorem fieldsNodes_append (a b : List FieldDefinition) :
    fieldsNodes (a ++ b) = fieldsNodes a ++ fieldsNodes b := by
  simp [fieldsNodes]

theorem fieldsNodes_singleton (fd : FieldDefinition) : fieldsNodes [fd] = fd.nodes := by
  simp [fieldsNodes]


theorem parseFieldType_good :
    ∀ (fuel : Nat) (tokens : Tokens) (cur : Nat) (ft : FieldType) (c : Nat),
      parseFieldType fuel tokens cur = .ok (ft, c) → Good ft.nodes := by
  intro fuel
  induction fuel with
  | zero => intro tokens cur ft c h; simp [parseFieldType] at h
  | succ fuel ih =>
    intro tokens cur ft c h
    simp only [parseFieldType, bind, Except.bind, pure, Except.pure] at h
    repeat' split at h
    all_goals cases h
    all_goals
      intro n hn
      simp only [FieldType.nodes, List.mem_cons, List.mem_singleton, List.not_mem_nil,
        or_false] at hn
      first
      | (subst hn; rfl)
      | (rcases hn with rfl | hn
         · rfl
         · exact ih _ _ _ _ (by assumption) n hn)

theorem parseFieldDefinition_good (fuel : Nat) (tokens : Tokens) (cur : Nat)
    (fd : FieldDefinition) (c : Nat) (h : parseFieldDefinition fuel tokens cur = .ok (fd, c)) :
    Good fd.nodes := by
  simp only [parseFieldDefinition, bind, Except.bind, pure, Except.pure, throw, throwThe,
    MonadExceptOf.throw] at h
  repeat' split at h
  all_goals
    first
    | (cases h; done)
    | (cases h
       simp only [FieldDefinition.nodes, List.flatMap_nil, List.append_nil]
       exact parseFieldType_good _ _ _ _ _ (by assumption))

theorem parseFieldDefinitionsLoop_good :
    ∀ (fuel : Nat) (tokens : Tokens) (cur : Nat) (acc res : List FieldDefinition) (c : Nat),
      Good (fieldsNodes acc) → parseFieldDefinitionsLoop fuel tokens cur acc = .ok (res, c) →
      Good (fieldsNodes res) := by
  intro fuel
  induction fuel with
  | zero => intro tokens cur acc res c _ h; simp [parseFieldDefinitionsLoop] at h
  | succ fuel ih =>
    intro tokens cur acc res c hacc h
    simp only [parseFieldDefinitionsLoop, bind, Except.bind, pure, Except.pure, throw, throwThe,
      MonadExceptOf.throw] at h
    repeat' split at h
    all_goals
      first
      | (cases h; done)
      | (cases h; exact hacc)
      | exact ih _ _ _ _ _ hacc h
      | (refine ih _ _ _ _ _ ?_ h
         rw [fieldsNodes_append, fieldsNodes_singleton]
         exact hacc.append (parseFieldDefinition_good _ _ _ _ _ (by assumption)))


theorem parseOperationField_good (argType : FieldType → String)
    (fuel : Nat) (tokens : Tokens) (cur : Nat)
    (fd : FieldDefinition) (c : Nat)
    (h : parseOperationField argType fuel tokens cur = .ok (fd, c)) :
    Good fd.nodes := by
  simp only [parseOperationField, parseArguments, bind, Except.bind, pure, Except.pure, throw,
    throwThe, MonadExceptOf.throw] at h
  repeat' split at h
  all_goals
    first
    | (cases h; done)
    | (cases h
       simp only [FieldDefinition.nodes]
       exact parseFieldType_good _ _ _ _ _ (by assumption))

theorem parseOperationFieldsLoop_good (argType : FieldType → String) :
    ∀ (fuel : Nat) (tokens : Tokens) (cur : Nat) (acc res : List FieldDefinition) (c : Nat),
      Good (fieldsNodes acc) → parseOperationFieldsLoop argType fuel tokens cur acc = .ok (res, c) →
      Good (fieldsNodes res) := by
  intro fuel
  induction fuel with
  | zero => intro tokens cur acc res c _ h; simp [parseOperationFieldsLoop] at h
  | succ fuel ih =>
    intro tokens cur acc res c hacc h
    simp only [parseOperationFieldsLoop, bind, Except.bind, pure, Except.pure, throw, throwThe,
      MonadExceptOf.throw] at h
    repeat' split at h
    all_goals
      first
      | (cases h; done)
      | (cases h; exact hacc)
      | exact ih _ _ _ _ _ hacc h
      | (refine ih _ _ _ _ _ ?_ h
         rw [fieldsNodes_append, fieldsNodes_singleton]
         exact hacc.append (parseOperationField_good argType _ _ _ _ _ (by assumption)))

theorem parseOperationDefinitionLoop_good (argType : FieldType → String) :
    ∀ (fuel : Nat) (tokens : Tokens) (cur : Nat) (acc res : OperationDefinition) (c : Nat),
      Good (fieldsNodes acc.Fields) →
      parseOperationDefinitionLoop argType fuel tokens cur acc = .ok (res, c) →
      Good (fieldsNodes res.Fields) := by
  intro fuel
  induction fuel with
  | zero => intro tokens cur acc res c _ h; simp [parseOperationDefinitionLoop] at h
  | succ fuel ih =>
    intro tokens cur acc res c hacc h
    simp only [parseOperationDefinitionLoop, parseOperationFields, bind, Except.bind, pure,
      Except.pure, throw, throwThe, MonadExceptOf.throw] at h
    repeat' split at h
    all_goals
      first
      | (cases h; done)
      | (cases h; exact hacc)
      | exact ih _ _ _ _ _ hacc h
      | (refine ih _ _ _ _ _ ?_ h
         rw [fieldsNodes_append]
         refine hacc.append (parseOperationFieldsLoop_good argType _ _ _ [] _ _ ?_ (by assumption))
         simpa [fieldsNodes] using Good.nil)

theorem parseOperationDefinition_good (argType : FieldType → String)
    (fuel : Nat) (tokens : Tokens) (cur : Nat)
    (d : OperationDefinition) (c : Nat)
    (h : parseOperationDefinition argType fuel tokens cur = .ok (d, c)) :
    Good (fieldsNodes d.Fields) := by
  simp only [parseOperationDefinition, bind, Except.bind, pure, Except.pure, throw, throwThe,
    MonadExceptOf.throw] at h
  repeat' split at h
  all_goals
    first
    | cases h
    | (refine parseOperationDefinitionLoop_good argType _ _ _ _ _ _ ?_ h
       simpa [fieldsNodes] using Good.nil)

theorem parseTypeDefinitionLoop_good :
    ∀ (fuel : Nat) (tokens : Tokens) (start cur : Nat) (acc res : TypeDefinition) (c : Nat),
      Good (fieldsNodes acc.Fields) →
      parseTypeDefinitionLoop fuel tokens start cur acc = .ok (res, c) →
      Good (fieldsNodes res.Fields) := by
  intro fuel
  induction fuel with
  | zero => intro tokens start cur acc res c _ h; simp [parseTypeDefinitionLoop] at h
  | succ fuel ih =>
    intro tokens start cur acc res c hacc h
    simp only [parseTypeDefinitionLoop, parseFieldDefinitions, bind, Except.bind, pure,
      Except.pure, throw, throwThe, MonadExceptOf.throw] at h
    repeat' split at h
    all_goals
      first
      | (cases h; done)
      | (cases h; exact hacc)
      | exact ih _ _ _ _ _ _ hacc h
      | (refine ih _ _ _ _ _ _ ?_ h
         rw [fieldsNodes_append]
         refine hacc.append (parseFieldDefinitionsLoop_good _ _ _ [] _ _ ?_ (by assumption))
         simpa [fieldsNodes] using Good.nil)

theorem parseTypeDefinition_good (fuel : Nat) (tokens : Tokens) (cur : Nat)
    (d : TypeDefinition) (c : Nat) (h : parseTypeDefinition fuel tokens cur = .ok (d, c)) :
    Good (fieldsNodes d.Fields) := by
  simp only [parseTypeDefinition, bind, Except.bind, pure, Except.pure, throw, throwThe,
    MonadExceptOf.throw] at h
  repeat' split at h
  all_goals
    first
    | cases h
    | (refine parseTypeDefinitionLoop_good _ _ _ _ _ _ _ ?_ h
       simpa [fieldsNodes] using Good.nil)

theorem parseInterfaceDefinitionLoop_good :
    ∀ (fuel : Nat) (tokens : Tokens) (cur : Nat) (acc res : InterfaceDefinition) (c : Nat),
      Good (fieldsNodes acc.Fields) →
      parseInterfaceDefinitionLoop fuel tokens cur acc = .ok (res, c) →
      Good (fieldsNodes res.Fields) := by
  intro fuel
  induction fuel with
  | zero => intro tokens cur acc res c _ h; simp [parseInterfaceDefinitionLoop] at h
  | succ fuel ih =>
    intro tokens cur acc res c hacc h
    simp only [parseInterfaceDefinitionLoop, parseFieldDefinitions, bind, Except.bind, pure,
      Except.pure, throw, throwThe, MonadExceptOf.throw] at h
    repeat' split at h
    all_goals
      first
      | (cases h; done)
      | (cases h; exact hacc)
      | exact ih _ _ _ _ _ hacc h
      | (refine ih _ _ _ _ _ ?_ h
         rw [fieldsNodes_append]
         refine hacc.append (parseFieldDefinitionsLoop_good _ _ _ [] _ _ ?_ (by assumption))
         simpa [fieldsNodes] using Good.nil)

theorem parseInterfaceDefinition_good (kindText : TokenType → String) (fuel : Nat)
    (tokens : Tokens) (cur : Nat) (d : InterfaceDefinition) (c : Nat)
    (h : parseInterfaceDefinition kindText fuel tokens cur = .ok (d, c)) :
    Good (fieldsNodes d.Fields) := by
  simp only [parseInterfaceDefinition, bind, Except.bind, pure, Except.pure, throw, throwThe,
    MonadExceptOf.throw] at h
  repeat' split at h
  all_goals
    first
    | cases h
    | (refine parseInterfaceDefinitionLoop_good _ _ _ _ _ _ ?_ h
       simpa [fieldsNodes] using Good.nil)


theorem Good.append_iff {a b : List FieldType} : Good (a ++ b) ↔ Good a ∧ Good b := by
  simp [Good, List.mem_append, or_imp, forall_and]

theorem ParseLoop_good (argType : FieldType → String) (kindText : TokenType → String) :
    ∀ (fuel : Nat) (tokens : Tokens) (cur : Nat) (acc res : Schema),
      Good acc.nodes → ParseLoop argType kindText fuel tokens cur acc = .ok res →
      Good res.nodes := by
  intro fuel
  induction fuel with
  | zero => intro tokens cur acc res _ h; simp [ParseLoop] at h
  | succ fuel ih =>
    intro tokens cur acc res hacc h
    simp only [ParseLoop, bind, Except.bind, pure, Except.pure, throw, throwThe,
      MonadExceptOf.throw] at h
    repeat' split at h
    all_goals
      first
      | (cases h; done)
      | (cases h; exact hacc)
      | exact ih _ _ _ _ (by exact hacc) h
      | (refine ih _ _ _ _ ?_ h
         have hd := parseTypeDefinition_good _ _ _ _ _ (by assumption)
         simp only [Schema.nodes, List.flatMap_append, List.flatMap_cons, List.flatMap_nil,
           List.append_nil, Good.append_iff] at hacc ⊢
         tauto)
      | (refine ih _ _ _ _ ?_ h
         have hd := parseOperationDefinition_good argType _ _ _ _ _ (by assumption)
         simp only [Schema.nodes, List.flatMap_append, List.flatMap_cons, List.flatMap_nil,
           List.append_nil, Good.append_iff] at hacc ⊢
         tauto)
      | (refine ih _ _ _ _ ?_ h
         have hd := parseInterfaceDefinition_good _ _ _ _ _ _ (by assumption)
         simp only [Schema.nodes, List.flatMap_append, List.flatMap_cons, List.flatMap_nil,
           List.append_nil, Good.append_iff] at hacc ⊢
         tauto)

/-- C5 as stated fails: `Parse` succeeds on `type T { f: Foo[] }`, and in the
Schema the type of `f` carries both a name and a list element, while that
element carries neither. -/
theorem C5_shape_counterexample :
    Parse (fun _ => "") (fun _ => "") 10 bothAndNeitherExample = .ok bothAndNeitherSchema
    ∧ bothAndNeitherSchema.nodes
        = [{ Name := some "Foo", Nullable := true, IsList := true,
             ListType := some { Name := none, Nullable := true, IsList := false,
                                ListType := none } },
           { Name := none, Nullable := true, IsList := false, ListType := none }]
    ∧ bothAndNeitherSchema.nodes.map FieldType.namedOrList = [false, false] :=
  ⟨rfl, rfl, rfl⟩

/-- C5 (amended): for every token sequence on which `Parse` succeeds, every
FieldType node reachable in the Schema (field types and all nested `ListType`
elements) has `IsList` set exactly when `ListType` is set.  An argument holds
no FieldType (its `Type` is a byte string); the type parsed for an argument is
a result of `parseFieldType`, and so is every other type: all the nodes of
every such result have `IsList` set exactly when `ListType` is set. -/
theorem C5_IsList_iff_ListType (argType : FieldType → String)
    (kindText : TokenType → String) (fuel : Nat) (tokens : Tokens)
    (schema : Schema) (h : Parse argType kindText fuel tokens = .ok schema) :
    (∀ n ∈ schema.nodes, n.IsList = n.ListType.isSome)
      ∧ ∀ (fuel' cur c : Nat) (ft : FieldType),
          parseFieldType fuel' tokens cur = .ok (ft, c) →
          ∀ n ∈ ft.nodes, n.IsList = n.ListType.isSome := by
  have hg := ParseLoop_good argType kindText fuel tokens 0 { tokens := tokens } schema
    (by intro n hn; simp [Schema.nodes] at hn) h
  refine ⟨?_, ?_⟩
  · intro n hn
    simpa [FieldType.listConsistent] using hg n hn
  · intro fuel' cur c ft hp n hn
    simpa [FieldType.listConsistent] using parseFieldType_good fuel' tokens cur ft c hp n hn

/-- The type of `f` in the Schema of `type T { f: Foo[] }`. -/
theorem C5_IsList_iff_ListType_witness :
    ({ Name := some "Foo", Nullable := true, IsList := true,
       ListType := some { Name := none, Nullable := true, IsList := false,
                          ListType := none } } : FieldType).IsList
      = ({ Name := some "Foo", Nullable := true, IsList := true,
           ListType := some { Name := none, Nullable := true, IsList := false,
                              ListType := none } } : FieldType).ListType.isSome :=
  (C5_IsList_iff_ListType (fun _ => "") (fun _ => "") 10 bothAndNeitherExample
    bothAndNeitherSchema rfl).1 _ (List.mem_cons_self _ _)

/-! ## Unions: the other exits of the member loop -/

/-- An identifier that does not follow `=` or `|` leaves the switch with the
cursor where it was: the member loop goes round for ever. -/
theorem parseUnionDefinitionLoop_stuck (tokens : Tokens) (cur : Nat) (t prev : Token)
    (u : UnionDefinition) (h : tokenAt tokens cur = .ok t) (hk : t.Kind = .Identifier)
    (h1 : prev.Kind ≠ .Equal) (h2 : prev.Kind ≠ .Pipe) :
    ∀ fuel, parseUnionDefinitionLoop fuel tokens cur prev u = .error .outOfFuel := by
  intro fuel
  induction fuel with
  | zero => rfl
  | succ fuel ih =>
    have hlt := lt_length_of_tokenAt tokens cur t h
    obtain ⟨k, v⟩ := t
    simp only at hk
    subst hk
    simp [parseUnionDefinitionLoop, hlt, h, bind, Except.bind, h1, h2, ih]

/-- A member list that obeys the alternation rule and ends in an identifier,
followed by one more identifier. -/
theorem parseUnionDefinitionLoop_two_identifiers (ms : Tokens) :
    ∀ (fuel : Nat) (pre : Tokens) (prev t : Token) (rest : Tokens) (u : UnionDefinition),
      alternates prev.Kind ms = true → lastKind prev.Kind ms = .Identifier →
      t.Kind = .Identifier →
      parseUnionDefinitionLoop fuel (pre ++ (ms ++ t :: rest)) pre.length prev u
        = .error .outOfFuel := by
  induction ms with
  | nil =>
    intro fuel pre prev t rest u _ hl hk
    simp only [lastKind] at hl
    exact parseUnionDefinitionLoop_stuck _ _ t prev u
      (tokenAt_of_eq pre _ rest _ _ (by simp) rfl) hk (by simp [hl]) (by simp [hl]) fuel
  | cons m ms ih =>
    intro fuel pre prev t rest u ha hl hk
    cases fuel with
    | zero => rfl
    | succ fuel =>
      have e0 : tokenAt (pre ++ ((m :: ms) ++ t :: rest)) pre.length = .ok m :=
        tokenAt_of_eq pre _ (ms ++ t :: rest) _ _ (by simp) rfl
      have hlt := lt_length_of_tokenAt _ _ _ e0
      simp only [alternates, Bool.and_eq_true, Bool.or_eq_true, beq_iff_eq] at ha
      obtain ⟨hstep, htail⟩ := ha
      simp only [lastKind] at hl
      have e1 := ih fuel (pre ++ [m]) m t rest
      have et : (pre ++ [m]) ++ (ms ++ t :: rest) = pre ++ ((m :: ms) ++ t :: rest) := by simp
      rw [et] at e1
      simp only [List.length_append, List.length_singleton] at e1
      generalize pre ++ ((m :: ms) ++ t :: rest) = toks at e0 e1 hlt
      obtain ⟨k, v⟩ := m
      rcases hstep with ⟨hm, hp⟩ | ⟨hm, hp⟩
      · simp only at hm
        subst hm
        simp [parseUnionDefinitionLoop, hlt, e0, bind, Except.bind, hp, e1 u htail hl hk]
      · simp only at hm
        subst hm
        simp [parseUnionDefinitionLoop, hlt, e0, bind, Except.bind, hp,
          e1 { u with Types := u.Types ++ [v] } htail hl hk]

/-- The head of `parseUnionDefinition`: the keyword, the name and `=`. -/
theorem parseUnionDefinition_head (name : String) (ms : Tokens) (fuel : Nat) (pre rest : Tokens) :
    parseUnionDefinition fuel (pre ++ (renderUnion name ms ++ rest)) pre.length
      = parseUnionDefinitionLoop fuel (pre ++ (renderUnion name ms ++ rest)) (pre.length + 3)
          ⟨.Equal, "="⟩ { Name := name, Types := [] } := by
  have e1 : tokenAt (pre ++ (renderUnion name ms ++ rest)) (pre.length + 1)
      = .ok ⟨.Identifier, name⟩ :=
    tokenAt_of_eq (pre ++ [⟨.Union, "union"⟩]) _ (⟨.Equal, "="⟩ :: (ms ++ rest)) _ _
      (by simp [renderUnion]) (by simp)
  have e2 : tokenAt (pre ++ (renderUnion name ms ++ rest)) (pre.length + 1 + 1)
      = .ok ⟨.Equal, "="⟩ :=
    tokenAt_of_eq (pre ++ [⟨.Union, "union"⟩, ⟨.Identifier, name⟩]) _ (ms ++ rest) _ _
      (by simp [renderUnion]) (by simp)
  generalize pre ++ (renderUnion name ms ++ rest) = toks at e1 e2
  simp [parseUnionDefinition, e1, e2, bind, Except.bind, pure, Except.pure]

/-- The loop reads the tokens after `union name =` through the list `pre ++ head`. -/
theorem renderUnion_split (name : String) (ms pre rest : Tokens) :
    pre ++ (renderUnion name ms ++ rest)
      = (pre ++ [⟨.Union, "union"⟩, ⟨.Identifier, name⟩, ⟨.Equal, "="⟩]) ++ (ms ++ rest) := by
  simp [renderUnion]

theorem parseUnionDefinition_two_identifiers (name : String) (ms : Tokens) (fuel : Nat)
    (pre : Tokens) (t : Token) (rest : Tokens) (ha : alternates .Equal ms = true)
    (hl : lastKind .Equal ms = .Identifier) (hk : t.Kind = .Identifier) :
    parseUnionDefinition fuel (pre ++ (renderUnion name ms ++ t :: rest)) pre.length
      = .error .outOfFuel := by
  rw [parseUnionDefinition_head, renderUnion_split]
  have h := parseUnionDefinitionLoop_two_identifiers ms fuel
    (pre ++ [⟨.Union, "union"⟩, ⟨.Identifier, name⟩, ⟨.Equal, "="⟩]) ⟨.Equal, "="⟩ t rest
    { Name := name, Types := [] } ha hl hk
  simpa using h


/-- `Parse` on a sequence that starts with a union hands the error of
`parseUnionDefinition` on. -/
theorem Parse_union_error (argType : FieldType → String)
    (kindText : TokenType → String) (fuel : Nat) (tokens : Tokens)
    (v : String) (rest : Tokens) (e : Failure) (ht : tokens = ⟨.Union, v⟩ :: rest)
    (h : parseUnionDefinition fuel tokens 0 = .error e) :
    Parse argType kindText (fuel + 1) tokens = .error e := by
  have e0 : tokenAt tokens 0 = .ok ⟨.Union, v⟩ := by subst ht; simp [tokenAt]
  have hlt := lt_length_of_tokenAt _ _ _ e0
  simp [Parse, ParseLoop, hlt, e0, h, bind, Except.bind]

/-- C11 (the code departs from it): when a member list that obeys the
alternation rule and ends in an identifier is followed by one more identifier
(`union U = A B`), `parseUnionDefinition` does not fail with an unexpected-token
error: the member loop never moves on, so it and `Parse` are out of fuel for
every fuel. -/
theorem C11_identifier_after_identifier_never_returns (argType : FieldType → String)
    (kindText : TokenType → String)
    (name : String) (ms : Tokens) (t : Token) (pre rest : Tokens) (fuel : Nat)
    (ha : alternates .Equal ms = true) (hl : lastKind .Equal ms = .Identifier)
    (hk : t.Kind = .Identifier) :
    parseUnionDefinition fuel (pre ++ (renderUnion name ms ++ t :: rest)) pre.length
        = .error .outOfFuel
      ∧ Parse argType kindText fuel (renderUnion name ms ++ t :: rest) = .error .outOfFuel := by
  refine ⟨parseUnionDefinition_two_identifiers name ms fuel pre t rest ha hl hk, ?_⟩
  cases fuel with
  | zero => rfl
  | succ fuel =>
    exact Parse_union_error argType kindText fuel _ "union"
      (⟨.Identifier, name⟩ :: ⟨.Equal, "="⟩ :: (ms ++ t :: rest)) _ (by simp [renderUnion])
      (parseUnionDefinition_two_identifiers name ms fuel [] t rest ha hl hk)

/-- The union `union U = A B`. -/
theorem C11_identifier_after_identifier_never_returns_witness :
    parseUnionDefinition 1000
        [⟨.Union, "union"⟩, ⟨.Identifier, "U"⟩, ⟨.Equal, "="⟩, ⟨.Identifier, "A"⟩,
          ⟨.Identifier, "B"⟩, ⟨.EOF, ""⟩] 0 = .error .outOfFuel
    ∧ Parse (fun _ => "") (fun _ => "") 1000
        [⟨.Union, "union"⟩, ⟨.Identifier, "U"⟩, ⟨.Equal, "="⟩, ⟨.Identifier, "A"⟩,
          ⟨.Identifier, "B"⟩, ⟨.EOF, ""⟩] = .error .outOfFuel :=
  C11_identifier_after_identifier_never_returns (fun _ => "") (fun _ => "") "U" [⟨.Identifier, "A"⟩]
    ⟨.Identifier, "B"⟩ [] [⟨.EOF, ""⟩] 1000 (by decide) (by decide) rfl

/-- The two violations that the loop does reject: a `|` right after a `|`, and
a token that the switch has no case for. -/
theorem parseUnionDefinitionLoop_rejects (tokens : Tokens) (cur : Nat) (t prev : Token)
    (u : UnionDefinition) (fuel : Nat) (h : tokenAt tokens cur = .ok t)
    (hv : (t.Kind = .Pipe ∧ prev.Kind ≠ .Equal ∧ prev.Kind ≠ .Identifier)
      ∨ (t.Kind ≠ .Pipe ∧ t.Kind ≠ .Identifier ∧ t.Kind ≠ .EOF
          ∧ startsDeclaration t.Kind = false)) :
    parseUnionDefinitionLoop (fuel + 1) tokens cur prev u
      = .error (unexpectedToken t.Value) := by
  have hlt := lt_length_of_tokenAt tokens cur t h
  obtain ⟨k, v⟩ := t
  rcases hv with ⟨hk, h1, h2⟩ | ⟨h1, h2, h3, h4⟩
  · simp only at hk
    subst hk
    simp [parseUnionDefinitionLoop, hlt, h, bind, Except.bind, h1, h2, throw, throwThe,
      MonadExceptOf.throw]
  · cases k <;> simp [startsDeclaration] at h1 h2 h3 h4 <;>
      simp [parseUnionDefinitionLoop, hlt, h, bind, Except.bind, throw, throwThe,
        MonadExceptOf.throw]

/-- The member loop on a list that obeys the alternation rule and is followed
by a keyword that starts a declaration: the members so far, the cursor on the
keyword, whatever the last member token was. -/
theorem parseUnionDefinitionLoop_keyword (ms : Tokens) :
    ∀ (fuel : Nat) (pre : Tokens) (prev kw : Token) (rest : Tokens) (u : UnionDefinition),
      ms.length + 1 ≤ fuel → alternates prev.Kind ms = true →
      startsDeclaration kw.Kind = true →
      parseUnionDefinitionLoop fuel (pre ++ (ms ++ kw :: rest)) pre.length prev u
        = .ok ({ u with Types := u.Types ++ memberNames ms }, pre.length + ms.length) := by
  induction ms with
  | nil =>
    intro fuel pre prev kw rest u hf _ hk
    obtain ⟨fuel, rfl⟩ : ∃ k, fuel = k + 1 := ⟨fuel - 1, by omega⟩
    have e0 : tokenAt (pre ++ ([] ++ kw :: rest)) pre.length = .ok kw :=
      tokenAt_of_eq pre _ rest _ _ (by simp) rfl
    have hlt := lt_length_of_tokenAt _ _ _ e0
    generalize pre ++ ([] ++ kw :: rest) = toks at e0 hlt
    obtain ⟨k, v⟩ := kw
    cases k <;> simp [startsDeclaration] at hk <;>
      simp [parseUnionDefinitionLoop, hlt, e0, bind, Except.bind, pure, Except.pure,
        memberNames]
  | cons m ms ih =>
    intro fuel pre prev kw rest u hf ha hk
    obtain ⟨fuel, rfl⟩ : ∃ k, fuel = k + 1 := ⟨fuel - 1, by simp at hf; omega⟩
    have e0 : tokenAt (pre ++ ((m :: ms) ++ kw :: rest)) pre.length = .ok m :=
      tokenAt_of_eq pre _ (ms ++ kw :: rest) _ _ (by simp) rfl
    have hlt := lt_length_of_tokenAt _ _ _ e0
    simp only [alternates, Bool.and_eq_true, Bool.or_eq_true, beq_iff_eq] at ha
    obtain ⟨hstep, htail⟩ := ha
    have e1 := ih fuel (pre ++ [m]) m kw rest
    have et : (pre ++ [m]) ++ (ms ++ kw :: rest) = pre ++ ((m :: ms) ++ kw :: rest) := by simp
    rw [et] at e1
    simp only [List.length_append, List.length_singleton] at e1
    have hl : pre.length + 1 + ms.length = pre.length + (m :: ms).length := by simp; omega
    generalize pre ++ ((m :: ms) ++ kw :: rest) = toks at e0 e1 hlt
    obtain ⟨k, v⟩ := m
    rcases hstep with ⟨hm, hp⟩ | ⟨hm, hp⟩
    · simp only at hm
      subst hm
      have e2 := e1 u (by simp at hf; omega) htail hk
      simp [parseUnionDefinitionLoop, hlt, e0, bind, Except.bind, hp, e2, memberNames, hl]
    · simp only at hm
      subst hm
      have e2 := e1 { u with Types := u.Types ++ [v] } (by simp at hf; omega) htail hk
      simp [parseUnionDefinitionLoop, hlt, e0, bind, Except.bind, hp, e2, memberNames, hl]

theorem parseUnionDefinition_keyword (name : String) (ms : Tokens) (fuel : Nat)
    (pre : Tokens) (kw : Token) (rest : Tokens) (hf : ms.length + 1 ≤ fuel)
    (ha : alternates .Equal ms = true) (hk : startsDeclaration kw.Kind = true) :
    parseUnionDefinition fuel (pre ++ (renderUnion name ms ++ kw :: rest)) pre.length
      = .ok ({ Name := name, Types := memberNames ms },
          pre.length + (renderUnion name ms).length) := by
  rw [parseUnionDefinition_head, renderUnion_split]
  have h := parseUnionDefinitionLoop_keyword ms fuel
    (pre ++ [⟨.Union, "union"⟩, ⟨.Identifier, name⟩, ⟨.Equal, "="⟩]) ⟨.Equal, "="⟩ kw rest
    { Name := name, Types := [] } hf ha hk
  have hl : pre.length + (renderUnion name ms).length = pre.length + 3 + ms.length := by
    simp [renderUnion]; omega
  rw [hl]
  simpa using h


/-- `Parse` of a union followed by type declarations and the end of input. -/
theorem Parse_union_then_types (argType : FieldType → String)
    (kindText : TokenType → String) (name : String) (ms : Tokens)
    (d : TypeSrc) (ds : List TypeSrc) (eof : Token) (fuel : Nat)
    (hf : (renderUnion name ms ++ (renderTypes (d :: ds) ++ [eof])).length ≤ fuel)
    (ha : alternates .Equal ms = true) (he : eof.Kind = .EOF) :
    Parse argType kindText fuel (renderUnion name ms ++ (renderTypes (d :: ds) ++ [eof]))
      = .ok { tokens := renderUnion name ms ++ (renderTypes (d :: ds) ++ [eof]),
              Unions := [{ Name := name, Types := memberNames ms }],
              Types := (d :: ds).map TypeSrc.toTypeDefinition } := by
  have hlen : (renderUnion name ms ++ (renderTypes (d :: ds) ++ [eof])).length
      = ms.length + 3 + (renderTypes (d :: ds)).length + 1 := by
    simp [renderUnion]; omega
  obtain ⟨fuel, rfl⟩ : ∃ k, fuel = k + 1 := ⟨fuel - 1, by omega⟩
  have e0 : tokenAt (renderUnion name ms ++ (renderTypes (d :: ds) ++ [eof])) 0
      = .ok ⟨.Union, "union"⟩ := by simp [renderUnion, tokenAt]
  have hlt := lt_length_of_tokenAt _ _ _ e0
  have hsplit : renderTypes (d :: ds) ++ [eof]
      = ⟨.ReservedType, "type"⟩
          :: (d.body ++ ⟨.CurlyClose, "\x7d"⟩ :: (renderTypes ds ++ [eof])) := by
    simp [renderTypes, TypeSrc.render]
  have e1 := parseUnionDefinition_keyword name ms fuel [] ⟨.ReservedType, "type"⟩
    (d.body ++ ⟨.CurlyClose, "\x7d"⟩ :: (renderTypes ds ++ [eof])) (by omega) ha rfl
  rw [← hsplit] at e1
  simp only [List.nil_append, List.length_nil, Nat.zero_add] at e1
  have e2 := ParseLoop_renderTypes argType kindText (d :: ds) fuel (renderUnion name ms) eof
    { tokens := renderUnion name ms ++ (renderTypes (d :: ds) ++ [eof]),
      Unions := [{ Name := name, Types := memberNames ms }] } (by omega) he
  generalize renderUnion name ms ++ (renderTypes (d :: ds) ++ [eof]) = toks at e0 e1 e2 hlt
  simp [Parse, ParseLoop, hlt, e0, e1, e2, bind, Except.bind]

/-- C12: when a member list that obeys the alternation rule is followed by a
token that starts a declaration (`type`, `union`, `enum`, `interface`, `input`,
`extend`, `schema`), `parseUnionDefinition` returns the members read so far and
the cursor of that token, which it does not consume; and `Parse` of the union
followed by well-formed type declarations and the end of input yields both the
union and the types. -/
theorem C12_union_stops_at_keyword (argType : FieldType → String)
    (kindText : TokenType → String) (name : String)
    (ms : Tokens) (kw : Token) (pre rest : Tokens) (d : TypeSrc) (ds : List TypeSrc)
    (eof : Token) (fuel : Nat)
    (hf : (renderUnion name ms ++ (renderTypes (d :: ds) ++ [eof])).length ≤ fuel)
    (ha : alternates .Equal ms = true) (hk : startsDeclaration kw.Kind = true)
    (he : eof.Kind = .EOF) :
    parseUnionDefinition fuel (pre ++ (renderUnion name ms ++ kw :: rest)) pre.length
        = .ok ({ Name := name, Types := memberNames ms },
            pre.length + (renderUnion name ms).length)
      ∧ tokenAt (pre ++ (renderUnion name ms ++ kw :: rest))
          (pre.length + (renderUnion name ms).length) = .ok kw
      ∧ Parse argType kindText fuel (renderUnion name ms ++ (renderTypes (d :: ds) ++ [eof]))
        = .ok { tokens := renderUnion name ms ++ (renderTypes (d :: ds) ++ [eof]),
                Unions := [{ Name := name, Types := memberNames ms }],
                Types := (d :: ds).map TypeSrc.toTypeDefinition,
                Operations := [], Interfaces := [] } := by
  have hlen : (renderUnion name ms ++ (renderTypes (d :: ds) ++ [eof])).length
      = ms.length + 3 + (renderTypes (d :: ds)).length + 1 := by
    simp [renderUnion]; omega
  exact ⟨parseUnionDefinition_keyword name ms fuel pre kw rest (by omega) ha hk,
    tokenAt_of_eq (pre ++ renderUnion name ms) kw rest _ _ (by simp) (by simp),
    Parse_union_then_types argType kindText name ms d ds eof fuel hf ha he⟩

/-- The text `union U = A | B type T { }`. -/
theorem C12_union_stops_at_keyword_witness :
    Parse (fun _ => "") (fun _ => "") 11
        [⟨.Union, "union"⟩, ⟨.Identifier, "U"⟩, ⟨.Equal, "="⟩, ⟨.Identifier, "A"⟩,
          ⟨.Pipe, "|"⟩, ⟨.Identifier, "B"⟩, ⟨.ReservedType, "type"⟩, ⟨.Identifier, "T"⟩,
          ⟨.CurlyOpen, "\x7b"⟩, ⟨.CurlyClose, "\x7d"⟩, ⟨.EOF, ""⟩]
      = .ok { tokens :=
                [⟨.Union, "union"⟩, ⟨.Identifier, "U"⟩, ⟨.Equal, "="⟩, ⟨.Identifier, "A"⟩,
                  ⟨.Pipe, "|"⟩, ⟨.Identifier, "B"⟩, ⟨.ReservedType, "type"⟩,
                  ⟨.Identifier, "T"⟩, ⟨.CurlyOpen, "\x7b"⟩, ⟨.CurlyClose, "\x7d"⟩,
                  ⟨.EOF, ""⟩],
              Unions := [{ Name := "U", Types := ["A", "B"] }],
              Types :=
                [{ Name := "T", Fields := [],
                   tokens := [⟨.Identifier, "T"⟩, ⟨.CurlyOpen, "\x7b"⟩] }],
              Operations := [], Interfaces := [] } :=
  (C12_union_stops_at_keyword (fun _ => "") (fun _ => "") "U"
    [⟨.Identifier, "A"⟩, ⟨.Pipe, "|"⟩, ⟨.Identifier, "B"⟩] ⟨.ReservedType, "type"⟩ [] []
    { name := "T", fields := [] } [] ⟨.EOF, ""⟩ 11 (by decide) (by decide) rfl rfl).2.2

/-- C13 (the code departs from it): `Parse` of `union name =` followed directly
by well-formed type declarations and the end of input succeeds, and the
UnionDefinition in the Schema has no member at all. -/
theorem C13_union_without_members (argType : FieldType → String)
    (kindText : TokenType → String) (name : String)
    (d : TypeSrc) (ds : List TypeSrc) (eof : Token) (fuel : Nat)
    (hf : (renderUnion name [] ++ (renderTypes (d :: ds) ++ [eof])).length ≤ fuel)
    (he : eof.Kind = .EOF) :
    Parse argType kindText fuel (renderUnion name [] ++ (renderTypes (d :: ds) ++ [eof]))
      = .ok { tokens := renderUnion name [] ++ (renderTypes (d :: ds) ++ [eof]),
              Unions := [{ Name := name, Types := [] }],
              Types := (d :: ds).map TypeSrc.toTypeDefinition } :=
  Parse_union_then_types argType kindText name [] d ds eof fuel hf rfl he

/-- The text `union U = type T { }`. -/
theorem C13_union_without_members_witness :
    Parse (fun _ => "") (fun _ => "") 8
        [⟨.Union, "union"⟩, ⟨.Identifier, "U"⟩, ⟨.Equal, "="⟩, ⟨.ReservedType, "type"⟩,
          ⟨.Identifier, "T"⟩, ⟨.CurlyOpen, "\x7b"⟩, ⟨.CurlyClose, "\x7d"⟩, ⟨.EOF, ""⟩]
      = .ok { tokens :=
                [⟨.Union, "union"⟩, ⟨.Identifier, "U"⟩, ⟨.Equal, "="⟩,
                  ⟨.ReservedType, "type"⟩, ⟨.Identifier, "T"⟩, ⟨.CurlyOpen, "\x7b"⟩,
                  ⟨.CurlyClose, "\x7d"⟩, ⟨.EOF, ""⟩],
              Unions := [{ Name := "U", Types := [] }],
              Types :=
                [{ Name := "T", Fields := [],
                   tokens := [⟨.Identifier, "T"⟩, ⟨.CurlyOpen, "\x7b"⟩] }] } :=
  C13_union_without_members (fun _ => "") (fun _ => "") "U" { name := "T", fields := [] } []
    ⟨.EOF, ""⟩ 8 (by decide) rfl

/-! ## Interface blocks and type blocks -/

/-- The two body loops run in step, for every fuel. -/
theorem parseInterfaceDefinitionLoop_eq :
    ∀ (fuel : Nat) (tokens : Tokens) (start cur : Nat) (name : String)
      (fields : List FieldDefinition) (slice0 : Tokens),
      parseInterfaceDefinitionLoop fuel tokens cur { Name := name, Fields := fields }
        = (parseTypeDefinitionLoop fuel tokens start cur
            { Name := name, Fields := fields, tokens := slice0 }).map asInterface := by
  intro fuel
  induction fuel with
  | zero => intro tokens start cur name fields slice0; rfl
  | succ fuel ih =>
    intro tokens start cur name fields slice0
    by_cases hlt : cur < tokens.length
    · cases ht : tokenAt tokens cur with
      | error e =>
        simp [parseInterfaceDefinitionLoop, parseTypeDefinitionLoop, hlt, ht, bind, Except.bind,
          Except.map]
      | ok t =>
        obtain ⟨k, v⟩ := t
        cases hp : parseFieldDefinitions fuel tokens cur with
        | error e =>
          cases k <;>
            simp [parseInterfaceDefinitionLoop, parseTypeDefinitionLoop, hlt, ht, hp, bind,
              Except.bind, Except.map, pure, Except.pure, asInterface,
              ih tokens start cur name fields slice0]
        | ok r =>
          cases k <;>
            simp [parseInterfaceDefinitionLoop, parseTypeDefinitionLoop, hlt, ht, hp, bind,
              Except.bind, Except.map, pure, Except.pure, asInterface,
              ih tokens start cur name fields slice0,
              ih tokens start r.2 name (fields ++ r.1) slice0]
    · simp [parseInterfaceDefinitionLoop, parseTypeDefinitionLoop, hlt, Except.map, throw,
        throwThe, MonadExceptOf.throw]

/-- An interface block is read as the type block that starts at its name. -/
theorem parseInterfaceDefinition_eq (kindText : TokenType → String) (fuel : Nat)
    (tokens : Tokens) (c : Nat) (t : Token) (ht : tokenAt tokens (c + 1) = .ok t)
    (hk : t.Kind = .Identifier) :
    parseInterfaceDefinition kindText fuel tokens c
      = (parseTypeDefinition fuel tokens (c + 1)).map asInterface := by
  obtain ⟨k, v⟩ := t
  simp only at hk
  subst hk
  cases h2 : tokenAt tokens (c + 1 + 1) with
  | error e =>
    simp [parseInterfaceDefinition, parseTypeDefinition, ht, h2, bind, Except.bind, Except.map,
      pure, Except.pure]
  | ok t2 =>
    by_cases hc : t2.Kind = .CurlyOpen
    · simp [parseInterfaceDefinition, parseTypeDefinition, ht, h2, hc, bind, Except.bind,
        pure, Except.pure,
        parseInterfaceDefinitionLoop_eq fuel tokens (c + 1) (c + 1 + 1 + 1) v [] []]
    · simp [parseInterfaceDefinition, parseTypeDefinition, ht, h2, hc, bind, Except.bind,
        Except.map, throw, throwThe, MonadExceptOf.throw, pure, Except.pure]

/-- C17: for every token sequence and cursor `c` with an identifier at `c + 1`
(the token after the `interface` keyword at `c`, whose kind the code does not
look at again), and for every fuel, `parseInterfaceDefinition` at `c` gives what
`parseTypeDefinition` at `c + 1` gives: the same failure (the same error, or
both out of fuel), or the same name, the same fields and the same returned
cursor. -/
theorem C17_interface_like_type (kindText : TokenType → String) (fuel : Nat)
    (tokens : Tokens) (c : Nat) (name : Token) (h1 : tokenAt tokens (c + 1) = .ok name)
    (hn : name.Kind = .Identifier) :
    parseInterfaceDefinition kindText fuel tokens c
      = (parseTypeDefinition fuel tokens (c + 1)).map asInterface :=
  parseInterfaceDefinition_eq kindText fuel tokens c name h1 hn

/-- The blocks `interface Node { id: ID! }` and `Node { id: ID! }`. -/
theorem C17_interface_like_type_witness :
    (parseInterfaceDefinition (fun _ => "") 8
        [⟨.Interface, "interface"⟩, ⟨.Identifier, "Node"⟩, ⟨.CurlyOpen, "\x7b"⟩,
          ⟨.Field, "id"⟩, ⟨.Colon, ":"⟩, ⟨.Identifier, "ID"⟩, ⟨.Exclamation, "!"⟩,
          ⟨.CurlyClose, "\x7d"⟩, ⟨.EOF, ""⟩] 0
      = (parseTypeDefinition 8
          [⟨.Interface, "interface"⟩, ⟨.Identifier, "Node"⟩, ⟨.CurlyOpen, "\x7b"⟩,
            ⟨.Field, "id"⟩, ⟨.Colon, ":"⟩, ⟨.Identifier, "ID"⟩, ⟨.Exclamation, "!"⟩,
            ⟨.CurlyClose, "\x7d"⟩, ⟨.EOF, ""⟩] 1).map asInterface)
    ∧ parseInterfaceDefinition (fun _ => "") 8
        [⟨.Interface, "interface"⟩, ⟨.Identifier, "Node"⟩, ⟨.CurlyOpen, "\x7b"⟩,
          ⟨.Field, "id"⟩, ⟨.Colon, ":"⟩, ⟨.Identifier, "ID"⟩, ⟨.Exclamation, "!"⟩,
          ⟨.CurlyClose, "\x7d"⟩, ⟨.EOF, ""⟩] 0
      = .ok ({ Name := "Node",
               Fields :=
                 [{ Name := "id", Arguments := [],
                    Typ := some { Name := some "ID", Nullable := false, IsList := false,
                                  ListType := none } }] }, 8) :=
  ⟨(C17_interface_like_type (fun _ => "") 8
      [⟨.Interface, "interface"⟩, ⟨.Identifier, "Node"⟩, ⟨.CurlyOpen, "\x7b"⟩,
        ⟨.Field, "id"⟩, ⟨.Colon, ":"⟩, ⟨.Identifier, "ID"⟩, ⟨.Exclamation, "!"⟩,
        ⟨.CurlyClose, "\x7d"⟩, ⟨.EOF, ""⟩] 0 ⟨.Identifier, "Node"⟩ rfl rfl), rfl⟩

/-! ## Loops that do not move on -/

/-- The switch in the body loop of `parseTypeDefinition` has cases for a field
name and `}` only: on any other token, the end of input included, the loop goes
round without moving the cursor. -/
theorem parseTypeDefinitionLoop_stuck (tokens : Tokens) (start cur : Nat) (t : Token)
    (d : TypeDefinition) (h : tokenAt tokens cur = .ok t) (h1 : t.Kind ≠ .Field)
    (h2 : t.Kind ≠ .CurlyClose) :
    ∀ fuel, parseTypeDefinitionLoop fuel tokens start cur d = .error .outOfFuel := by
  intro fuel
  induction fuel with
  | zero => rfl
  | succ fuel ih =>
    have hlt := lt_length_of_tokenAt tokens cur t h
    obtain ⟨k, v⟩ := t
    cases k <;>
      first
      | exact absurd rfl h1
      | exact absurd rfl h2
      | (simp only [parseTypeDefinitionLoop, hlt, if_true, h, bind, Except.bind]; exact ih)

/-- The same for the body loop of `parseInterfaceDefinition`. -/
theorem parseInterfaceDefinitionLoop_stuck (tokens : Tokens) (cur : Nat) (t : Token)
    (d : InterfaceDefinition) (h : tokenAt tokens cur = .ok t) (h1 : t.Kind ≠ .Field)
    (h2 : t.Kind ≠ .CurlyClose) :
    ∀ fuel, parseInterfaceDefinitionLoop fuel tokens cur d = .error .outOfFuel := by
  intro fuel
  induction fuel with
  | zero => rfl
  | succ fuel ih =>
    have hlt := lt_length_of_tokenAt tokens cur t h
    obtain ⟨k, v⟩ := t
    cases k <;>
      first
      | exact absurd rfl h1
      | exact absurd rfl h2
      | (simp only [parseInterfaceDefinitionLoop, hlt, if_true, h, bind, Except.bind]; exact ih)

/-- The loop of `parseFieldDefinitions` skips `{` and `(` only: on a token that
its switch has no case for, it goes round without moving the cursor. -/
theorem parseFieldDefinitionsLoop_stuck (tokens : Tokens) (cur : Nat) (t : Token)
    (acc : List FieldDefinition) (h : tokenAt tokens cur = .ok t)
    (hk : fieldLoopHandles t.Kind = false) :
    ∀ fuel, parseFieldDefinitionsLoop fuel tokens cur acc = .error .outOfFuel := by
  intro fuel
  induction fuel with
  | zero => rfl
  | succ fuel ih =>
    have hlt := lt_length_of_tokenAt tokens cur t h
    obtain ⟨k, v⟩ := t
    cases k <;>
      first
      | (simp [fieldLoopHandles] at hk; done)
      | (simp only [parseFieldDefinitionsLoop, hlt, if_true, h, bind, Except.bind]; exact ih)

/-- C14 (the code departs from it): on a type or interface block whose body is
empty and is followed by the end of input (`type T {`, `interface T {`), `Parse`
does not fail with "unexpected end of input": the body loop has no case for the
end-of-input token and never moves on, so `Parse` is out of fuel for every
fuel. -/
theorem C14_empty_body_at_end_never_returns (argType : FieldType → String)
    (kindText : TokenType → String)
    (name eofText : String) (fuel : Nat) :
    Parse argType kindText fuel
        [⟨.ReservedType, "type"⟩, ⟨.Identifier, name⟩, ⟨.CurlyOpen, "\x7b"⟩, ⟨.EOF, eofText⟩]
        = .error .outOfFuel
      ∧ Parse argType kindText fuel
        [⟨.Interface, "interface"⟩, ⟨.Identifier, name⟩, ⟨.CurlyOpen, "\x7b"⟩,
          ⟨.EOF, eofText⟩]
        = .error .outOfFuel := by
  constructor
  · cases fuel with
    | zero => rfl
    | succ fuel =>
      have hs := parseTypeDefinitionLoop_stuck
        [⟨.ReservedType, "type"⟩, ⟨.Identifier, name⟩, ⟨.CurlyOpen, "\x7b"⟩, ⟨.EOF, eofText⟩]
        1 3 ⟨.EOF, eofText⟩ { Name := name, Fields := [], tokens := [] } rfl
        (by simp) (by simp) fuel
      simp [Parse, ParseLoop, parseTypeDefinition, tokenAt, bind, Except.bind, pure,
        Except.pure, hs]
  · cases fuel with
    | zero => rfl
    | succ fuel =>
      have hs := parseInterfaceDefinitionLoop_stuck
        [⟨.Interface, "interface"⟩, ⟨.Identifier, name⟩, ⟨.CurlyOpen, "\x7b"⟩,
          ⟨.EOF, eofText⟩]
        3 ⟨.EOF, eofText⟩ { Name := name, Fields := [] } rfl (by simp) (by simp) fuel
      simp [Parse, ParseLoop, parseInterfaceDefinition, tokenAt, bind, Except.bind, pure,
        Except.pure, hs]

/-- C16 (the code departs from it): `Parse` does not return on every input. On
any token sequence that starts with the `enum` keyword, a kind the top-level
switch has no case for, the loop never moves the cursor: `Parse` is out of fuel
for every fuel. -/
theorem C16_Parse_does_not_terminate (argType : FieldType → String)
    (kindText : TokenType → String) (enumText : String)
    (rest : Tokens) (fuel : Nat) :
    Parse argType kindText fuel (⟨.Enum, enumText⟩ :: rest) = .error .outOfFuel :=
  ParseLoop_stuck argType kindText (⟨.Enum, enumText⟩ :: rest) 0 ⟨.Enum, enumText⟩ _
    (by simp [tokenAt]) (by simp) (by simp) (by simp) (by simp) fuel


/-! ## Stray tokens in a block -/

/-- With less fuel than the nesting depth, the recursion of `parseFieldType` on
a rendered type expression runs out. -/
theorem parseFieldType_render_short (t : TypeExpr) :
    ∀ (fuel : Nat) (pre rest : Tokens), fuel < t.depth →
      parseFieldType fuel (pre ++ (t.render ++ rest)) pre.length = .error .outOfFuel := by
  induction t with
  | named name nonNull =>
    intro fuel pre rest hf
    obtain rfl : fuel = 0 := by simp [TypeExpr.depth] at hf; omega
    rfl
  | list elem nonNull ih =>
    intro fuel pre rest hf
    cases fuel with
    | zero => rfl
    | succ fuel =>
      have hf2 : fuel < elem.depth := by simp [TypeExpr.depth] at hf; omega
      have e0 : tokenAt (pre ++ ((TypeExpr.list elem nonNull).render ++ rest)) pre.length
          = .ok ⟨.BracketOpen, "["⟩ :=
        tokenAt_of_eq pre _ (elem.render ++ ⟨.BracketClose, "]"⟩ :: (bang nonNull ++ rest))
          _ _ (by simp [TypeExpr.render]) rfl
      have er := ih fuel (pre ++ [⟨.BracketOpen, "["⟩])
        (⟨.BracketClose, "]"⟩ :: (bang nonNull ++ rest)) hf2
      have et : (pre ++ [⟨.BracketOpen, "["⟩])
            ++ (elem.render ++ ⟨.BracketClose, "]"⟩ :: (bang nonNull ++ rest))
          = pre ++ ((TypeExpr.list elem nonNull).render ++ rest) := by
        simp [TypeExpr.render]
      rw [et] at er
      simp only [List.length_append, List.length_singleton] at er
      generalize pre ++ ((TypeExpr.list elem nonNull).render ++ rest) = toks at e0 er
      simp [parseFieldType, bind, Except.bind, e0, er]

/-- The first token of a rendered type expression. -/
theorem render_head (t : TypeExpr) :
    ∃ x tl, t.render = x :: tl ∧ (x.Kind = .Identifier ∨ x.Kind = .BracketOpen) := by
  cases t with
  | named n nn => exact ⟨_, _, rfl, Or.inl rfl⟩
  | list e nn => exact ⟨_, _, rfl, Or.inr rfl⟩

theorem parseFieldDefinition_render_short (f : FieldSrc) (fuel : Nat) (pre rest : Tokens)
    (hf : fuel < f.typ.depth) :
    parseFieldDefinition fuel (pre ++ (f.render ++ rest)) pre.length = .error .outOfFuel := by
  have e0 : tokenAt (pre ++ (f.render ++ rest)) pre.length = .ok ⟨.Field, f.name⟩ :=
    tokenAt_of_eq pre _ (⟨.Colon, ":"⟩ :: (f.typ.render ++ rest)) _ _
      (by simp [FieldSrc.render]) rfl
  have e1 : tokenAt (pre ++ (f.render ++ rest)) (pre.length + 1) = .ok ⟨.Colon, ":"⟩ :=
    tokenAt_of_eq (pre ++ [⟨.Field, f.name⟩]) _ (f.typ.render ++ rest) _ _
      (by simp [FieldSrc.render]) (by simp)
  have hr := parseFieldType_render_short f.typ fuel (pre ++ [⟨.Field, f.name⟩, ⟨.Colon, ":"⟩])
    rest hf
  have et : (pre ++ [⟨.Field, f.name⟩, ⟨.Colon, ":"⟩]) ++ (f.typ.render ++ rest)
      = pre ++ (f.render ++ rest) := by simp [FieldSrc.render]
  rw [et] at hr
  simp only [List.length_append, List.length_cons, List.length_nil] at hr
  have hc : pre.length + (0 + 1 + 1) = pre.length + 1 + 1 := by omega
  rw [hc] at hr
  obtain ⟨x, tl, hx, hk⟩ := render_head f.typ
  have e2 : tokenAt (pre ++ (f.render ++ rest)) (pre.length + 1 + 1) = .ok x :=
    tokenAt_of_eq (pre ++ [⟨.Field, f.name⟩, ⟨.Colon, ":"⟩]) _ (tl ++ rest) _ _
      (by simp [FieldSrc.render, hx]) (by simp)
  generalize pre ++ (f.render ++ rest) = toks at e0 e1 e2 hr
  obtain ⟨k, v⟩ := x
  rcases hk with hk | hk <;> simp only at hk <;> subst hk <;>
    simp [parseFieldDefinition, bind, Except.bind, pure, Except.pure, e0, e1, e2, hr]

/-- Well-formed fields followed by a token the field loop has no case for (and
that is no part of a type expression): the loop reads the fields and then goes
round on that token. -/
theorem parseFieldDefinitionsLoop_stray (fs : List FieldSrc) :
    ∀ (fuel : Nat) (pre : Tokens) (s : Token) (rest : Tokens) (acc : List FieldDefinition),
      fieldLoopHandles s.Kind = false → s.Kind ≠ .BracketOpen → s.Kind ≠ .Exclamation →
      s.Kind ≠ .BracketClose →
      parseFieldDefinitionsLoop fuel (pre ++ (renderFields fs ++ s :: rest)) pre.length acc
        = .error .outOfFuel := by
  induction fs with
  | nil =>
    intro fuel pre s rest acc hs _ _ _
    exact parseFieldDefinitionsLoop_stuck _ _ s acc
      (tokenAt_of_eq pre _ rest _ _ (by simp [renderFields]) rfl) hs fuel
  | cons f fs ih =>
    intro fuel pre s rest acc hs h1 h2 h3
    cases fuel with
    | zero => rfl
    | succ fuel =>
      obtain ⟨nxt, rest', hnx, hk⟩ := renderFields_head fs s rest
      have e0 : tokenAt (pre ++ (renderFields (f :: fs) ++ s :: rest)) pre.length
          = .ok ⟨.Field, f.name⟩ :=
        tokenAt_of_eq pre _ (⟨.Colon, ":"⟩ :: (f.typ.render ++ (renderFields fs ++ s :: rest)))
          _ _ (by simp [renderFields, FieldSrc.render]) rfl
      have hlt := lt_length_of_tokenAt _ _ _ e0
      have et : pre ++ (f.render ++ (renderFields fs ++ s :: rest))
          = pre ++ (renderFields (f :: fs) ++ s :: rest) := by simp [renderFields]
      by_cases hd : f.typ.depth ≤ fuel
      · have hnk : nxt.Kind ≠ .BracketOpen ∧ nxt.Kind ≠ .Exclamation
            ∧ nxt.Kind ≠ .BracketClose := by
          rcases hk with hk | hk
          · simp [hk]
          · subst hk; exact ⟨h1, h2, h3⟩
        have e1 := parseFieldDefinition_render f fuel pre nxt rest' hd hnk.1 hnk.2.1 hnk.2.2
        rw [← hnx, et] at e1
        have e2 := ih fuel (pre ++ f.render) s rest (acc ++ [f.toFieldDefinition]) hs h1 h2 h3
        have et2 : (pre ++ f.render) ++ (renderFields fs ++ s :: rest)
            = pre ++ (renderFields (f :: fs) ++ s :: rest) := by simp [renderFields]
        rw [et2] at e2
        simp only [List.length_append] at e2
        generalize pre ++ (renderFields (f :: fs) ++ s :: rest) = toks at e0 e1 e2 hlt
        simp [parseFieldDefinitionsLoop, hlt, e0, e1, e2, bind, Except.bind]
      · have e1 := parseFieldDefinition_render_short f fuel pre
          (renderFields fs ++ s :: rest) (by omega)
        rw [et] at e1
        generalize pre ++ (renderFields (f :: fs) ++ s :: rest) = toks at e0 e1 hlt
        simp [parseFieldDefinitionsLoop, hlt, e0, e1, bind, Except.bind]

/-- A type block with at least one field and then such a token. -/
theorem parseTypeDefinition_stray (name : String) (f : FieldSrc) (fs : List FieldSrc)
    (fuel : Nat) (pre : Tokens) (s : Token) (rest : Tokens)
    (hs : fieldLoopHandles s.Kind = false) (h1 : s.Kind ≠ .BracketOpen)
    (h2 : s.Kind ≠ .Exclamation) (h3 : s.Kind ≠ .BracketClose) :
    parseTypeDefinition fuel
        (pre ++ (TypeSrc.body { name := name, fields := f :: fs } ++ s :: rest)) pre.length
      = .error .outOfFuel := by
  have e0 : tokenAt (pre ++ (TypeSrc.body { name := name, fields := f :: fs } ++ s :: rest))
      pre.length = .ok ⟨.Identifier, name⟩ :=
    tokenAt_of_eq pre _ (⟨.CurlyOpen, "\x7b"⟩ :: (renderFields (f :: fs) ++ s :: rest)) _ _
      (by simp [TypeSrc.body]) rfl
  have e1 : tokenAt (pre ++ (TypeSrc.body { name := name, fields := f :: fs } ++ s :: rest))
      (pre.length + 1) = .ok ⟨.CurlyOpen, "\x7b"⟩ :=
    tokenAt_of_eq (pre ++ [⟨.Identifier, name⟩]) _ (renderFields (f :: fs) ++ s :: rest) _ _
      (by simp [TypeSrc.body]) (by simp)
  have e2 : tokenAt (pre ++ (TypeSrc.body { name := name, fields := f :: fs } ++ s :: rest))
      (pre.length + 1 + 1) = .ok ⟨.Field, f.name⟩ :=
    tokenAt_of_eq (pre ++ [⟨.Identifier, name⟩, ⟨.CurlyOpen, "\x7b"⟩]) _
      (⟨.Colon, ":"⟩ :: (f.typ.render ++ (renderFields fs ++ s :: rest))) _ _
      (by simp [TypeSrc.body, renderFields, FieldSrc.render]) (by simp)
  have hlt2 := lt_length_of_tokenAt _ _ _ e2
  have e3 : ∀ n, parseFieldDefinitionsLoop n
      (pre ++ (TypeSrc.body { name := name, fields := f :: fs } ++ s :: rest))
      (pre.length + 1 + 1) [] = .error .outOfFuel := by
    intro n
    have h := parseFieldDefinitionsLoop_stray (f :: fs) n
      (pre ++ [⟨.Identifier, name⟩, ⟨.CurlyOpen, "\x7b"⟩]) s rest [] hs h1 h2 h3
    have et : (pre ++ [⟨.Identifier, name⟩, ⟨.CurlyOpen, "\x7b"⟩])
          ++ (renderFields (f :: fs) ++ s :: rest)
        = pre ++ (TypeSrc.body { name := name, fields := f :: fs } ++ s :: rest) := by
      simp [TypeSrc.body]
    rw [et] at h
    simpa using h
  generalize pre ++ (TypeSrc.body { name := name, fields := f :: fs } ++ s :: rest) = toks
    at e0 e1 e2 e3 hlt2
  cases fuel with
  | zero => simp [parseTypeDefinition, parseTypeDefinitionLoop, bind, Except.bind, pure,
      Except.pure, e0, e1]
  | succ fuel =>
    simp [parseTypeDefinition, parseTypeDefinitionLoop, parseFieldDefinitions, bind,
      Except.bind, pure, Except.pure, e0, e1, e2, e3 fuel, hlt2]

/-- `Parse` on a sequence that starts with a type block hands the error of
`parseTypeDefinition` on. -/
theorem Parse_type_error (argType : FieldType → String)
    (kindText : TokenType → String) (fuel : Nat) (tokens : Tokens)
    (v n : String) (rest : Tokens) (e : Failure)
    (ht : tokens = ⟨.ReservedType, v⟩ :: ⟨.Identifier, n⟩ :: rest)
    (h : parseTypeDefinition fuel tokens 1 = .error e) :
    Parse argType kindText (fuel + 1) tokens = .error e := by
  have e0 : tokenAt tokens 0 = .ok ⟨.ReservedType, v⟩ := by subst ht; simp [tokenAt]
  have e1 : tokens[1]? = some ⟨.Identifier, n⟩ := by subst ht; simp
  have hlt := lt_length_of_tokenAt _ _ _ e0
  have hlt1 : 1 < tokens.length := (List.getElem?_eq_some_iff.mp e1).1
  simp [Parse, ParseLoop, hlt, hlt1, e0, e1, h, bind, Except.bind]

/-- `Parse` on a sequence that starts with an interface block hands the error of
`parseInterfaceDefinition` on. -/
theorem Parse_interface_error (argType : FieldType → String)
    (kindText : TokenType → String) (fuel : Nat) (tokens : Tokens)
    (v : String) (rest : Tokens) (e : Failure) (ht : tokens = ⟨.Interface, v⟩ :: rest)
    (h : parseInterfaceDefinition kindText fuel tokens 0 = .error e) :
    Parse argType kindText (fuel + 1) tokens = .error e := by
  have e0 : tokenAt tokens 0 = .ok ⟨.Interface, v⟩ := by subst ht; simp [tokenAt]
  have hlt := lt_length_of_tokenAt _ _ _ e0
  simp [Parse, ParseLoop, hlt, e0, h, bind, Except.bind]

/-- An interface block fails as the type block at its name does. -/
theorem parseInterfaceDefinition_error (kindText : TokenType → String) (fuel : Nat)
    (v n : String) (rest : Tokens) (e : Failure)
    (h : parseTypeDefinition fuel (⟨.Interface, v⟩ :: ⟨.Identifier, n⟩ :: rest) 1 = .error e) :
    parseInterfaceDefinition kindText fuel (⟨.Interface, v⟩ :: ⟨.Identifier, n⟩ :: rest) 0
      = .error e := by
  rw [parseInterfaceDefinition_eq kindText fuel _ 0 ⟨.Identifier, n⟩ (by simp [tokenAt]) rfl, h]
  rfl

/-- C18 (the code departs from it): a token that the field loop has no case for
(a comma, `=`, `|`, a stray identifier, a keyword) placed after the fields of a
type or interface block is not skipped: the loop of `parseFieldDefinitions`
goes round on it without moving the cursor, so `Parse` is out of fuel for every
fuel and the block never parses. -/
theorem C18_stray_token_never_skipped (argType : FieldType → String)
    (kindText : TokenType → String) (name : String)
    (f : FieldSrc) (fs : List FieldSrc) (s : Token) (rest : Tokens) (fuel : Nat)
    (hs : fieldLoopHandles s.Kind = false) (h1 : s.Kind ≠ .BracketOpen)
    (h2 : s.Kind ≠ .Exclamation) (h3 : s.Kind ≠ .BracketClose) :
    Parse argType kindText fuel
        (⟨.ReservedType, "type"⟩
          :: (TypeSrc.body { name := name, fields := f :: fs } ++ s :: rest))
        = .error .outOfFuel
      ∧ Parse argType kindText fuel
        (⟨.Interface, "interface"⟩
          :: (TypeSrc.body { name := name, fields := f :: fs } ++ s :: rest))
        = .error .outOfFuel := by
  constructor
  · cases fuel with
    | zero => rfl
    | succ fuel =>
      exact Parse_type_error argType kindText fuel _ "type" name
        (⟨.CurlyOpen, "\x7b"⟩ :: (renderFields (f :: fs) ++ s :: rest)) _
        (by simp [TypeSrc.body])
        (parseTypeDefinition_stray name f fs fuel [⟨.ReservedType, "type"⟩] s rest hs h1 h2 h3)
  · cases fuel with
    | zero => rfl
    | succ fuel =>
      have h := parseTypeDefinition_stray name f fs fuel [⟨.Interface, "interface"⟩] s rest
        hs h1 h2 h3
      have ht : [⟨.Interface, "interface"⟩]
            ++ (TypeSrc.body { name := name, fields := f :: fs } ++ s :: rest)
          = ⟨.Interface, "interface"⟩ :: ⟨.Identifier, name⟩
              :: (⟨.CurlyOpen, "\x7b"⟩ :: (renderFields (f :: fs) ++ s :: rest)) := by
        simp [TypeSrc.body]
      rw [ht] at h
      exact Parse_interface_error argType kindText fuel _ "interface"
        (⟨.Identifier, name⟩
          :: (⟨.CurlyOpen, "\x7b"⟩ :: (renderFields (f :: fs) ++ s :: rest))) _
        (by simp [TypeSrc.body])
        (parseInterfaceDefinition_error kindText fuel "interface" name _ _ h)

/-- The block `type T { a: A , b: B }`. -/
theorem C18_stray_token_never_skipped_witness :
    Parse (fun _ => "") (fun _ => "") 1000
        [⟨.ReservedType, "type"⟩, ⟨.Identifier, "T"⟩, ⟨.CurlyOpen, "\x7b"⟩, ⟨.Field, "a"⟩,
          ⟨.Colon, ":"⟩, ⟨.Identifier, "A"⟩, ⟨.Comma, ","⟩, ⟨.Field, "b"⟩, ⟨.Colon, ":"⟩,
          ⟨.Identifier, "B"⟩, ⟨.CurlyClose, "\x7d"⟩, ⟨.EOF, ""⟩]
      = .error .outOfFuel :=
  (C18_stray_token_never_skipped (fun _ => "") (fun _ => "") "T"
    { name := "a", typ := .named "A" false } [] ⟨.Comma, ","⟩
    [⟨.Field, "b"⟩, ⟨.Colon, ":"⟩, ⟨.Identifier, "B"⟩, ⟨.CurlyClose, "\x7d"⟩, ⟨.EOF, ""⟩]
    1000 rfl (by decide) (by decide) (by decide)).1

/-! ## A field without a type -/

theorem mentions_append (a raw : String) : mentions (a ++ raw) raw := by
  unfold mentions
  rw [String.data_append]
  exact (List.suffix_append _ _).isInfix

theorem parseFieldDefinition_bad (fname : String) (x : Token) (fuel : Nat) (pre rest : Tokens)
    (h1 : x.Kind ≠ .Identifier) (h2 : x.Kind ≠ .BracketOpen) :
    parseFieldDefinition fuel (pre ++ (badField fname x ++ rest)) pre.length
      = .error (expectedTypeError x) := by
  have e0 : tokenAt (pre ++ (badField fname x ++ rest)) pre.length = .ok ⟨.Field, fname⟩ :=
    tokenAt_of_eq pre _ (⟨.Colon, ":"⟩ :: x :: rest) _ _ (by simp [badField]) rfl
  have e1 : tokenAt (pre ++ (badField fname x ++ rest)) (pre.length + 1)
      = .ok ⟨.Colon, ":"⟩ :=
    tokenAt_of_eq (pre ++ [⟨.Field, fname⟩]) _ (x :: rest) _ _ (by simp [badField]) (by simp)
  have e2 : tokenAt (pre ++ (badField fname x ++ rest)) (pre.length + 1 + 1) = .ok x :=
    tokenAt_of_eq (pre ++ [⟨.Field, fname⟩, ⟨.Colon, ":"⟩]) _ rest _ _
      (by simp [badField]) (by simp)
  generalize pre ++ (badField fname x ++ rest) = toks at e0 e1 e2
  obtain ⟨k, v⟩ := x
  cases k <;>
    first
    | exact absurd rfl h1
    | exact absurd rfl h2
    | simp [parseFieldDefinition, bind, Except.bind, pure, Except.pure, e0, e1, e2,
        expectedTypeError, throw, throwThe, MonadExceptOf.throw]

/-- Well-formed fields, then a field without a type. -/
theorem parseFieldDefinitionsLoop_bad (fs : List FieldSrc) :
    ∀ (fuel : Nat) (pre : Tokens) (fname : String) (x : Token) (rest : Tokens)
      (acc : List FieldDefinition),
      (renderFields fs).length + 1 ≤ fuel → x.Kind ≠ .Identifier → x.Kind ≠ .BracketOpen →
      parseFieldDefinitionsLoop fuel (pre ++ (renderFields fs ++ (badField fname x ++ rest)))
          pre.length acc
        = .error (expectedTypeError x) := by
  induction fs with
  | nil =>
    intro fuel pre fname x rest acc hf h1 h2
    obtain ⟨fuel, rfl⟩ : ∃ k, fuel = k + 1 := ⟨fuel - 1, by omega⟩
    have e0 : tokenAt (pre ++ (renderFields [] ++ (badField fname x ++ rest))) pre.length
        = .ok ⟨.Field, fname⟩ :=
      tokenAt_of_eq pre _ (⟨.Colon, ":"⟩ :: x :: rest) _ _ (by simp [badField, renderFields]) rfl
    have hlt := lt_length_of_tokenAt _ _ _ e0
    have e1 := parseFieldDefinition_bad fname x fuel pre rest h1 h2
    have et : pre ++ (badField fname x ++ rest)
        = pre ++ (renderFields [] ++ (badField fname x ++ rest)) := by simp [renderFields]
    rw [et] at e1
    generalize pre ++ (renderFields [] ++ (badField fname x ++ rest)) = toks at e0 e1 hlt
    simp [parseFieldDefinitionsLoop, hlt, e0, e1, bind, Except.bind]
  | cons f fs ih =>
    intro fuel pre fname x rest acc hf h1 h2
    obtain ⟨fuel, rfl⟩ : ∃ k, fuel = k + 1 := ⟨fuel - 1, by omega⟩
    have hlen : (renderFields (f :: fs)).length
        = f.typ.render.length + 2 + (renderFields fs).length := by
      simp [renderFields, FieldSrc.render]; omega
    have hd := f.typ.depth_le_length
    obtain ⟨nxt, rest', hnx, hk⟩ :=
      renderFields_head fs ⟨.Field, fname⟩ (⟨.Colon, ":"⟩ :: x :: rest)
    have hbad : badField fname x ++ rest = ⟨.Field, fname⟩ :: ⟨.Colon, ":"⟩ :: x :: rest := by
      simp [badField]
    rw [← hbad] at hnx
    have e0 : tokenAt (pre ++ (renderFields (f :: fs) ++ (badField fname x ++ rest))) pre.length
        = .ok ⟨.Field, f.name⟩ :=
      tokenAt_of_eq pre _
        (⟨.Colon, ":"⟩ :: (f.typ.render ++ (renderFields fs ++ (badField fname x ++ rest))))
        _ _ (by simp [renderFields, FieldSrc.render]) rfl
    have hlt := lt_length_of_tokenAt _ _ _ e0
    have hnk : nxt.Kind ≠ .BracketOpen ∧ nxt.Kind ≠ .Exclamation ∧ nxt.Kind ≠ .BracketClose := by
      rcases hk with hk | hk
      · simp [hk]
      · subst hk; simp
    have e1 := parseFieldDefinition_render f fuel pre nxt rest' (by omega) hnk.1 hnk.2.1 hnk.2.2
    rw [← hnx] at e1
    have et : pre ++ (f.render ++ (renderFields fs ++ (badField fname x ++ rest)))
        = pre ++ (renderFields (f :: fs) ++ (badField fname x ++ rest)) := by
      simp [renderFields]
    rw [et] at e1
    have e2 := ih fuel (pre ++ f.render) fname x rest (acc ++ [f.toFieldDefinition])
      (by omega) h1 h2
    have et2 : (pre ++ f.render) ++ (renderFields fs ++ (badField fname x ++ rest))
        = pre ++ (renderFields (f :: fs) ++ (badField fname x ++ rest)) := by
      simp [renderFields]
    rw [et2] at e2
    simp only [List.length_append] at e2
    generalize pre ++ (renderFields (f :: fs) ++ (badField fname x ++ rest)) = toks
      at e0 e1 e2 hlt
    simp [parseFieldDefinitionsLoop, hlt, e0, e1, e2, bind, Except.bind]

/-- A type block with well-formed fields and then a field without a type. -/
theorem parseTypeDefinition_bad (d : TypeSrc) (fname : String) (x : Token) (fuel : Nat)
    (pre rest : Tokens) (hf : (renderFields d.fields).length + 2 ≤ fuel)
    (h1 : x.Kind ≠ .Identifier) (h2 : x.Kind ≠ .BracketOpen) :
    parseTypeDefinition fuel (pre ++ (d.body ++ (badField fname x ++ rest))) pre.length
      = .error (expectedTypeError x) := by
  obtain ⟨fuel, rfl⟩ : ∃ k, fuel = k + 1 := ⟨fuel - 1, by omega⟩
  have e0 : tokenAt (pre ++ (d.body ++ (badField fname x ++ rest))) pre.length
      = .ok ⟨.Identifier, d.name⟩ :=
    tokenAt_of_eq pre _
      (⟨.CurlyOpen, "\x7b"⟩ :: (renderFields d.fields ++ (badField fname x ++ rest))) _ _
      (by simp [TypeSrc.body]) rfl
  have e1 : tokenAt (pre ++ (d.body ++ (badField fname x ++ rest))) (pre.length + 1)
      = .ok ⟨.CurlyOpen, "\x7b"⟩ :=
    tokenAt_of_eq (pre ++ [⟨.Identifier, d.name⟩]) _
      (renderFields d.fields ++ (badField fname x ++ rest)) _ _
      (by simp [TypeSrc.body]) (by simp)
  obtain ⟨nxt, rest', hnx, hk⟩ :=
    renderFields_head d.fields ⟨.Field, fname⟩ (⟨.Colon, ":"⟩ :: x :: rest)
  have hbad : badField fname x ++ rest = ⟨.Field, fname⟩ :: ⟨.Colon, ":"⟩ :: x :: rest := by
    simp [badField]
  rw [← hbad] at hnx
  have hkf : nxt.Kind = .Field := by
    rcases hk with hk | hk
    · exact hk
    · subst hk; rfl
  have e2 : tokenAt (pre ++ (d.body ++ (badField fname x ++ rest))) (pre.length + 1 + 1)
      = .ok nxt :=
    tokenAt_of_eq (pre ++ [⟨.Identifier, d.name⟩, ⟨.CurlyOpen, "\x7b"⟩]) _ rest' _ _
      (by simp [TypeSrc.body, hnx]) (by simp)
  have hlt2 := lt_length_of_tokenAt _ _ _ e2
  have e3 := parseFieldDefinitionsLoop_bad d.fields fuel
    (pre ++ [⟨.Identifier, d.name⟩, ⟨.CurlyOpen, "\x7b"⟩]) fname x rest [] (by omega) h1 h2
  have et : (pre ++ [⟨.Identifier, d.name⟩, ⟨.CurlyOpen, "\x7b"⟩])
        ++ (renderFields d.fields ++ (badField fname x ++ rest))
      = pre ++ (d.body ++ (badField fname x ++ rest)) := by simp [TypeSrc.body]
  rw [et] at e3
  simp only [List.length_append, List.length_cons, List.length_nil] at e3
  have hc : pre.length + (0 + 1 + 1) = pre.length + 1 + 1 := by omega
  rw [hc] at e3
  generalize pre ++ (d.body ++ (badField fname x ++ rest)) = toks at e0 e1 e2 e3 hlt2
  obtain ⟨k, v⟩ := nxt
  simp only at hkf
  subst hkf
  simp [parseTypeDefinition, parseTypeDefinitionLoop, parseFieldDefinitions, bind, Except.bind,
    pure, Except.pure, e0, e1, e2, e3, hlt2]

/-- C15: when the colon of a field of a type or interface block is followed by a
token `x` that is neither an identifier nor `[`, `parseFieldDefinition` fails
with the error "expected identifier or '[' but got" followed by the raw text of
`x`, and `Parse` of the block (well-formed fields before that field, fuel for
the length of the block) returns that error. -/
theorem C15_field_without_type (argType : FieldType → String)
    (kindText : TokenType → String) (d : TypeSrc) (fname : String)
    (x : Token) (pre rest : Tokens) (fuel : Nat)
    (hf : d.render.length ≤ fuel) (h1 : x.Kind ≠ .Identifier) (h2 : x.Kind ≠ .BracketOpen) :
    parseFieldDefinition fuel (pre ++ (badField fname x ++ rest)) pre.length
        = .error (.error ("expected identifier or '[' but got " ++ x.Value))
      ∧ mentions ("expected identifier or '[' but got " ++ x.Value) x.Value
      ∧ Parse argType kindText fuel
          (⟨.ReservedType, "type"⟩ :: (d.body ++ (badField fname x ++ rest)))
        = .error (.error ("expected identifier or '[' but got " ++ x.Value))
      ∧ Parse argType kindText fuel
          (⟨.Interface, "interface"⟩ :: (d.body ++ (badField fname x ++ rest)))
        = .error (.error ("expected identifier or '[' but got " ++ x.Value)) := by
  have hl : d.render.length = (renderFields d.fields).length + 4 := typeSrc_render_length d
  obtain ⟨fuel, rfl⟩ : ∃ k, fuel = k + 1 := ⟨fuel - 1, by omega⟩
  refine ⟨parseFieldDefinition_bad fname x (fuel + 1) pre rest h1 h2, mentions_append _ _, ?_, ?_⟩
  · exact Parse_type_error argType kindText fuel _ "type" d.name
      (⟨.CurlyOpen, "\x7b"⟩ :: (renderFields d.fields ++ (badField fname x ++ rest))) _
      (by simp [TypeSrc.body])
      (parseTypeDefinition_bad d fname x fuel [⟨.ReservedType, "type"⟩] rest (by omega) h1 h2)
  · have h := parseTypeDefinition_bad d fname x fuel [⟨.Interface, "interface"⟩] rest
      (by omega) h1 h2
    have ht : [⟨.Interface, "interface"⟩] ++ (d.body ++ (badField fname x ++ rest))
        = ⟨.Interface, "interface"⟩ :: ⟨.Identifier, d.name⟩
            :: (⟨.CurlyOpen, "\x7b"⟩
              :: (renderFields d.fields ++ (badField fname x ++ rest))) := by
      simp [TypeSrc.body]
    rw [ht] at h
    exact Parse_interface_error argType kindText fuel _ "interface"
      (⟨.Identifier, d.name⟩
        :: (⟨.CurlyOpen, "\x7b"⟩ :: (renderFields d.fields ++ (badField fname x ++ rest)))) _
      (by simp [TypeSrc.body])
      (parseInterfaceDefinition_error kindText fuel "interface" d.name _ _ h)

/-- The block `type T { f: }`. -/
theorem C15_field_without_type_witness :
    Parse (fun _ => "") (fun _ => "") 4
        [⟨.ReservedType, "type"⟩, ⟨.Identifier, "T"⟩, ⟨.CurlyOpen, "\x7b"⟩, ⟨.Field, "f"⟩,
          ⟨.Colon, ":"⟩, ⟨.CurlyClose, "\x7d"⟩, ⟨.EOF, ""⟩]
      = .error (.error ("expected identifier or '[' but got " ++ "\x7d")) :=
  (C15_field_without_type (fun _ => "") (fun _ => "") { name := "T", fields := [] } "f"
    ⟨.CurlyClose, "\x7d"⟩ [] [⟨.EOF, ""⟩] 4 (by decide) (by decide) (by decide)).2.2.1

/-! ## Cursors stay inside the token sequence -/

theorem tokenAt_ok_of_lt (tokens : Tokens) (cur : Nat) (h : cur < tokens.length) :
    ∃ t, tokenAt tokens cur = .ok t := by
  refine ⟨tokens[cur], ?_⟩
  simp [tokenAt, List.getElem?_eq_getElem h]

theorem getElem?_of_tokenAt (tokens : Tokens) (cur : Nat) (t : Token)
    (h : tokenAt tokens cur = .ok t) : tokens[cur]? = some t := by
  unfold tokenAt at h
  cases hq : tokens[cur]? with
  | none => simp [hq] at h
  | some x => simp [hq] at h; rw [h]

/-- Past a token that is not the end-of-input token there is another token. -/
theorem next_lt (tokens : Tokens) (cur : Nat) (t : Token) (hE : endsWithEOF tokens = true)
    (h : tokenAt tokens cur = .ok t) (hk : t.Kind ≠ .EOF) : cur + 1 < tokens.length := by
  have hlt := lt_length_of_tokenAt tokens cur t h
  by_contra hn
  have hc : cur = tokens.length - 1 := by omega
  have hg : tokens[cur]? = some t := getElem?_of_tokenAt tokens cur t h
  have hl : tokens.getLast? = some t := by
    rw [List.getLast?_eq_getElem?, ← hc, hg]
  simp [endsWithEOF, hl] at hE
  exact hk hE


/-- `parseFieldType` on a sequence that ends with the end-of-input token, from a
cursor inside it: it returns a type and a cursor inside the sequence, no earlier
than where it started, or else runs out of fuel, which takes less fuel than
there are tokens left. -/
theorem parseFieldType_total :
    ∀ (fuel : Nat) (tokens : Tokens) (cur : Nat), endsWithEOF tokens = true →
      cur < tokens.length →
      (∃ ft c, parseFieldType fuel tokens cur = .ok (ft, c) ∧ cur ≤ c ∧ c < tokens.length)
        ∨ (parseFieldType fuel tokens cur = .error .outOfFuel ∧ fuel < tokens.length - cur) := by
  intro fuel
  induction fuel with
  | zero =>
    intro tokens cur _ hlt
    exact Or.inr ⟨rfl, by omega⟩
  | succ fuel ih =>
    intro tokens cur hE hlt
    obtain ⟨t0, h0⟩ := tokenAt_ok_of_lt tokens cur hlt
    obtain ⟨name, c1, hc1, hle1, hlt1⟩ : ∃ name c1,
        (if t0.Kind = .Identifier then (some t0.Value, cur + 1) else (none, cur)) = (name, c1)
          ∧ cur ≤ c1 ∧ c1 < tokens.length := by
      by_cases hk : t0.Kind = .Identifier
      · exact ⟨some t0.Value, cur + 1, by simp [hk], by omega,
          next_lt tokens cur t0 hE h0 (by simp [hk])⟩
      · exact ⟨none, cur, by simp [hk], by omega, hlt⟩
    obtain ⟨t1, h1⟩ := tokenAt_ok_of_lt tokens c1 hlt1
    simp only [parseFieldType, bind, Except.bind, pure, Except.pure, h0, hc1, h1]
    by_cases hb : t1.Kind = .BracketOpen
    · simp only [hb, if_true]
      have hlt2 := next_lt tokens c1 t1 hE h1 (by simp [hb])
      rcases ih tokens (c1 + 1) hE hlt2 with ⟨lt, c2, hr, hle2, hltc2⟩ | ⟨hr, hfu⟩
      · obtain ⟨t2, h2⟩ := tokenAt_ok_of_lt tokens c2 hltc2
        obtain ⟨nl, c3, hc3, hle3, hlt3⟩ : ∃ nl c3,
            (if t2.Kind = .Exclamation then (false, c2 + 1) else (true, c2)) = (nl, c3)
              ∧ c2 ≤ c3 ∧ c3 < tokens.length := by
          by_cases hk : t2.Kind = .Exclamation
          · exact ⟨false, c2 + 1, by simp [hk], by omega,
              next_lt tokens c2 t2 hE h2 (by simp [hk])⟩
          · exact ⟨true, c2, by simp [hk], by omega, hltc2⟩
        obtain ⟨t3, h3⟩ := tokenAt_ok_of_lt tokens c3 hlt3
        simp only [hr, h2, hc3, h3]
        refine Or.inl ⟨_, _, rfl, ?_, ?_⟩
        · split <;> omega
        · split
          · exact next_lt tokens c3 t3 hE h3 (by simp [*])
          · exact hlt3
      · rw [hr]
        exact Or.inr ⟨rfl, by omega⟩
    · simp only [hb, if_false]
      obtain ⟨nl, c3, hc3, hle3, hlt3⟩ : ∃ nl c3,
          (if t1.Kind = .Exclamation then (false, c1 + 1) else (true, c1)) = (nl, c3)
            ∧ c1 ≤ c3 ∧ c3 < tokens.length := by
        by_cases hk : t1.Kind = .Exclamation
        · exact ⟨false, c1 + 1, by simp [hk], by omega,
            next_lt tokens c1 t1 hE h1 (by simp [hk])⟩
        · exact ⟨true, c1, by simp [hk], by omega, hlt1⟩
      obtain ⟨t3, h3⟩ := tokenAt_ok_of_lt tokens c3 hlt3
      simp only [hc3, h3]
      refine Or.inl ⟨_, _, rfl, ?_, ?_⟩
      · split <;> omega
      · split
        · exact next_lt tokens c3 t3 hE h3 (by simp [*])
        · exact hlt3


theorem parseFieldType_safe (fuel : Nat) (tokens : Tokens) (cur : Nat)
    (hE : endsWithEOF tokens = true) (hlt : cur < tokens.length) :
    Safe tokens.length (parseFieldType fuel tokens cur) := by
  rcases parseFieldType_total fuel tokens cur hE hlt with ⟨ft, c, h, _, hc⟩ | ⟨h, _⟩
  · rw [h]; exact hc
  · rw [h]; simp [Safe]

theorem parseFieldDefinition_safe (fuel : Nat) (tokens : Tokens) (cur : Nat) (t0 : Token)
    (hE : endsWithEOF tokens = true) (h0 : tokenAt tokens cur = .ok t0) (hk0 : t0.Kind ≠ .EOF) :
    Safe tokens.length (parseFieldDefinition fuel tokens cur) := by
  have hlt1 := next_lt tokens cur t0 hE h0 hk0
  obtain ⟨t1, h1⟩ := tokenAt_ok_of_lt tokens (cur + 1) hlt1
  by_cases hc : t1.Kind = .Colon
  · have hlt2 := next_lt tokens (cur + 1) t1 hE h1 (by simp [hc])
    obtain ⟨t2, h2⟩ := tokenAt_ok_of_lt tokens (cur + 1 + 1) hlt2
    have hs := parseFieldType_safe fuel tokens (cur + 1 + 1) hE hlt2
    simp only [parseFieldDefinition, bind, Except.bind, pure, Except.pure, h0, h1, hc, h2,
      ne_eq, not_true_eq_false, if_false]
    split
    · cases hp : parseFieldType fuel tokens (cur + 1 + 1) with
      | error e => rw [hp] at hs; simpa [Safe] using hs
      | ok v => rw [hp] at hs; simpa [Safe] using hs
    · cases hp : parseFieldType fuel tokens (cur + 1 + 1) with
      | error e => rw [hp] at hs; simpa [Safe] using hs
      | ok v => rw [hp] at hs; simpa [Safe] using hs
    · simp [Safe, throw, throwThe, MonadExceptOf.throw]
  · simp [parseFieldDefinition, bind, Except.bind, pure, Except.pure, h0, h1, hc, Safe, throw,
      throwThe, MonadExceptOf.throw]

theorem parseFieldDefinitionsLoop_safe :
    ∀ (fuel : Nat) (tokens : Tokens) (cur : Nat) (acc : List FieldDefinition),
      endsWithEOF tokens = true →
      Safe tokens.length (parseFieldDefinitionsLoop fuel tokens cur acc) := by
  intro fuel
  induction fuel with
  | zero => intro tokens cur acc _; simp [parseFieldDefinitionsLoop, Safe]
  | succ fuel ih =>
    intro tokens cur acc hE
    by_cases hlt : cur < tokens.length
    · obtain ⟨t, ht⟩ := tokenAt_ok_of_lt tokens cur hlt
      simp only [parseFieldDefinitionsLoop, hlt, if_true, bind, Except.bind, pure, Except.pure,
        ht]
      split
      · exact ih _ _ _ hE
      · exact ih _ _ _ hE
      · have hs := parseFieldDefinition_safe fuel tokens cur t hE ht (by simp [*])
        cases hp : parseFieldDefinition fuel tokens cur with
        | error e => rw [hp] at hs; simpa [Safe] using hs
        | ok v => exact ih _ _ _ hE
      · exact hlt
      · exact hlt
      · simp [Safe, throw, throwThe, MonadExceptOf.throw, unexpectedEndOfInput]
      · exact ih _ _ _ hE
    · simp [parseFieldDefinitionsLoop, hlt, Safe, throw, throwThe, MonadExceptOf.throw,
        unexpectedEndOfInput]


theorem parseArgument_safe (argType : FieldType → String)
    (fuel : Nat) (tokens : Tokens) (cur : Nat) (t0 : Token)
    (hE : endsWithEOF tokens = true) (h0 : tokenAt tokens cur = .ok t0) (hk0 : t0.Kind ≠ .EOF) :
    Safe tokens.length (parseArgument argType fuel tokens cur) := by
  have hlt1 := next_lt tokens cur t0 hE h0 hk0
  obtain ⟨t1, h1⟩ := tokenAt_ok_of_lt tokens (cur + 1) hlt1
  by_cases hc : t1.Kind = .Colon
  · have hlt2 := next_lt tokens (cur + 1) t1 hE h1 (by simp [hc])
    have hs := parseFieldType_safe fuel tokens (cur + 1 + 1) hE hlt2
    simp only [parseArgument, bind, Except.bind, pure, Except.pure, h0, h1, hc,
      ne_eq, not_true_eq_false, if_false]
    cases hp : parseFieldType fuel tokens (cur + 1 + 1) with
    | error e => rw [hp] at hs; simpa [Safe] using hs
    | ok v => rw [hp] at hs; simpa [Safe] using hs
  · simp [parseArgument, bind, Except.bind, pure, Except.pure, h0, h1, hc, Safe, throw,
      throwThe, MonadExceptOf.throw]

theorem parseArgumentsLoop_safe (argType : FieldType → String) :
    ∀ (fuel : Nat) (tokens : Tokens) (cur : Nat) (acc : List ArgumentDefinition),
      endsWithEOF tokens = true →
      Safe tokens.length (parseArgumentsLoop argType fuel tokens cur acc) := by
  intro fuel
  induction fuel with
  | zero => intro tokens cur acc _; simp [parseArgumentsLoop, Safe]
  | succ fuel ih =>
    intro tokens cur acc hE
    by_cases hlt : cur < tokens.length
    · obtain ⟨t, ht⟩ := tokenAt_ok_of_lt tokens cur hlt
      simp only [parseArgumentsLoop, hlt, if_true, bind, Except.bind, pure, Except.pure, ht]
      split
      · exact ih _ _ _ hE
      · exact ih _ _ _ hE
      · have hs := parseArgument_safe argType fuel tokens cur t hE ht (by simp [*])
        cases hp : parseArgument argType fuel tokens cur with
        | error e => rw [hp] at hs; simpa [Safe] using hs
        | ok v => exact ih _ _ _ hE
      · exact next_lt tokens cur t hE ht (by simp [*])
      · exact ih _ _ _ hE
    · simp [parseArgumentsLoop, hlt, Safe, throw, throwThe, MonadExceptOf.throw,
        unexpectedEndOfInput]

theorem parseOperationField_safe (argType : FieldType → String)
    (fuel : Nat) (tokens : Tokens) (cur : Nat) (t0 : Token)
    (hE : endsWithEOF tokens = true) (h0 : tokenAt tokens cur = .ok t0) :
    Safe tokens.length (parseOperationField argType fuel tokens cur) := by
  have ha := parseArgumentsLoop_safe argType fuel tokens (cur + 1) [] hE
  simp only [parseOperationField, parseArguments, bind, Except.bind, pure, Except.pure, h0]
  cases hp : parseArgumentsLoop argType fuel tokens (cur + 1) [] with
  | error e => rw [hp] at ha; simpa [Safe] using ha
  | ok v =>
    rw [hp] at ha
    have hltv : v.2 < tokens.length := ha
    obtain ⟨t1, h1⟩ := tokenAt_ok_of_lt tokens v.2 hltv
    by_cases hc : t1.Kind = .Colon
    · have hlt2 := next_lt tokens v.2 t1 hE h1 (by simp [hc])
      have hs := parseFieldType_safe fuel tokens (v.2 + 1) hE hlt2
      simp only [h1, hc, ne_eq, not_true_eq_false, if_false]
      cases hq : parseFieldType fuel tokens (v.2 + 1) with
      | error e => rw [hq] at hs; simpa [Safe] using hs
      | ok w => rw [hq] at hs; simpa [Safe] using hs
    · simp [h1, hc, Safe, throw, throwThe, MonadExceptOf.throw]

theorem parseOperationFieldsLoop_safe (argType : FieldType → String) :
    ∀ (fuel : Nat) (tokens : Tokens) (cur : Nat) (acc : List FieldDefinition),
      endsWithEOF tokens = true →
      Safe tokens.length (parseOperationFieldsLoop argType fuel tokens cur acc) := by
  intro fuel
  induction fuel with
  | zero => intro tokens cur acc _; simp [parseOperationFieldsLoop, Safe]
  | succ fuel ih =>
    intro tokens cur acc hE
    by_cases hlt : cur < tokens.length
    · obtain ⟨t, ht⟩ := tokenAt_ok_of_lt tokens cur hlt
      simp only [parseOperationFieldsLoop, hlt, if_true, bind, Except.bind, pure, Except.pure,
        ht]
      split
      · have hs := parseOperationField_safe argType fuel tokens cur t hE ht
        cases hp : parseOperationField argType fuel tokens cur with
        | error e => rw [hp] at hs; simpa [Safe] using hs
        | ok v => exact ih _ _ _ hE
      · exact hlt
      · simp [Safe, throw, throwThe, MonadExceptOf.throw, unexpectedEndOfInput]
      · exact ih _ _ _ hE
    · simp [parseOperationFieldsLoop, hlt, Safe, throw, throwThe, MonadExceptOf.throw,
        unexpectedEndOfInput]

theorem parseOperationDefinitionLoop_safe (argType : FieldType → String) :
    ∀ (fuel : Nat) (tokens : Tokens) (cur : Nat) (acc : OperationDefinition),
      endsWithEOF tokens = true →
      Safe tokens.length (parseOperationDefinitionLoop argType fuel tokens cur acc) := by
  intro fuel
  induction fuel with
  | zero => intro tokens cur acc _; simp [parseOperationDefinitionLoop, Safe]
  | succ fuel ih =>
    intro tokens cur acc hE
    by_cases hlt : cur < tokens.length
    · obtain ⟨t, ht⟩ := tokenAt_ok_of_lt tokens cur hlt
      simp only [parseOperationDefinitionLoop, parseOperationFields, hlt, if_true, bind,
        Except.bind, pure, Except.pure, ht]
      split
      · have hs := parseOperationFieldsLoop_safe argType fuel tokens cur [] hE
        cases hp : parseOperationFieldsLoop argType fuel tokens cur [] with
        | error e => rw [hp] at hs; simpa [Safe] using hs
        | ok v => exact ih _ _ _ hE
      · exact next_lt tokens cur t hE ht (by simp [*])
      · exact ih _ _ _ hE
    · simp [parseOperationDefinitionLoop, hlt, Safe, throw, throwThe, MonadExceptOf.throw,
        unexpectedEndOfInput]

theorem parseOperationDefinition_safe (argType : FieldType → String)
    (fuel : Nat) (tokens : Tokens) (cur : Nat)
    (hE : endsWithEOF tokens = true) (hlt : cur < tokens.length) :
    Safe tokens.length (parseOperationDefinition argType fuel tokens cur) := by
  obtain ⟨t0, h0⟩ := tokenAt_ok_of_lt tokens cur hlt
  by_cases hk : t0.Kind = .EOF
  · simp [parseOperationDefinition, bind, Except.bind, pure, Except.pure, h0, hk, Safe, throw,
      throwThe, MonadExceptOf.throw, unexpectedToken]
  · have hlt1 := next_lt tokens cur t0 hE h0 hk
    obtain ⟨t1, h1⟩ := tokenAt_ok_of_lt tokens (cur + 1) hlt1
    have hs := fun d => parseOperationDefinitionLoop_safe argType fuel tokens (cur + 1 + 1) d hE
    simp only [parseOperationDefinition, bind, Except.bind, pure, Except.pure, h0]
    split <;>
      first
      | (simp only [h1]
         split <;>
           first
           | exact hs _
           | simp [Safe, throw, throwThe, MonadExceptOf.throw])
      | simp [Safe, throw, throwThe, MonadExceptOf.throw, unexpectedToken]


theorem parseTypeDefinitionLoop_safe :
    ∀ (fuel : Nat) (tokens : Tokens) (start cur : Nat) (acc : TypeDefinition),
      endsWithEOF tokens = true →
      Safe tokens.length (parseTypeDefinitionLoop fuel tokens start cur acc) := by
  intro fuel
  induction fuel with
  | zero => intro tokens start cur acc _; simp [parseTypeDefinitionLoop, Safe]
  | succ fuel ih =>
    intro tokens start cur acc hE
    by_cases hlt : cur < tokens.length
    · obtain ⟨t, ht⟩ := tokenAt_ok_of_lt tokens cur hlt
      simp only [parseTypeDefinitionLoop, parseFieldDefinitions, hlt, if_true, bind,
        Except.bind, pure, Except.pure, ht]
      split
      · have hs := parseFieldDefinitionsLoop_safe fuel tokens cur [] hE
        cases hp : parseFieldDefinitionsLoop fuel tokens cur [] with
        | error e => rw [hp] at hs; simpa [Safe] using hs
        | ok v => exact ih _ _ _ _ hE
      · exact next_lt tokens cur t hE ht (by simp [*])
      · exact ih _ _ _ _ hE
    · simp [parseTypeDefinitionLoop, hlt, Safe, throw, throwThe, MonadExceptOf.throw,
        unexpectedEndOfInput]

theorem parseTypeDefinition_safe (fuel : Nat) (tokens : Tokens) (cur : Nat) (t0 : Token)
    (hE : endsWithEOF tokens = true) (h0 : tokenAt tokens cur = .ok t0) (hk0 : t0.Kind ≠ .EOF) :
    Safe tokens.length (parseTypeDefinition fuel tokens cur) := by
  have hlt1 := next_lt tokens cur t0 hE h0 hk0
  obtain ⟨t1, h1⟩ := tokenAt_ok_of_lt tokens (cur + 1) hlt1
  by_cases hc : t1.Kind = .CurlyOpen
  · simp only [parseTypeDefinition, bind, Except.bind, pure, Except.pure, h0, h1, hc,
      ne_eq, not_true_eq_false, if_false]
    exact parseTypeDefinitionLoop_safe fuel tokens _ _ _ hE
  · simp [parseTypeDefinition, bind, Except.bind, pure, Except.pure, h0, h1, hc, Safe, throw,
      throwThe, MonadExceptOf.throw]

theorem parseInterfaceDefinitionLoop_safe :
    ∀ (fuel : Nat) (tokens : Tokens) (cur : Nat) (acc : InterfaceDefinition),
      endsWithEOF tokens = true →
      Safe tokens.length (parseInterfaceDefinitionLoop fuel tokens cur acc) := by
  intro fuel
  induction fuel with
  | zero => intro tokens cur acc _; simp [parseInterfaceDefinitionLoop, Safe]
  | succ fuel ih =>
    intro tokens cur acc hE
    by_cases hlt : cur < tokens.length
    · obtain ⟨t, ht⟩ := tokenAt_ok_of_lt tokens cur hlt
      simp only [parseInterfaceDefinitionLoop, parseFieldDefinitions, hlt, if_true, bind,
        Except.bind, pure, Except.pure, ht]
      split
      · have hs := parseFieldDefinitionsLoop_safe fuel tokens cur [] hE
        cases hp : parseFieldDefinitionsLoop fuel tokens cur [] with
        | error e => rw [hp] at hs; simpa [Safe] using hs
        | ok v => exact ih _ _ _ hE
      · exact next_lt tokens cur t hE ht (by simp [*])
      · exact ih _ _ _ hE
    · simp [parseInterfaceDefinitionLoop, hlt, Safe, throw, throwThe, MonadExceptOf.throw,
        unexpectedEndOfInput]

theorem parseInterfaceDefinition_safe (kindText : TokenType → String) (fuel : Nat)
    (tokens : Tokens) (cur : Nat) (t0 : Token) (hE : endsWithEOF tokens = true)
    (h0 : tokenAt tokens cur = .ok t0) (hk0 : t0.Kind ≠ .EOF) :
    Safe tokens.length (parseInterfaceDefinition kindText fuel tokens cur) := by
  have hlt1 := next_lt tokens cur t0 hE h0 hk0
  obtain ⟨t1, h1⟩ := tokenAt_ok_of_lt tokens (cur + 1) hlt1
  by_cases hi : t1.Kind = .Identifier
  · have hlt2 := next_lt tokens (cur + 1) t1 hE h1 (by simp [hi])
    obtain ⟨t2, h2⟩ := tokenAt_ok_of_lt tokens (cur + 1 + 1) hlt2
    by_cases hc : t2.Kind = .CurlyOpen
    · simp only [parseInterfaceDefinition, bind, Except.bind, pure, Except.pure, h1, hi, h2,
        hc, ne_eq, not_true_eq_false, if_false]
      exact parseInterfaceDefinitionLoop_safe fuel tokens _ _ hE
    · simp [parseInterfaceDefinition, bind, Except.bind, pure, Except.pure, h1, hi, h2, hc,
        Safe, throw, throwThe, MonadExceptOf.throw]
  · simp [parseInterfaceDefinition, bind, Except.bind, pure, Except.pure, h1, hi, Safe, throw,
      throwThe, MonadExceptOf.throw]

theorem parseUnionDefinitionLoop_safe :
    ∀ (fuel : Nat) (tokens : Tokens) (cur : Nat) (prev : Token) (acc : UnionDefinition),
      endsWithEOF tokens = true →
      Safe tokens.length (parseUnionDefinitionLoop fuel tokens cur prev acc) := by
  intro fuel
  induction fuel with
  | zero => intro tokens cur prev acc _; simp [parseUnionDefinitionLoop, Safe]
  | succ fuel ih =>
    intro tokens cur prev acc hE
    by_cases hlt : cur < tokens.length
    · obtain ⟨t, ht⟩ := tokenAt_ok_of_lt tokens cur hlt
      simp only [parseUnionDefinitionLoop, hlt, if_true, bind, Except.bind, pure, Except.pure,
        ht]
      repeat' split
      all_goals
        first
        | exact ih _ _ _ _ hE
        | exact hlt
        | simp [Safe, throw, throwThe, MonadExceptOf.throw, unexpectedEndOfInput,
            unexpectedToken]
    · simp [parseUnionDefinitionLoop, hlt, Safe, throw, throwThe, MonadExceptOf.throw,
        unexpectedEndOfInput]

theorem parseUnionDefinition_safe (fuel : Nat) (tokens : Tokens) (cur : Nat) (t0 : Token)
    (hE : endsWithEOF tokens = true) (h0 : tokenAt tokens cur = .ok t0) (hk0 : t0.Kind ≠ .EOF) :
    Safe tokens.length (parseUnionDefinition fuel tokens cur) := by
  have hlt1 := next_lt tokens cur t0 hE h0 hk0
  obtain ⟨t1, h1⟩ := tokenAt_ok_of_lt tokens (cur + 1) hlt1
  by_cases hi : t1.Kind = .Identifier
  · have hlt2 := next_lt tokens (cur + 1) t1 hE h1 (by simp [hi])
    obtain ⟨t2, h2⟩ := tokenAt_ok_of_lt tokens (cur + 1 + 1) hlt2
    by_cases hc : t2.Kind = .Equal
    · simp only [parseUnionDefinition, bind, Except.bind, pure, Except.pure, h1, hi, h2,
        hc, ne_eq, not_true_eq_false, if_false]
      exact parseUnionDefinitionLoop_safe fuel tokens _ _ _ hE
    · simp [parseUnionDefinition, bind, Except.bind, pure, Except.pure, h1, hi, h2, hc,
        Safe, throw, throwThe, MonadExceptOf.throw]
  · simp [parseUnionDefinition, bind, Except.bind, pure, Except.pure, h1, hi, Safe, throw,
      throwThe, MonadExceptOf.throw]

/-- The top-level loop never reads outside the token sequence. -/
theorem ParseLoop_safe (argType : FieldType → String) (kindText : TokenType → String) :
    ∀ (fuel : Nat) (tokens : Tokens) (cur : Nat) (schema : Schema),
      endsWithEOF tokens = true →
      ParseLoop argType kindText fuel tokens cur schema ≠ .error .panic := by
  intro fuel
  induction fuel with
  | zero => intro tokens cur schema _; simp [ParseLoop]
  | succ fuel ih =>
    intro tokens cur schema hE
    by_cases hlt : cur < tokens.length
    · obtain ⟨t, ht⟩ := tokenAt_ok_of_lt tokens cur hlt
      simp only [ParseLoop, hlt, if_true, bind, Except.bind, pure, Except.pure, ht]
      split
      · have hlt1 := next_lt tokens cur t hE ht (by simp [*])
        obtain ⟨t1, h1⟩ := tokenAt_ok_of_lt tokens (cur + 1) hlt1
        simp only [hlt1, true_and, if_true]
        split
        · rename_i hcond
          rw [getElem?_of_tokenAt tokens (cur + 1) t1 h1] at hcond
          simp only [Option.map_some', Option.some.injEq] at hcond
          have hs := parseTypeDefinition_safe fuel tokens (cur + 1) t1 hE h1 (by simp [hcond])
          cases hp : parseTypeDefinition fuel tokens (cur + 1) with
          | error e => rw [hp] at hs; simpa [Safe] using hs
          | ok v => exact ih _ _ _ hE
        · have hs := parseOperationDefinition_safe argType fuel tokens (cur + 1) hE hlt1
          cases hp : parseOperationDefinition argType fuel tokens (cur + 1) with
          | error e => rw [hp] at hs; simpa [Safe] using hs
          | ok v => exact ih _ _ _ hE
      · have hs := parseInterfaceDefinition_safe kindText fuel tokens cur t hE ht (by simp [*])
        cases hp : parseInterfaceDefinition kindText fuel tokens cur with
        | error e => rw [hp] at hs; simpa [Safe] using hs
        | ok v => exact ih _ _ _ hE
      · have hs := parseUnionDefinition_safe fuel tokens cur t hE ht (by simp [*])
        cases hp : parseUnionDefinition fuel tokens cur with
        | error e => rw [hp] at hs; simpa [Safe] using hs
        | ok v => exact ih _ _ _ hE
      · simp
      · exact ih _ _ _ hE
    · simp [ParseLoop, hlt, throw, throwThe, MonadExceptOf.throw, unexpectedEndOfInput]


/-- C19: on every token sequence whose last token is the end-of-input token,
and for every fuel, `Parse` never reads a token outside the sequence (no
production it calls panics on an index), and a `type` keyword is never the last
token, so the branch that would read past it is never taken. -/
theorem C19_no_index_out_of_range (argType : FieldType → String)
    (kindText : TokenType → String) (fuel : Nat)
    (tokens : Tokens) (hE : endsWithEOF tokens = true) :
    Parse argType kindText fuel tokens ≠ .error .panic
      ∧ (∀ cur t, tokenAt tokens cur = .ok t → t.Kind = .ReservedType →
          cur + 1 < tokens.length) :=
  ⟨ParseLoop_safe argType kindText fuel tokens 0 _ hE,
    fun cur t h hk => next_lt tokens cur t hE h (by simp [hk])⟩

/-- The truncated text `type T { f: [`. -/
theorem C19_no_index_out_of_range_witness :
    Parse (fun _ => "") (fun _ => "") 7
        [⟨.ReservedType, "type"⟩, ⟨.Identifier, "T"⟩, ⟨.CurlyOpen, "\x7b"⟩, ⟨.Field, "f"⟩,
          ⟨.Colon, ":"⟩, ⟨.BracketOpen, "["⟩, ⟨.EOF, ""⟩]
      ≠ .error .panic :=
  (C19_no_index_out_of_range (fun _ => "") (fun _ => "") 7
    [⟨.ReservedType, "type"⟩, ⟨.Identifier, "T"⟩, ⟨.CurlyOpen, "\x7b"⟩, ⟨.Field, "f"⟩,
      ⟨.Colon, ":"⟩, ⟨.BracketOpen, "["⟩, ⟨.EOF, ""⟩] rfl).1

/-- C20: on every token sequence whose last token is the end-of-input token and
from every cursor inside it, `parseFieldType` with fuel for the tokens that are
left returns a FieldType (never an error) and a cursor from the starting one up
to, not including, the length of the sequence. -/
theorem C20_parseFieldType_total (fuel : Nat) (tokens : Tokens) (cur : Nat)
    (hE : endsWithEOF tokens = true) (hlt : cur < tokens.length)
    (hf : tokens.length - cur ≤ fuel) :
    returnsWithin cur tokens.length (parseFieldType fuel tokens cur) := by
  rcases parseFieldType_total fuel tokens cur hE hlt with ⟨ft, c, h, hle, hc⟩ | ⟨_, hfu⟩
  · rw [h]; exact ⟨hle, hc⟩
  · omega

/-- The unclosed list `[Foo` before a closing brace is a list of `Foo`, and the
stray `]` after `Foo` is consumed. -/
theorem C20_parseFieldType_total_witness :
    returnsWithin 0 4
        (parseFieldType 4
          [⟨.BracketOpen, "["⟩, ⟨.Identifier, "Foo"⟩, ⟨.CurlyClose, "\x7d"⟩, ⟨.EOF, ""⟩] 0)
    ∧ parseFieldType 4
        [⟨.BracketOpen, "["⟩, ⟨.Identifier, "Foo"⟩, ⟨.CurlyClose, "\x7d"⟩, ⟨.EOF, ""⟩] 0
      = .ok ({ Name := none, Nullable := true, IsList := true,
               ListType := some { Name := some "Foo", Nullable := true, IsList := false,
                                  ListType := none } }, 2)
    ∧ parseFieldType 4
        [⟨.Identifier, "Foo"⟩, ⟨.BracketClose, "]"⟩, ⟨.CurlyClose, "\x7d"⟩, ⟨.EOF, ""⟩] 0
      = .ok ({ Name := some "Foo", Nullable := true, IsList := false, ListType := none }, 2) :=
  ⟨C20_parseFieldType_total 4
      [⟨.BracketOpen, "["⟩, ⟨.Identifier, "Foo"⟩, ⟨.CurlyClose, "\x7d"⟩, ⟨.EOF, ""⟩] 0
      rfl (by decide) (by decide), rfl, rfl⟩

/-! ## What the block loops do get right -/

/-- Well-formed fields and then the end of input: the field loop has a case for
it. -/
theorem parseFieldDefinitionsLoop_eof (fs : List FieldSrc) :
    ∀ (fuel : Nat) (pre : Tokens) (eof : Token) (rest : Tokens) (acc : List FieldDefinition),
      (renderFields fs).length + 1 ≤ fuel → eof.Kind = .EOF →
      parseFieldDefinitionsLoop fuel (pre ++ (renderFields fs ++ eof :: rest)) pre.length acc
        = .error unexpectedEndOfInput := by
  induction fs with
  | nil =>
    intro fuel pre eof rest acc hf he
    obtain ⟨fuel, rfl⟩ : ∃ k, fuel = k + 1 := ⟨fuel - 1, by omega⟩
    have e0 : tokenAt (pre ++ (renderFields [] ++ eof :: rest)) pre.length = .ok eof :=
      tokenAt_of_eq pre _ rest _ _ (by simp [renderFields]) rfl
    have hlt := lt_length_of_tokenAt _ _ _ e0
    generalize pre ++ (renderFields [] ++ eof :: rest) = toks at e0 hlt
    obtain ⟨k, v⟩ := eof
    simp only at he
    subst he
    simp [parseFieldDefinitionsLoop, hlt, e0, bind, Except.bind, throw, throwThe,
      MonadExceptOf.throw]
  | cons f fs ih =>
    intro fuel pre eof rest acc hf he
    obtain ⟨fuel, rfl⟩ : ∃ k, fuel = k + 1 := ⟨fuel - 1, by omega⟩
    have hlen : (renderFields (f :: fs)).length
        = f.typ.render.length + 2 + (renderFields fs).length := by
      simp [renderFields, FieldSrc.render]; omega
    have hd := f.typ.depth_le_length
    obtain ⟨nxt, rest', hnx, hk⟩ := renderFields_head fs eof rest
    have e0 : tokenAt (pre ++ (renderFields (f :: fs) ++ eof :: rest)) pre.length
        = .ok ⟨.Field, f.name⟩ :=
      tokenAt_of_eq pre _ (⟨.Colon, ":"⟩ :: (f.typ.render ++ (renderFields fs ++ eof :: rest)))
        _ _ (by simp [renderFields, FieldSrc.render]) rfl
    have hlt := lt_length_of_tokenAt _ _ _ e0
    have hnk : nxt.Kind ≠ .BracketOpen ∧ nxt.Kind ≠ .Exclamation ∧ nxt.Kind ≠ .BracketClose := by
      rcases hk with hk | hk
      · simp [hk]
      · subst hk; simp [he]
    have e1 := parseFieldDefinition_render f fuel pre nxt rest' (by omega) hnk.1 hnk.2.1 hnk.2.2
    rw [← hnx] at e1
    have et : pre ++ (f.render ++ (renderFields fs ++ eof :: rest))
        = pre ++ (renderFields (f :: fs) ++ eof :: rest) := by simp [renderFields]
    rw [et] at e1
    have e2 := ih fuel (pre ++ f.render) eof rest (acc ++ [f.toFieldDefinition]) (by omega) he
    have et2 : (pre ++ f.render) ++ (renderFields fs ++ eof :: rest)
        = pre ++ (renderFields (f :: fs) ++ eof :: rest) := by simp [renderFields]
    rw [et2] at e2
    simp only [List.length_append] at e2
    generalize pre ++ (renderFields (f :: fs) ++ eof :: rest) = toks at e0 e1 e2 hlt
    simp [parseFieldDefinitionsLoop, hlt, e0, e1, e2, bind, Except.bind]

/-- A type block with at least one field and no closing brace before the end of
input does fail with "unexpected end of input". -/
theorem parseTypeDefinition_fields_then_eof (name : String) (f : FieldSrc)
    (fs : List FieldSrc) (fuel : Nat) (pre : Tokens) (eof : Token) (rest : Tokens)
    (hf : (renderFields (f :: fs)).length + 2 ≤ fuel) (he : eof.Kind = .EOF) :
    parseTypeDefinition fuel
        (pre ++ (TypeSrc.body { name := name, fields := f :: fs } ++ eof :: rest)) pre.length
      = .error unexpectedEndOfInput := by
  obtain ⟨fuel, rfl⟩ : ∃ k, fuel = k + 1 := ⟨fuel - 1, by omega⟩
  have e0 : tokenAt (pre ++ (TypeSrc.body { name := name, fields := f :: fs } ++ eof :: rest))
      pre.length = .ok ⟨.Identifier, name⟩ :=
    tokenAt_of_eq pre _ (⟨.CurlyOpen, "\x7b"⟩ :: (renderFields (f :: fs) ++ eof :: rest)) _ _
      (by simp [TypeSrc.body]) rfl
  have e1 : tokenAt (pre ++ (TypeSrc.body { name := name, fields := f :: fs } ++ eof :: rest))
      (pre.length + 1) = .ok ⟨.CurlyOpen, "\x7b"⟩ :=
    tokenAt_of_eq (pre ++ [⟨.Identifier, name⟩]) _ (renderFields (f :: fs) ++ eof :: rest) _ _
      (by simp [TypeSrc.body]) (by simp)
  have e2 : tokenAt (pre ++ (TypeSrc.body { name := name, fields := f :: fs } ++ eof :: rest))
      (pre.length + 1 + 1) = .ok ⟨.Field, f.name⟩ :=
    tokenAt_of_eq (pre ++ [⟨.Identifier, name⟩, ⟨.CurlyOpen, "\x7b"⟩]) _
      (⟨.Colon, ":"⟩ :: (f.typ.render ++ (renderFields fs ++ eof :: rest))) _ _
      (by simp [TypeSrc.body, renderFields, FieldSrc.render]) (by simp)
  have hlt2 := lt_length_of_tokenAt _ _ _ e2
  have e3 := parseFieldDefinitionsLoop_eof (f :: fs) fuel
    (pre ++ [⟨.Identifier, name⟩, ⟨.CurlyOpen, "\x7b"⟩]) eof rest [] (by omega) he
  have et : (pre ++ [⟨.Identifier, name⟩, ⟨.CurlyOpen, "\x7b"⟩])
        ++ (renderFields (f :: fs) ++ eof :: rest)
      = pre ++ (TypeSrc.body { name := name, fields := f :: fs } ++ eof :: rest) := by
    simp [TypeSrc.body]
  rw [et] at e3
  simp only [List.length_append, List.length_cons, List.length_nil] at e3
  have hc : pre.length + (0 + 1 + 1) = pre.length + 1 + 1 := by omega
  rw [hc] at e3
  generalize pre ++ (TypeSrc.body { name := name, fields := f :: fs } ++ eof :: rest) = toks
    at e0 e1 e2 e3 hlt2
  simp [parseTypeDefinition, parseTypeDefinitionLoop, parseFieldDefinitions, bind, Except.bind,
    pure, Except.pure, e0, e1, e2, e3, hlt2]

/-- `Parse` of such a block, type or interface. -/
theorem Parse_fields_then_eof (argType : FieldType → String)
    (kindText : TokenType → String) (name : String) (f : FieldSrc)
    (fs : List FieldSrc) (eof : Token) (rest : Tokens) (fuel : Nat)
    (hf : (renderFields (f :: fs)).length + 3 ≤ fuel) (he : eof.Kind = .EOF) :
    Parse argType kindText fuel
        (⟨.ReservedType, "type"⟩
          :: (TypeSrc.body { name := name, fields := f :: fs } ++ eof :: rest))
        = .error unexpectedEndOfInput
      ∧ Parse argType kindText fuel
        (⟨.Interface, "interface"⟩
          :: (TypeSrc.body { name := name, fields := f :: fs } ++ eof :: rest))
        = .error unexpectedEndOfInput := by
  obtain ⟨fuel, rfl⟩ : ∃ k, fuel = k + 1 := ⟨fuel - 1, by omega⟩
  constructor
  · exact Parse_type_error argType kindText fuel _ "type" name
      (⟨.CurlyOpen, "\x7b"⟩ :: (renderFields (f :: fs) ++ eof :: rest)) _
      (by simp [TypeSrc.body])
      (parseTypeDefinition_fields_then_eof name f fs fuel [⟨.ReservedType, "type"⟩] eof rest
        (by omega) he)
  · have h := parseTypeDefinition_fields_then_eof name f fs fuel [⟨.Interface, "interface"⟩]
      eof rest (by omega) he
    have ht : [⟨.Interface, "interface"⟩]
          ++ (TypeSrc.body { name := name, fields := f :: fs } ++ eof :: rest)
        = ⟨.Interface, "interface"⟩ :: ⟨.Identifier, name⟩
            :: (⟨.CurlyOpen, "\x7b"⟩ :: (renderFields (f :: fs) ++ eof :: rest)) := by
      simp [TypeSrc.body]
    rw [ht] at h
    exact Parse_interface_error argType kindText fuel _ "interface"
      (⟨.Identifier, name⟩
        :: (⟨.CurlyOpen, "\x7b"⟩ :: (renderFields (f :: fs) ++ eof :: rest))) _
      (by simp [TypeSrc.body])
      (parseInterfaceDefinition_error kindText fuel "interface" name _ _ h)

/-- A `(` between two fields is one of the two tokens that the field loop does
skip: the block parses with both fields. -/
theorem Parse_skips_paren_between_fields :
    Parse (fun _ => "") (fun _ => "") 12 skippedParenExample
      = .ok { tokens := skippedParenExample,
              Types :=
                [{ Name := "T",
                   Fields :=
                     [{ Name := "a", Arguments := [],
                        Typ := some { Name := some "A", Nullable := true, IsList := false,
                                      ListType := none } },
                      { Name := "b", Arguments := [],
                        Typ := some { Name := some "B", Nullable := true, IsList := false,
                                      ListType := none } }],
                   tokens := (skippedParenExample.drop 1).take 9 }] } := rfl

end schema
